import Mathlib

/-!
# pqparser (v9): parsing of libpq connection strings and URIs

A shallow embedding of `v9/pqparser.go` together with the parts of the Go
standard library the parser calls (`strings`, `strconv`, `fmt`, `net/url`,
`encoding/csv`).

Conventions of the embedding.

* A Go string is a sequence of bytes.  It is modelled as `List Char`, one
  `Char` per byte (so every ASCII text is modelled by itself).
* `os.Getenv`, `user.Current` and `tls.LoadX509KeyPair` read the process
  environment; they are fields of `World`.  `os.Getenv` returns the empty
  string for a variable that is not set.
* Go iterates a map in an unspecified order.  A map is modelled as an
  association list without repeated keys and the order in which `range`
  visits it is the field `World.rangeOrder`, which is only assumed to return
  a permutation of the entries.
* `int` is the 64 bit integer of the usual platforms.
* An `error` value is modelled by the place that creates it; the text of the
  message is not modelled.
* The standard library is modelled after the Go releases 1.17 to 1.21.
-/

namespace pqparser

/-- A Go string: a list of bytes, each written as a `Char`. -/
abbrev Str := List Char

/-! ## package strings -/

namespace strings

/-- Go `strings.HasPrefix`. -/
def HasPrefix (s pre : Str) : Bool := pre.isPrefixOf s

/-- Go `strings.HasSuffix`. -/
def HasSuffix (s suf : Str) : Bool := suf.isSuffixOf s

/-- Go `strings.TrimPrefix`. -/
def TrimPrefix (s pre : Str) : Str :=
  if HasPrefix s pre then s.drop pre.length else s

/-- Go `strings.TrimSuffix`. -/
def TrimSuffix (s suf : Str) : Str :=
  if HasSuffix s suf then s.take (s.length - suf.length) else s

/-- Go `strings.ContainsRune` for an ASCII rune. -/
def ContainsRune (s : Str) (r : Char) : Bool := s.contains r

/-- Go `strings.Cut`: the text before and after the first instance of `sep`,
and whether `sep` was found. -/
def Cut (sep : Str) : Str → Option (Str × Str)
  | [] => if sep = [] then some ([], []) else none
  | c :: cs =>
    if sep.isPrefixOf (c :: cs) then some ([], (c :: cs).drop sep.length)
    else match Cut sep cs with
      | some (a, b) => some (c :: a, b)
      | none => none

/-- Go `strings.Contains`. -/
def Contains (s sep : Str) : Bool := (Cut sep s).isSome

/-- Go `strings.SplitN(s, sep, 2)` for a non-empty separator. -/
def SplitN2 (s sep : Str) : List Str :=
  match Cut sep s with
  | some (a, b) => [a, b]
  | none => [s]

/-- The loop of Go `strings.Replace` for a non-empty `old`: `skip` counts the
bytes of a match that are still to be passed over. -/
def replaceFrom (old new : Str) : Nat → Str → Str
  | _, [] => []
  | skip + 1, _ :: cs => replaceFrom old new skip cs
  | 0, c :: cs =>
    if old.isPrefixOf (c :: cs) then new ++ replaceFrom old new (old.length - 1) cs
    else c :: replaceFrom old new 0 cs

/-- Go `strings.ReplaceAll` for a non-empty `old` (non-overlapping matches,
leftmost first). -/
def ReplaceAll (s old new : Str) : Str := replaceFrom old new 0 s

/-- Go `strings.Trim`: leading and trailing bytes of `cutset` removed. -/
def Trim (s cutset : Str) : Str :=
  ((s.dropWhile (fun c => cutset.contains c)).reverse.dropWhile
    (fun c => cutset.contains c)).reverse

/-- The text before and after the last instance of the byte `c`
(Go `strings.LastIndexByte` followed by slicing). -/
def CutLast (c : Char) : Str → Option (Str × Str)
  | [] => none
  | x :: xs =>
    match CutLast c xs with
    | some (a, b) => some (x :: a, b)
    | none => if x = c then some ([], xs) else none

/-- Go `strings.Count(s, sep)` for a one-byte separator. -/
def CountByte (s : Str) (c : Char) : Nat := s.count c

/-- Go `strings.ToLower` on ASCII letters. -/
def ToLower (s : Str) : Str :=
  s.map (fun c => if 65 ≤ c.toNat ∧ c.toNat ≤ 90 then Char.ofNat (c.toNat + 32) else c)

end strings

/-! ## packages strconv and fmt -/

namespace strconv

/-- Value of a decimal digit. -/
def digitVal (c : Char) : Option Nat :=
  if 48 ≤ c.toNat ∧ c.toNat ≤ 57 then some (c.toNat - 48) else none

/-- Value of a string of decimal digits, continuing from `acc`. -/
def parseDigits : Str → Nat → Option Nat
  | [], acc => some acc
  | c :: cs, acc =>
    match digitVal c with
    | none => none
    | some d => parseDigits cs (acc * 10 + d)

/-- Go `strconv.Atoi`: an optional sign and at least one decimal digit, the
value within the range of a 64 bit `int`; `none` is the error result. -/
def Atoi (s : Str) : Option Int :=
  let neg := s.head? = some '-'
  let body := if s.head? = some '-' ∨ s.head? = some '+' then s.tail else s
  if body = [] then none
  else match parseDigits body 0 with
    | none => none
    | some n =>
      let v : Int := if neg then -(n : Int) else (n : Int)
      if -9223372036854775808 ≤ v ∧ v ≤ 9223372036854775807 then some v else none

end strconv

namespace fmt

/-- The verb `%d` of Go `fmt.Sprintf` applied to an `int`. -/
def formatInt : Int → Str
  | Int.ofNat n => Nat.toDigits 10 n
  | Int.negSucc n => '-' :: Nat.toDigits 10 (n + 1)

end fmt

/-- Conversion of an integer to `int64` with wrap-around, the arithmetic of
`time.Duration`. -/
def wrapInt64 (v : Int) : Int :=
  (v + 9223372036854775808) % 18446744073709551616 - 9223372036854775808

/-! ## package net/url -/

namespace url

/-- The modes of `unescape` (the constants `encodePath` ... of `net/url`). -/
inductive encoding where
  | encodePath
  | encodeHost
  | encodeZone
  | encodeUserPassword
  | encodeQueryComponent
  | encodeFragment
  deriving DecidableEq, Repr

/-- The user name and password of a URL (`url.Userinfo`). -/
structure Userinfo where
  username : Str
  password : Str
  passwordSet : Bool
  deriving DecidableEq, Repr

/-- The fields of `url.URL` that `Parse` fills and the parser can observe. -/
structure URL where
  Scheme : Str := []
  Opaque : Str := []
  User : Option Userinfo := none
  Host : Str := []
  Path : Str := []
  RawQuery : Str := []
  Fragment : Str := []
  deriving DecidableEq, Repr

/-- Go `ishex`. -/
def ishex (c : Char) : Bool :=
  (48 ≤ c.toNat && c.toNat ≤ 57) || (97 ≤ c.toNat && c.toNat ≤ 102) ||
    (65 ≤ c.toNat && c.toNat ≤ 70)

/-- Go `unhex`. -/
def unhex (c : Char) : Nat :=
  if 48 ≤ c.toNat ∧ c.toNat ≤ 57 then c.toNat - 48
  else if 97 ≤ c.toNat ∧ c.toNat ≤ 102 then c.toNat - 97 + 10
  else if 65 ≤ c.toNat ∧ c.toNat ≤ 70 then c.toNat - 65 + 10
  else 0

/-- ASCII letter or digit. -/
def isAlnum (c : Char) : Bool :=
  (97 ≤ c.toNat && c.toNat ≤ 122) || (65 ≤ c.toNat && c.toNat ≤ 90) ||
    (48 ≤ c.toNat && c.toNat ≤ 57)

/-- Go `shouldEscape(c, encodeHost)`: letters, digits, the sub-delimiters,
`: [ ] < >`, the double quote and the marks `- _ . ~` need no escape in a host. -/
def shouldEscapeHost (c : Char) : Bool :=
  !(isAlnum c ||
    [Char.ofNat 33, '$', '&', Char.ofNat 39, '(', ')', '*', '+', ',', ';', '=', ':',
      '[', ']', '<', '>', Char.ofNat 34].contains c ||
    ['-', '_', '.', '~'].contains c)

/-- First loop of Go `unescape`: every `%` is followed by two hex digits, and
in a host or zone only the permitted bytes and escapes occur. -/
def unescapeCheck (mode : encoding) : Str → Bool
  | [] => true
  | c :: rest =>
    if c = '%' then
      match rest with
      | a :: b :: rest2 =>
        if !(ishex a && ishex b) then false
        else if mode = encoding.encodeHost ∧ unhex a < 8 ∧ ¬ (a = '2' ∧ b = '5') then false
        else if mode = encoding.encodeZone ∧ ¬ (a = '2' ∧ b = '5') ∧
            unhex a * 16 + unhex b ≠ 32 ∧
            shouldEscapeHost (Char.ofNat (unhex a * 16 + unhex b)) then false
        else unescapeCheck mode rest2
      | _ => false
    else if c = '+' then unescapeCheck mode rest
    else if (mode = encoding.encodeHost ∨ mode = encoding.encodeZone) ∧
        c.toNat < 128 ∧ shouldEscapeHost c then false
    else unescapeCheck mode rest

/-- Second loop of Go `unescape`: the escapes replaced by their bytes. -/
def unescapeDecode (mode : encoding) : Str → Str
  | [] => []
  | c :: rest =>
    if c = '%' then
      match rest with
      | a :: b :: rest2 => Char.ofNat (unhex a * 16 + unhex b) :: unescapeDecode mode rest2
      | _ => []
    else if c = '+' then
      (if mode = encoding.encodeQueryComponent then ' ' else '+') :: unescapeDecode mode rest
    else c :: unescapeDecode mode rest

/-- Go `unescape`; `none` is the error result. -/
def unescape (s : Str) (mode : encoding) : Option Str :=
  if unescapeCheck mode s then some (unescapeDecode mode s) else none

/-- Go `QueryUnescape`. -/
def QueryUnescape (s : Str) : Option Str := unescape s encoding.encodeQueryComponent

/-- Go `stringContainsCTLByte`. -/
def stringContainsCTLByte (s : Str) : Bool :=
  s.any (fun c => c.toNat < 32 || c.toNat = 127)

/-- Go `validUserinfo`. -/
def validUserinfo (s : Str) : Bool :=
  s.all (fun c => isAlnum c ||
    ['-', '.', '_', ':', '~', Char.ofNat 33, '$', '&', Char.ofNat 39, '(', ')', '*', '+',
      ',', ';', '=', '%', '@'].contains c)

/-- Go `validOptionalPort`: empty, or a colon followed by decimal digits. -/
def validOptionalPort (port : Str) : Bool :=
  match port with
  | [] => true
  | c :: digits => c = ':' && digits.all (fun b => 48 ≤ b.toNat && b.toNat ≤ 57)

/-- Go `parseHost`: checks `host[:port]`; `none` is the error result. -/
def parseHost (host : Str) : Option Str :=
  if strings.HasPrefix host ['['] then
    match strings.CutLast ']' host with
    | none => none
    | some (before, colonPort) =>
      if !validOptionalPort colonPort then none
      else match strings.Cut ['%', '2', '5'] before with
        | some (h1, z) =>
          match unescape h1 encoding.encodeHost,
              unescape ('%' :: '2' :: '5' :: z) encoding.encodeZone,
              unescape (']' :: colonPort) encoding.encodeHost with
          | some host1, some host2, some host3 => some (host1 ++ host2 ++ host3)
          | _, _, _ => none
        | none => unescape host encoding.encodeHost
  else
    match strings.CutLast ':' host with
    | some (_, digits) =>
      if !validOptionalPort (':' :: digits) then none
      else unescape host encoding.encodeHost
    | none => unescape host encoding.encodeHost

/-- Go `parseAuthority`: splits at the last `@`. -/
def parseAuthority (authority : Str) : Option (Option Userinfo × Str) :=
  match strings.CutLast '@' authority with
  | none =>
    match parseHost authority with
    | none => none
    | some host => some (none, host)
  | some (userinfo, hostport) =>
    match parseHost hostport with
    | none => none
    | some host =>
      if !validUserinfo userinfo then none
      else match strings.Cut [':'] userinfo with
        | none =>
          match unescape userinfo encoding.encodeUserPassword with
          | none => none
          | some u => some (some ⟨u, [], false⟩, host)
        | some (username, password) =>
          match unescape username encoding.encodeUserPassword,
              unescape password encoding.encodeUserPassword with
          | some u, some p => some (some ⟨u, p, true⟩, host)
          | _, _ => none

/-- The loop of Go `getScheme`: `i` is the index of the byte looked at. -/
def getSchemeFrom (rawURL : Str) : Nat → Str → Option (Str × Str)
  | _, [] => some ([], rawURL)
  | i, c :: cs =>
    if (97 ≤ c.toNat ∧ c.toNat ≤ 122) ∨ (65 ≤ c.toNat ∧ c.toNat ≤ 90) then
      getSchemeFrom rawURL (i + 1) cs
    else if (48 ≤ c.toNat ∧ c.toNat ≤ 57) ∨ c = '+' ∨ c = '-' ∨ c = '.' then
      if i = 0 then some ([], rawURL) else getSchemeFrom rawURL (i + 1) cs
    else if c = ':' then
      if i = 0 then none else some (rawURL.take i, cs)
    else some ([], rawURL)

/-- Go `getScheme`: the scheme and the rest; `none` is the error
"missing protocol scheme". -/
def getScheme (rawURL : Str) : Option (Str × Str) := getSchemeFrom rawURL 0 rawURL

/-- Go `(*URL).setPath`: the path unescaped. -/
def setPath (u : URL) (p : Str) : Option URL :=
  match unescape p encoding.encodePath with
  | none => none
  | some path => some { u with Path := path }

/-- Go `parse(rawURL, false)`. -/
def parse (rawURL : Str) : Option URL :=
  if stringContainsCTLByte rawURL then none
  else if rawURL = ['*'] then some { Path := ['*'] }
  else match getScheme rawURL with
    | none => none
    | some (scheme, rest0) =>
      let scheme := strings.ToLower scheme
      let restQuery : Str × Str :=
        if strings.HasSuffix rest0 ['?'] ∧ strings.CountByte rest0 '?' = 1 then
          (rest0.take (rest0.length - 1), [])
        else match strings.Cut ['?'] rest0 with
          | some (a, b) => (a, b)
          | none => (rest0, [])
      let rest := restQuery.1
      let u : URL := { Scheme := scheme, RawQuery := restQuery.2 }
      if ¬ strings.HasPrefix rest ['/'] ∧ scheme ≠ [] then
        -- a rootless path is opaque
        some { u with Opaque := rest }
      else if ¬ strings.HasPrefix rest ['/'] ∧
          strings.ContainsRune
            (match strings.Cut ['/'] rest with
              | some (segment, _) => segment
              | none => rest) ':' then
        -- first path segment in URL cannot contain colon
        none
      else if (scheme ≠ [] ∨ ¬ strings.HasPrefix rest ['/', '/', '/']) ∧
          strings.HasPrefix rest ['/', '/'] then
        let authRest : Str × Str :=
          match strings.Cut ['/'] (rest.drop 2) with
          | some (a, b) => (a, '/' :: b)
          | none => (rest.drop 2, [])
        match parseAuthority authRest.1 with
        | none => none
        | some (user, host) => setPath { u with User := user, Host := host } authRest.2
      else setPath u rest

/-- Go `url.Parse`: the fragment is cut off at the first `#` and unescaped,
the rest is parsed by `parse`; `none` is the error result. -/
def Parse (rawURL : Str) : Option URL :=
  let uFrag : Str × Str :=
    match strings.Cut ['#'] rawURL with
    | some (a, b) => (a, b)
    | none => (rawURL, [])
  match parse uFrag.1 with
  | none => none
  | some u =>
    if uFrag.2 = [] then some u
    else match unescape uFrag.2 encoding.encodeFragment with
      | none => none
      | some frag => some { u with Fragment := frag }

/-- Go `(*Userinfo).Username`, also defined on the nil pointer. -/
def Username (u : Option Userinfo) : Str :=
  match u with
  | none => []
  | some ui => ui.username

/-- Go `(*Userinfo).Password`, also defined on the nil pointer. -/
def Password (u : Option Userinfo) : Str × Bool :=
  match u with
  | none => ([], false)
  | some ui => (ui.password, ui.passwordSet)

/-- Go `(*URL).Port`: the text after the last colon of the host when it is a
valid port. -/
def Port (u : URL) : Str :=
  match strings.CutLast ':' u.Host with
  | some (_, digits) => if validOptionalPort (':' :: digits) then digits else []
  | none => []

/-- The pieces of `s` between the instances of the byte `c`. -/
def splitByte (c : Char) : Str → List Str
  | [] => [[]]
  | x :: xs =>
    if x = c then [] :: splitByte c xs
    else match splitByte c xs with
      | [] => [[x]]
      | h :: t => (x :: h) :: t

/-- Go `url.Values`: every key with its values, keys in order of first use. -/
abbrev Values := List (Str × List Str)

/-- The statement `m[key] = append(m[key], value)`. -/
def Values.add (key value : Str) : Values → Values
  | [] => [(key, [value])]
  | (k, vs) :: m => if k = key then (k, vs ++ [value]) :: m else (k, vs) :: Values.add key value m

/-- The body of the loop of Go `parseQuery` for one `&`-separated piece: the
map and the error flag after it. -/
def parseQueryStep (st : Values × Bool) (piece : Str) : Values × Bool :=
  if strings.Contains piece [';'] then (st.1, true)
  else if piece = [] then st
  else
    let kv : Str × Str :=
      match strings.Cut ['='] piece with
      | some (k, v) => (k, v)
      | none => (piece, [])
    match QueryUnescape kv.1 with
    | none => (st.1, true)
    | some key =>
      match QueryUnescape kv.2 with
      | none => (st.1, true)
      | some value => (Values.add key value st.1, st.2)

/-- Go `url.ParseQuery`: the values found and whether an error is returned. -/
def ParseQuery (query : Str) : Values × Bool :=
  (splitByte '&' query).foldl parseQueryStep ([], false)

end url

/-! ## package encoding/csv

`csv.Reader` reads its input line by line (`readLine`), which drops a carriage
return in front of a line feed and a carriage return that ends the input.
Since a line always ends at a line feed, the reader is modelled as that
normalisation of the whole input followed by an automaton that consumes one
byte at a time; the states are the places of `readRecord` at which the next
byte is inspected. -/

namespace csv

/-- The errors of `csv.Reader`. -/
inductive ParseError where
  | ErrBareQuote
  | ErrQuote
  | ErrFieldCount
  deriving DecidableEq, Repr

/-- The line feed. -/
def LF : Char := Char.ofNat 10

/-- The carriage return. -/
def CR : Char := Char.ofNat 13

/-- The double quote. -/
def QUOTE : Char := Char.ofNat 34

/-- The effect of `readLine` on the whole input: `\r\n` becomes `\n`, and a
`\r` that is the last byte of the input is dropped. -/
def normalizeNL : Str → Str
  | [] => []
  | [c] => if c = CR then [] else [c]
  | c :: d :: ds =>
    if c = CR ∧ d = LF then LF :: normalizeNL ds else c :: normalizeNL (d :: ds)

/-- Where `readRecord` stands. -/
inductive Mode where
  | recordStart
  | fieldStart
  | unquoted
  | quoted
  | afterQuote
  deriving DecidableEq, Repr

/-- The state of a `csv.Reader` with `Comma = ' '` and all other settings at
their defaults (`FieldsPerRecord = 0`: every record must have as many fields
as the first one). -/
structure Reader where
  mode : Mode := Mode.recordStart
  field : Str := []
  record : List Str := []
  records : List (List Str) := []
  FieldsPerRecord : Nat := 0
  deriving DecidableEq, Repr

/-- The field being read is complete. -/
def endField (r : Reader) : Reader :=
  { r with mode := Mode.fieldStart, field := [], record := r.record ++ [r.field] }

/-- The record being read is complete: its number of fields is checked
against, or becomes, `FieldsPerRecord`. -/
def endRecord (r : Reader) : Except ParseError Reader :=
  let r1 := endField r
  if r1.FieldsPerRecord > 0 ∧ r1.record.length ≠ r1.FieldsPerRecord then
    Except.error ParseError.ErrFieldCount
  else
    Except.ok { r1 with
      mode := Mode.recordStart
      record := []
      records := r1.records ++ [r1.record]
      FieldsPerRecord := r1.record.length }

/-- One byte of an unquoted field. -/
def stepUnquoted (r : Reader) (c : Char) : Except ParseError Reader :=
  if c = ' ' then Except.ok (endField r)
  else if c = LF then endRecord r
  else if c = QUOTE then Except.error ParseError.ErrBareQuote
  else Except.ok { r with mode := Mode.unquoted, field := r.field ++ [c] }

/-- One byte at the start of a field. -/
def stepFieldStart (r : Reader) (c : Char) : Except ParseError Reader :=
  if c = QUOTE then Except.ok { r with mode := Mode.quoted }
  else stepUnquoted r c

/-- The reader consumes one byte. -/
def step (r : Reader) (c : Char) : Except ParseError Reader :=
  match r.mode with
  | Mode.recordStart => if c = LF then Except.ok r else stepFieldStart r c
  | Mode.fieldStart => stepFieldStart r c
  | Mode.unquoted => stepUnquoted r c
  | Mode.quoted =>
    if c = QUOTE then Except.ok { r with mode := Mode.afterQuote }
    else Except.ok { r with field := r.field ++ [c] }
  | Mode.afterQuote =>
    if c = QUOTE then Except.ok { r with mode := Mode.quoted, field := r.field ++ [QUOTE] }
    else if c = ' ' then Except.ok (endField r)
    else if c = LF then endRecord r
    else Except.error ParseError.ErrQuote

/-- The reader consumes the bytes of `s`. -/
def run (r : Reader) : Str → Except ParseError Reader
  | [] => Except.ok r
  | c :: cs =>
    match step r c with
    | Except.error e => Except.error e
    | Except.ok r1 => run r1 cs

/-- The reader meets the end of the input. -/
def finish (r : Reader) : Except ParseError (List (List Str)) :=
  match r.mode with
  | Mode.recordStart => Except.ok r.records
  | Mode.quoted => Except.error ParseError.ErrQuote
  | _ =>
    match endRecord r with
    | Except.error e => Except.error e
    | Except.ok r1 => Except.ok r1.records

/-- Go `(*csv.Reader).ReadAll` with `Comma = ' '`. -/
def ReadAll (input : Str) : Except ParseError (List (List Str)) :=
  match run {} (normalizeNL input) with
  | Except.error e => Except.error e
  | Except.ok r => finish r

end csv

/-! ## The parser: `v9/pqparser.go` -/

/-- A loaded key pair (`tls.Certificate`), identified by a number. -/
structure Certificate where
  id : Nat
  deriving DecidableEq, Repr

/-- The fields of `tls.Config` the parser sets. -/
structure TLSConfig where
  InsecureSkipVerify : Bool := false
  ServerName : Str := []
  Certificates : List Certificate := []
  deriving DecidableEq, Repr

/-- The fields of `pg.Options` the parser sets; `DialTimeout` is in
nanoseconds. -/
structure Options where
  Network : Str := []
  Addr : Str := []
  User : Str := []
  Password : Str := []
  Database : Str := []
  ApplicationName : Str := []
  DialTimeout : Int := 0
  TLSConfig : Option TLSConfig := none
  deriving DecidableEq, Repr

/-- What the parser reads from outside: the environment variables, the name
of the current OS account (`none` when `user.Current` fails), the loading of
a key pair from two files (`none` when it fails), and the order in which
`range` visits the entries of a map. -/
structure World where
  Getenv : Str → Str
  userCurrent : Option Str
  LoadX509KeyPair : Str → Str → Option Certificate
  rangeOrder : List (Str × Str) → List (Str × Str)

/-- The `range` of this world visits every entry of a map exactly once. -/
def World.RangeIsPerm (w : World) : Prop :=
  ∀ m : List (Str × Str), (w.rangeOrder m).Perm m

/-- The places of the parser that return an error. -/
inductive Error where
  | uriParse
  | uriQuery
  | uriNotOneValue
  | connstrParse
  | connstrMissingValue
  | missingValue
  | portParse
  | connectTimeoutParse
  | invalidParameter
  | unsupportedSSLMode
  | envPortParse
  | envConnectTimeoutParse
  | sslKeypair
  deriving DecidableEq, Repr

/-- The constant `slashReplacement`. -/
def slashReplacement : Str := "HereWasASlash".data

/-- A `map[string]string`: entries with pairwise different keys. -/
abbrev Params := List (Str × Str)

/-- The lookup `_, exists := parameters[key]`. -/
def Params.has (m : Params) (key : Str) : Bool := m.any (fun kv => kv.1 = key)

/-- The assignment `parameters[key] = value`. -/
def Params.set (key value : Str) : Params → Params
  | [] => [(key, value)]
  | (k, v) :: m => if k = key then (k, value) :: m else (k, v) :: Params.set key value m

/-- The local variables of `parseParameters` together with the options it
fills. -/
structure Locals where
  options : Options := {}
  host : Str := []
  port : Int := 0
  fallbackAppname : Str := []
  clientCert : Str := []
  clientKey : Str := []
  sslNeedsHostname : Bool := false
  hasSSLConfig : Bool := false
  tlsconfig : TLSConfig := {}
  sslEnabled : Bool := false
  deriving DecidableEq, Repr

/-- The closure `parseSSLMode` of `parseParameters`. -/
def parseSSLMode (l : Locals) (mode : Str) : Except Error Locals :=
  let l := { l with hasSSLConfig := true }
  if mode = "allow".data ∨ mode = "prefer".data ∨ mode = "require".data ∨
      mode = "verify-ca".data then
    Except.ok { l with
      tlsconfig := { l.tlsconfig with InsecureSkipVerify := true }
      sslEnabled := true }
  else if mode = "verify-full".data then
    Except.ok { l with
      tlsconfig := { l.tlsconfig with InsecureSkipVerify := false }
      sslNeedsHostname := true
      sslEnabled := true }
  else if mode = "disable".data then
    Except.ok { l with sslEnabled := false }
  else Except.error Error.unsupportedSSLMode

/-- The parameter names that are accepted and have no effect. -/
def ignoredKeys : List Str :=
  ["client_encoding".data, "options".data, "keepalives".data, "keepalives_idle".data,
    "keepalives_interval".data, "keepalives_count".data, "tty".data, "sslcompression".data,
    "sslrootcert".data, "sslcrl".data, "requirepeer".data, "krbsrvname".data, "gsslib".data,
    "service".data, "target_session_attrs".data]

/-- The body of the loop `for key, value := range parameters`. -/
def rangeBody (l : Locals) (kv : Str × Str) : Except Error Locals :=
  let key := kv.1
  let value := kv.2
  if value.length = 0 then Except.error Error.missingValue
  else if key = "host".data ∨ key = "hostaddr".data then Except.ok { l with host := value }
  else if key = "port".data then
    match strconv.Atoi value with
    | none => Except.error Error.portParse
    | some port => Except.ok { l with port := port }
  else if key = "dbname".data then
    Except.ok { l with options := { l.options with Database := value } }
  else if key = "user".data then
    Except.ok { l with options := { l.options with User := value } }
  else if key = "password".data then
    Except.ok { l with options := { l.options with Password := value } }
  else if key = "connect_timeout".data then
    match strconv.Atoi value with
    | none => Except.error Error.connectTimeoutParse
    | some timeout =>
      Except.ok { l with
        options := { l.options with DialTimeout := wrapInt64 (timeout * 1000000000) } }
  else if key = "application_name".data then
    Except.ok { l with options := { l.options with ApplicationName := value } }
  else if key = "fallback_application_name".data then
    Except.ok { l with fallbackAppname := value }
  else if key = "sslmode".data then parseSSLMode l value
  else if key = "requiressl".data then
    Except.ok { l with
      tlsconfig := { l.tlsconfig with InsecureSkipVerify := true }
      hasSSLConfig := true
      sslEnabled := true }
  else if key = "sslcert".data then Except.ok { l with clientCert := value }
  else if key = "sslkey".data then Except.ok { l with clientKey := value }
  else if key ∈ ignoredKeys then Except.ok l
  else Except.error Error.invalidParameter

/-- The loop `for key, value := range parameters` over the entries in the
order of the visit. -/
def rangeLoop (l : Locals) : List (Str × Str) → Except Error Locals
  | [] => Except.ok l
  | kv :: rest =>
    match rangeBody l kv with
    | Except.error e => Except.error e
    | Except.ok l1 => rangeLoop l1 rest

/-- The SSL settings taken from the environment when the parameters had
none (`if !hasSSLConfig`). -/
def envSSL (w : World) (l : Locals) : Except Error Locals :=
  if ¬ l.hasSSLConfig then
    if w.Getenv "PGSSLMODE".data ≠ [] then parseSSLMode l (w.Getenv "PGSSLMODE".data)
    else if w.Getenv "PGREQUIRESSL".data ≠ [] then
      Except.ok { l with
        tlsconfig := { l.tlsconfig with InsecureSkipVerify := true }
        hasSSLConfig := true
        sslEnabled := true }
    else Except.ok l
  else Except.ok l

/-- The host after `if host == ""`: the parameter, otherwise `PGHOST`. -/
def resolvedHost (w : World) (l : Locals) : Str :=
  if l.host = [] then w.Getenv "PGHOST".data else l.host

/-- The port after `if port == 0`: the parameter, otherwise the number in
`PGPORT` when that variable is not empty; `none` when `PGPORT` is not a
number. -/
def resolvedPort (w : World) (l : Locals) : Option Int :=
  if l.port = 0 ∧ w.Getenv "PGPORT".data ≠ [] then strconv.Atoi (w.Getenv "PGPORT".data)
  else some l.port

/-- The dial timeout after `if options.DialTimeout == 0`: the parameter,
otherwise the seconds in `PGCONNECT_TIMEOUT` when that variable is not empty;
`none` when it is not a number. -/
def resolvedDialTimeout (w : World) (l : Locals) : Option Int :=
  if l.options.DialTimeout = 0 ∧ w.Getenv "PGCONNECT_TIMEOUT".data ≠ [] then
    (strconv.Atoi (w.Getenv "PGCONNECT_TIMEOUT".data)).map
      (fun timeout => wrapInt64 (timeout * 1000000000))
  else some l.options.DialTimeout

/-- The last block of `parseParameters` ("set the TLS context"): `l1` holds
the SSL settings, `host` is the host of the address. -/
def attachTLS (w : World) (l1 : Locals) (isSocket : Bool) (host : Str) (options : Options) :
    Except Error Options :=
  let clientCert := if l1.clientCert = [] then w.Getenv "PGSSLCERT".data else l1.clientCert
  let clientKey := if l1.clientKey = [] then w.Getenv "PGSSLKEY".data else l1.clientKey
  if l1.sslEnabled then
    let tlsconfig : TLSConfig :=
      if l1.sslNeedsHostname then
        -- a socket connection can not validate the hostname
        if isSocket then { l1.tlsconfig with InsecureSkipVerify := true }
        else { l1.tlsconfig with ServerName := host }
      else l1.tlsconfig
    -- check if we have ssl private key and cert
    if clientKey ≠ [] ∧ clientCert ≠ [] then
      match w.LoadX509KeyPair clientCert clientKey with
      | none => Except.error Error.sslKeypair
      | some cert =>
        Except.ok { options with
          TLSConfig := some { tlsconfig with Certificates := tlsconfig.Certificates ++ [cert] } }
    else Except.ok { options with TLSConfig := some tlsconfig }
  else Except.ok options

/-- The network, address, user, database and application name built by
`parseParameters` from the resolved host and port (lines 343 to 380). -/
def assemble (w : World) (l : Locals) (host : Str) (port dialTimeout : Int) : Options :=
  let database :=
    if l.options.Database = [] then w.Getenv "PGDATABASE".data else l.options.Database
  let user := if l.options.User = [] then w.Getenv "PGUSER".data else l.options.User
  let password :=
    if l.options.Password = [] then w.Getenv "PGPASSWORD".data else l.options.Password
  let appname :=
    if l.options.ApplicationName = [] then w.Getenv "PGAPPNAME".data
    else l.options.ApplicationName
  -- build the addr
  let isSocket : Bool := host ≠ [] ∧ strings.HasPrefix host ['/']
  let network := if isSocket then "unix".data else "tcp".data
  let host := if host = [] then "localhost".data else host
  let port := if port = 0 then 5432 else port
  let addr :=
    if isSocket then host ++ "/.s.PGSQL.".data ++ fmt.formatInt port
    else host ++ ":".data ++ fmt.formatInt port
  -- set the default user
  let user :=
    if user = [] then
      match w.userCurrent with
      | some sysuser => sysuser
      | none => "postgres".data
    else user
  let database := if database = [] then user else database
  -- check the appname and possible fallback
  let appname := if appname = [] then l.fallbackAppname else appname
  { Network := network, Addr := addr, User := user, Password := password,
    Database := database, ApplicationName := appname, DialTimeout := dialTimeout,
    TLSConfig := none }

/-- The part of `parseParameters` after the loop: the environment is
consulted for what is missing (an unparsable `PGPORT`, an unsupported
`PGSSLMODE` and an unparsable `PGCONNECT_TIMEOUT` are errors, in this order),
the address is built, the defaults are set and the TLS configuration is
attached. -/
def resolve (w : World) (l : Locals) : Except Error Options :=
  match resolvedPort w l with
  | none => Except.error Error.envPortParse
  | some port =>
    match envSSL w l with
    | Except.error e => Except.error e
    | Except.ok l1 =>
      match resolvedDialTimeout w l with
      | none => Except.error Error.envConnectTimeoutParse
      | some dialTimeout =>
        let host := resolvedHost w l
        attachTLS w l1 (host ≠ [] ∧ strings.HasPrefix host ['/'])
          (if host = [] then "localhost".data else host)
          (assemble w l host port dialTimeout)

/-- The function `parseParameters`: the loop over the parameters in the order
of the visit of this world, then the resolution.  The options passed in carry
the user, password and database taken from a URI. -/
def parseParameters (w : World) (options : Options) (parameters : Params) :
    Except Error Options :=
  match rangeLoop { options := options } (w.rangeOrder parameters) with
  | Except.error e => Except.error e
  | Except.ok l => resolve w l

/-- The loop of `parseURI` that flattens the query parameters: a key with
more or fewer than one value is an error. -/
def flatten : url.Values → Except Error Params
  | [] => Except.ok []
  | (key, values) :: rest =>
    match values with
    | [value] =>
      match flatten rest with
      | Except.error e => Except.error e
      | Except.ok m => Except.ok ((key, value) :: m)
    | _ => Except.error Error.uriNotOneValue

/-- Lines 48 to 92 of `parseURI`: the prefix is removed, the text is split at
the first slash, at the `@` and at a `?` in front of the slash, an empty port
is removed, the encoded slashes of the host are replaced by
`slashReplacement`, and the URI is rebuilt for the parser of `net/url`. -/
def rebuildURI (dsn : Str) : Str :=
  -- remove the prefix
  let connuri := strings.TrimPrefix (strings.TrimPrefix dsn "postgresql://".data)
    "postgres://".data
  -- split at the first slash
  let uriparts := strings.SplitN2 connuri ['/']
  let uripath := if uriparts.length > 1 then uriparts.getD 1 [] else []
  -- check if we have a user delimiter
  let userhost := strings.SplitN2 (uriparts.getD 0 []) ['@']
  let userpass :=
    if strings.ContainsRune (uriparts.getD 0 []) '@' then userhost.getD 0 [] else []
  let netloc :=
    if strings.ContainsRune (uriparts.getD 0 []) '@' then userhost.getD 1 []
    else uriparts.getD 0 []
  -- the ? separator before the slash
  let parts := strings.SplitN2 netloc ['?']
  let uripath :=
    if strings.ContainsRune netloc '?' then
      ['?'] ++ parts.getD 1 [] ++ (if uriparts.length > 1 then ['/'] ++ uripath else uripath)
    else uripath
  let netloc := if strings.ContainsRune netloc '?' then parts.getD 0 [] else netloc
  -- remove empty port declaration at the end of the Host
  let netloc := strings.TrimSuffix netloc [':']
  let netloc := strings.ReplaceAll (strings.ReplaceAll netloc "%f2".data slashReplacement)
    "%2F".data slashReplacement
  -- rebuild the uri
  "postgresql://".data ++ (if userpass ≠ [] then userpass ++ ['@'] else []) ++
    (netloc ++ ['/'] ++ uripath)

/-- Lines 102 to 104 of `parseURI`: the user, password and database written
in the URI. -/
def uriOptions (uri : url.URL) : Options :=
  { User := url.Username uri.User
    Password := (url.Password uri.User).1
    Database := strings.Trim uri.Path ['/'] }

/-- Lines 119 to 130 of `parseURI`: the port and the host of the URI are
entered into the parameters unless the query has set them. -/
def withHostPort (uri : url.URL) (parameters : Params) : Params :=
  let urihost := strings.ReplaceAll uri.Host slashReplacement ['/']
  let strip : Bool := ¬ parameters.has "port".data ∧ url.Port uri ≠ []
  let urihost :=
    if strip then strings.TrimSuffix urihost ([':'] ++ url.Port uri) else urihost
  let parameters :=
    if strip then Params.set "port".data (url.Port uri) parameters else parameters
  -- set host if it does not exist in the parameter list
  if ¬ parameters.has "host".data ∧ urihost ≠ [] then
    Params.set "host".data urihost parameters
  else parameters

/-- Lines 45 to 130 of `parseURI`: everything before the call of
`parseParameters`, that is the options carrying the user, password and
database written in the URI, and the parameter map. -/
def uriParameters (dsn : Str) : Except Error (Options × Params) :=
  match url.Parse (rebuildURI dsn) with
  | none => Except.error Error.uriParse
  | some uri =>
    -- flatten the query parameters
    if (url.ParseQuery uri.RawQuery).2 then Except.error Error.uriQuery
    else match flatten (url.ParseQuery uri.RawQuery).1 with
      | Except.error e => Except.error e
      | Except.ok parameters => Except.ok (uriOptions uri, withHostPort uri parameters)

/-- The function `parseURI`: the options and parameters of the URI are
handed to `parseParameters`. -/
def parseURI (w : World) (dsn : Str) : Except Error Options :=
  match uriParameters dsn with
  | Except.error e => Except.error e
  | Except.ok (options, parameters) => parseParameters w options parameters

/-- The loop of `parseConnstr` over the fields of the first record. -/
def splitKeyValues (parameters : Params) : List Str → Except Error Params
  | [] => Except.ok parameters
  | keyvalue :: rest =>
    match strings.SplitN2 keyvalue ['='] with
    | [key, value] => splitKeyValues (Params.set key value parameters) rest
    | _ => Except.error Error.connstrMissingValue

/-- Lines 139 to 161 of `parseConnstr`: the empty options and the parameter
map read from the first record of the input. -/
def connstrParameters (connstr : Str) : Except Error (Options × Params) :=
  match csv.ReadAll connstr with
  | Except.error _ => Except.error Error.connstrParse
  | Except.ok records =>
    match splitKeyValues [] (records.headD []) with
    | Except.error e => Except.error e
    | Except.ok parameters => Except.ok ({}, parameters)

/-- The function `parseConnstr`. -/
def parseConnstr (w : World) (connstr : Str) : Except Error Options :=
  match connstrParameters connstr with
  | Except.error e => Except.error e
  | Except.ok (options, parameters) => parseParameters w options parameters

/-- The function `Parse`: a connection string or URI. -/
def Parse (w : World) (connstr : Str) : Except Error Options :=
  if strings.HasPrefix connstr "postgresql://".data ∨
      strings.HasPrefix connstr "postgres://".data then
    parseURI w connstr
  else parseConnstr w connstr

/-- The options and the parameter map that `Parse` hands to
`parseParameters`: those of the URI for an input with one of the two URI
prefixes, those of the keyword/value string otherwise. -/
def decoded (connstr : Str) : Except Error (Options × Params) :=
  if strings.HasPrefix connstr "postgresql://".data ∨
      strings.HasPrefix connstr "postgres://".data then
    uriParameters connstr
  else connstrParameters connstr

/-! ## Definitions used to state the properties -/

/-- The recognised parameter names. -/
def recognisedKeys : List Str :=
  ["host".data, "hostaddr".data, "port".data, "dbname".data, "user".data, "password".data,
    "connect_timeout".data, "client_encoding".data, "options".data, "application_name".data,
    "fallback_application_name".data, "keepalives".data, "keepalives_idle".data,
    "keepalives_interval".data, "keepalives_count".data, "tty".data, "sslmode".data,
    "requiressl".data, "sslcompression".data, "sslcert".data, "sslkey".data,
    "sslrootcert".data, "sslcrl".data, "requirepeer".data, "krbsrvname".data, "gsslib".data,
    "service".data, "target_session_attrs".data]


/-- A world for the examples: no environment variable is set, the OS account
is `alice`, no key pair can be loaded, and `range` visits the entries of a map
in the order in which they were entered. -/
def exampleWorld : World :=
  { Getenv := fun _ => []
    userCurrent := some "alice".data
    LoadX509KeyPair := fun _ _ => none
    rangeOrder := fun m => m }

/-- The value that the input supplies explicitly for the parameter `key`: the
value of the parameter of this name, otherwise what the URI itself carries
(`fromURI`, empty for a keyword/value string). -/
def explicitValue (key : Str) (fromURI : Str) (params : Params) : Str :=
  match params.find? (fun kv => kv.1 = key) with
  | some kv => kv.2
  | none => fromURI

/-- The user as the specification states it: the explicit user when there is
one, otherwise `PGUSER` when it is not empty, otherwise the name of the OS
account, or `postgres` when that lookup fails. -/
def specUser (w : World) (explicit : Str) : Str :=
  if explicit ≠ [] then explicit
  else if w.Getenv "PGUSER".data ≠ [] then w.Getenv "PGUSER".data
  else match w.userCurrent with
    | some name => name
    | none => "postgres".data

/-- The database as the specification states it: the explicit database when
there is one, otherwise `PGDATABASE` when it is not empty, otherwise the
resolved user. -/
def specDatabase (w : World) (explicit user : Str) : Str :=
  if explicit ≠ [] then explicit
  else if w.Getenv "PGDATABASE".data ≠ [] then w.Getenv "PGDATABASE".data
  else user

/-- The SSL variables of `parseParameters`: the pending TLS settings and the
flags `sslNeedsHostname`, `hasSSLConfig` and `sslEnabled`. -/
def sslState (l : Locals) : TLSConfig × Bool × Bool × Bool :=
  (l.tlsconfig, l.sslNeedsHostname, l.hasSSLConfig, l.sslEnabled)

/-- The effect of a supported SSL mode on the SSL variables, read off the
table of the specification: `disable` switches SSL off, `verify-full` asks for
the verification of the host name, every other mode skips verification. -/
def sslModeEffect (mode : Str) (st : TLSConfig × Bool × Bool × Bool) :
    TLSConfig × Bool × Bool × Bool :=
  if mode = "disable".data then (st.1, st.2.1, true, false)
  else if mode = "verify-full".data then
    ({ st.1 with InsecureSkipVerify := false }, true, true, true)
  else ({ st.1 with InsecureSkipVerify := true }, st.2.1, true, true)

/-- The SSL modes that `parseSSLMode` supports. -/
def supportedSSLModes : List Str :=
  ["disable".data, "allow".data, "prefer".data, "require".data, "verify-ca".data,
    "verify-full".data]

/-- The network and the address as the specification states them, from the
resolved host `h` and the resolved port `p`: an empty host is replaced by
`localhost` and the port 0 by 5432; a host that begins with `/` gives the
network `unix` and the address `h/.s.PGSQL.p`, any other host the network
`tcp` and the address `h:p`. -/
def specAddress (h : Str) (p : Int) : Str × Str :=
  let h := if h = [] then "localhost".data else h
  let p := if p = 0 then 5432 else p
  if strings.HasPrefix h ['/'] then ("unix".data, h ++ "/.s.PGSQL.".data ++ fmt.formatInt p)
  else ("tcp".data, h ++ ":".data ++ fmt.formatInt p)

/-- The resolved port as the specification states it: the explicit value
(0 when there is none), otherwise the number in `PGPORT` when that variable
is set. -/
def specPort (w : World) (explicit : Int) : Option Int :=
  if explicit ≠ 0 then some explicit
  else if w.Getenv "PGPORT".data = [] then some 0
  else strconv.Atoi (w.Getenv "PGPORT".data)

/-- The percent-decoded key of a piece `key=value` of a query string; `none`
when the key cannot be decoded. -/
def queryKey (piece : Str) : Option Str :=
  url.QueryUnescape
    (match strings.Cut ['='] piece with
      | some (k, _) => k
      | none => piece)

/-- The query string `q` contains the same percent-decoded key more than
once: two of its non-empty `&`-separated pieces have the same key. -/
def RepeatedKey (q : Str) : Prop :=
  ∃ (a b c : List Str) (p1 p2 k : Str),
    url.splitByte '&' q = a ++ p1 :: (b ++ p2 :: c) ∧ p1 ≠ [] ∧ p2 ≠ [] ∧
      queryKey p1 = some k ∧ queryKey p2 = some k

/-- Some key of the map has two or more values. -/
def HasDup (m : url.Values) : Prop := ∃ kv ∈ m, 2 ≤ kv.2.length

/-- Every key of the map has a value. -/
def AllNonempty (m : url.Values) : Prop := ∀ kv ∈ m, 1 ≤ kv.2.length

/-- Every byte of the string is an ASCII letter or digit. -/
def AlnumStr (s : Str) : Prop := ∀ c ∈ s, url.isAlnum c = true

instance (s : Str) : Decidable (AlnumStr s) := by
  unfold AlnumStr
  infer_instance

/-- Every byte of the string is a decimal digit. -/
def DigitStr (s : Str) : Prop := ∀ c ∈ s, 48 ≤ c.toNat ∧ c.toNat ≤ 57

/-- The example world with one environment variable set: `name` holds
`value`, every other variable is unset. -/
def envWorld (name value : Str) : World :=
  { exampleWorld with Getenv := fun k => if k = name then value else [] }

/-- The example world with the other order of visit: `range` visits the
entries of a map from the last one entered to the first. -/
def reverseWorld : World :=
  { exampleWorld with rangeOrder := List.reverse }

/-- The two worlds differ at most in what the environment variables `names`
hold: the other variables, the OS account, the loading of key pairs and the
order of visit of a map are the same. -/
def World.AgreeExcept (w1 w2 : World) (names : List Str) : Prop :=
  w1.userCurrent = w2.userCurrent ∧ w1.LoadX509KeyPair = w2.LoadX509KeyPair ∧
    w1.rangeOrder = w2.rangeOrder ∧ ∀ k, k ∉ names → w1.Getenv k = w2.Getenv k

/-- The TLS posture that the specification documents for the SSL mode `m`, as
a property of the resulting configuration: `disable` gives no TLS
configuration; `allow`, `prefer`, `require` and `verify-ca` give
skip-verification and no server name; `verify-full` gives, for a TCP address,
no skip-verification and the host of the address as server name, and for a
Unix-socket address skip-verification and no server name. -/
def specPosture (m : Str) (o : Options) : Prop :=
  (m = "disable".data → o.TLSConfig = none) ∧
  (m ∈ ["allow".data, "prefer".data, "require".data, "verify-ca".data] →
    ∃ tls, o.TLSConfig = some tls ∧ tls.InsecureSkipVerify = true ∧ tls.ServerName = []) ∧
  (m = "verify-full".data → o.Network = "tcp".data →
    ∃ tls, o.TLSConfig = some tls ∧ tls.InsecureSkipVerify = false ∧
      ∃ port : Int, o.Addr = tls.ServerName ++ ":".data ++ fmt.formatInt port) ∧
  (m = "verify-full".data → o.Network = "unix".data →
    ∃ tls, o.TLSConfig = some tls ∧ tls.InsecureSkipVerify = true ∧ tls.ServerName = [])

/-- The application name as the specification states it: the
`application_name` parameter when supplied, otherwise `PGAPPNAME` when it is
not empty, otherwise the `fallback_application_name` parameter (empty when
not supplied). -/
def specAppName (w : World) (appname fallback : Str) : Str :=
  if appname ≠ [] then appname
  else if w.Getenv "PGAPPNAME".data ≠ [] then w.Getenv "PGAPPNAME".data
  else fallback

/-- The port that ends an address, as the specification words it: the number
after the last `:` of a tcp address, or after `.s.PGSQL.` of a unix address
(the text after the last dot, the number itself having none); `none` when
that text is not an integer. -/
def addrPort (o : Options) : Option Int :=
  match strings.CutLast (if o.Network = "unix".data then '.' else ':') o.Addr with
  | some (_, text) => strconv.Atoi text
  | none => none

/-- The example world with yet another order of visit: `range` visits a map
of three entries from the last one entered to the first, and any other map in
the order in which the entries were entered. -/
def oddWorld : World :=
  { exampleWorld with rangeOrder := fun m => if m.length = 3 then m.reverse else m }

/-- No two entries of the parameter set write the same variable of
`parseParameters`: it does not hold both `host` and `hostaddr`, nor both
`sslmode` and `requiressl`. -/
def SingleWriter (S : Params) : Prop :=
  ¬ (S.has "host".data = true ∧ S.has "hostaddr".data = true) ∧
    ¬ (S.has "sslmode".data = true ∧ S.has "requiressl".data = true)

instance (S : Params) : Decidable (SingleWriter S) := by
  unfold SingleWriter
  infer_instance

/-! ## The loop over the parameters -/

theorem rangeLoop_cons_ok {l l' : Locals} {p : Str × Str} {ps : List (Str × Str)}
    (h : rangeLoop l (p :: ps) = Except.ok l') :
    ∃ l1, rangeBody l p = Except.ok l1 ∧ rangeLoop l1 ps = Except.ok l' := by
  simp only [rangeLoop] at h
  cases hb : rangeBody l p with
  | error e => rw [hb] at h; cases h
  | ok l1 => rw [hb] at h; exact ⟨l1, rfl, h⟩

theorem rangeLoop_frame {α : Type} (f : Locals → α) (W : Str → Prop)
    (hframe : ∀ l kv l', ¬ W kv.1 → rangeBody l kv = Except.ok l' → f l' = f l) :
    ∀ (ps : List (Str × Str)) (l l' : Locals), (∀ kv ∈ ps, ¬ W kv.1) →
      rangeLoop l ps = Except.ok l' → f l' = f l := by
  intro ps
  induction ps with
  | nil =>
    intro l l' _ h
    simp only [rangeLoop] at h
    cases h
    rfl
  | cons p ps ih =>
    intro l l' hW h
    obtain ⟨l1, h1, h2⟩ := rangeLoop_cons_ok h
    rw [ih l1 l' (fun kv hkv => hW kv (List.mem_cons_of_mem _ hkv)) h2]
    exact hframe l p l1 (hW p (List.mem_cons_self _ _)) h1

theorem rangeLoop_set {α : Type} (f : Locals → α) (W : Str → Prop) (k : Str) (g : Str → α → α)
    (hframe : ∀ l kv l', ¬ W kv.1 → rangeBody l kv = Except.ok l' → f l' = f l)
    (hset : ∀ l v l', rangeBody l (k, v) = Except.ok l' → f l' = g v (f l)) :
    ∀ (ps : List (Str × Str)) (l l' : Locals) (v : Str), (ps.map Prod.fst).Nodup →
      (∀ kv ∈ ps, W kv.1 → kv.1 = k) → (k, v) ∈ ps →
      rangeLoop l ps = Except.ok l' → f l' = g v (f l) := by
  intro ps
  induction ps with
  | nil => intro l l' v _ _ hmem; cases hmem
  | cons p ps ih =>
    intro l l' v hnd hW hmem h
    obtain ⟨l1, h1, h2⟩ := rangeLoop_cons_ok h
    rw [List.map_cons, List.nodup_cons] at hnd
    rcases List.mem_cons.mp hmem with hp | hp
    · subst hp
      have hrest : ∀ kv ∈ ps, ¬ W kv.1 := by
        intro kv hkv hWkv
        have := hW kv (List.mem_cons_of_mem _ hkv) hWkv
        exact hnd.1 (List.mem_map.mpr ⟨kv, hkv, this⟩)
      rw [rangeLoop_frame f W hframe ps l1 l' hrest h2]
      exact hset l v l1 h1
    · have hpW : ¬ W p.1 := by
        intro hWp
        have := hW p (List.mem_cons_self _ _) hWp
        exact hnd.1 (List.mem_map.mpr ⟨(k, v), hp, this.symm⟩)
      rw [ih l1 l' v hnd.2 (fun kv hkv => hW kv (List.mem_cons_of_mem _ hkv)) hp h2]
      rw [hframe l p l1 hpW h1]

theorem rangeLoop_ok_of_forall (ps : List (Str × Str)) :
    ∀ l : Locals, (∀ kv ∈ ps, ∀ l, ∃ l', rangeBody l kv = Except.ok l') →
      ∃ l', rangeLoop l ps = Except.ok l' := by
  induction ps with
  | nil => intro l _; exact ⟨l, rfl⟩
  | cons p ps ih =>
    intro l h
    obtain ⟨l1, h1⟩ := h p (List.mem_cons_self _ _) l
    obtain ⟨l2, h2⟩ := ih l1 (fun kv hkv => h kv (List.mem_cons_of_mem _ hkv))
    exact ⟨l2, by simp only [rangeLoop, h1, h2]⟩

theorem Parse_eq_decoded (w : World) (s : Str) :
    Parse w s =
      match decoded s with
      | Except.error e => Except.error e
      | Except.ok (options, parameters) => parseParameters w options parameters := by
  unfold Parse decoded parseURI parseConnstr
  split <;> rfl

theorem rangeLoop_error_of_mem (kv : Str × Str)
    (hkv : ∀ l, ∃ e, rangeBody l kv = Except.error e) :
    ∀ (ps : List (Str × Str)) (l : Locals), kv ∈ ps → ∃ e, rangeLoop l ps = Except.error e := by
  intro ps
  induction ps with
  | nil => intro l h; cases h
  | cons p ps ih =>
    intro l h
    simp only [rangeLoop]
    rcases List.mem_cons.mp h with h1 | h1
    · subst h1
      obtain ⟨e, he⟩ := hkv l
      exact ⟨e, by rw [he]⟩
    · cases hb : rangeBody l p with
      | error e => exact ⟨e, rfl⟩
      | ok l1 => exact ih l1 h1

theorem rangeBody_empty_value (l : Locals) (k : Str) :
    rangeBody l (k, []) = Except.error Error.missingValue := by
  simp [rangeBody]

theorem rangeBody_unknown_key (l : Locals) (k v : Str) (hk : k ∉ recognisedKeys) :
    ∃ e, rangeBody l (k, v) = Except.error e := by
  simp only [recognisedKeys, List.mem_cons, List.mem_singleton, not_or, List.not_mem_nil, not_false_eq_true, and_true] at hk
  by_cases hv : v.length = 0
  · exact ⟨Error.missingValue, by simp [rangeBody, hv]⟩
  · refine ⟨Error.invalidParameter, ?_⟩
    simp only [rangeBody, hv, ignoredKeys, List.mem_cons, List.mem_singleton, List.not_mem_nil]
    simp [hk]

/-- Every way in which the body of the loop can succeed. -/
theorem rangeBody_ok_inv {l l' : Locals} {kv : Str × Str} (h : rangeBody l kv = Except.ok l') :
    kv.2 ≠ [] ∧
    (((kv.1 = "host".data ∨ kv.1 = "hostaddr".data) ∧ l' = { l with host := kv.2 }) ∨
     (kv.1 = "port".data ∧ ∃ p, strconv.Atoi kv.2 = some p ∧ l' = { l with port := p }) ∨
     (kv.1 = "dbname".data ∧ l' = { l with options := { l.options with Database := kv.2 } }) ∨
     (kv.1 = "user".data ∧ l' = { l with options := { l.options with User := kv.2 } }) ∨
     (kv.1 = "password".data ∧ l' = { l with options := { l.options with Password := kv.2 } }) ∨
     (kv.1 = "connect_timeout".data ∧ ∃ t, strconv.Atoi kv.2 = some t ∧
        l' = { l with options := { l.options with DialTimeout := wrapInt64 (t * 1000000000) } }) ∨
     (kv.1 = "application_name".data ∧
        l' = { l with options := { l.options with ApplicationName := kv.2 } }) ∨
     (kv.1 = "fallback_application_name".data ∧ l' = { l with fallbackAppname := kv.2 }) ∨
     (kv.1 = "sslmode".data ∧ parseSSLMode l kv.2 = Except.ok l') ∨
     (kv.1 = "requiressl".data ∧
        l' = { l with
          tlsconfig := { l.tlsconfig with InsecureSkipVerify := true }
          hasSSLConfig := true
          sslEnabled := true }) ∨
     (kv.1 = "sslcert".data ∧ l' = { l with clientCert := kv.2 }) ∨
     (kv.1 = "sslkey".data ∧ l' = { l with clientKey := kv.2 }) ∨
     (kv.1 ∈ ignoredKeys ∧ l' = l)) := by
  unfold rangeBody at h
  dsimp only at h
  by_cases h0 : kv.2.length = 0
  · rw [if_pos h0] at h; cases h
  rw [if_neg h0] at h
  have hv : kv.2 ≠ [] := fun hc => h0 (by rw [hc]; rfl)
  refine ⟨hv, ?_⟩
  by_cases h1 : kv.1 = "host".data ∨ kv.1 = "hostaddr".data
  · rw [if_pos h1] at h
    injection h with h
    exact Or.inl ⟨h1, h.symm⟩
  rw [if_neg h1] at h
  by_cases h2 : kv.1 = "port".data
  · rw [if_pos h2] at h
    cases hp : strconv.Atoi kv.2 with
    | none => rw [hp] at h; cases h
    | some p =>
      rw [hp] at h
      injection h with h
      exact Or.inr (Or.inl ⟨h2, p, rfl, h.symm⟩)
  rw [if_neg h2] at h
  by_cases h3 : kv.1 = "dbname".data
  · rw [if_pos h3] at h
    injection h with h
    exact Or.inr (Or.inr (Or.inl ⟨h3, h.symm⟩))
  rw [if_neg h3] at h
  by_cases h4 : kv.1 = "user".data
  · rw [if_pos h4] at h
    injection h with h
    exact Or.inr (Or.inr (Or.inr (Or.inl ⟨h4, h.symm⟩)))
  rw [if_neg h4] at h
  by_cases h5 : kv.1 = "password".data
  · rw [if_pos h5] at h
    injection h with h
    exact Or.inr (Or.inr (Or.inr (Or.inr (Or.inl ⟨h5, h.symm⟩))))
  rw [if_neg h5] at h
  by_cases h6 : kv.1 = "connect_timeout".data
  · rw [if_pos h6] at h
    cases hp : strconv.Atoi kv.2 with
    | none => rw [hp] at h; cases h
    | some p =>
      rw [hp] at h
      injection h with h
      exact Or.inr (Or.inr (Or.inr (Or.inr (Or.inr (Or.inl ⟨h6, p, rfl, h.symm⟩)))))
  rw [if_neg h6] at h
  by_cases h7 : kv.1 = "application_name".data
  · rw [if_pos h7] at h
    injection h with h
    exact Or.inr (Or.inr (Or.inr (Or.inr (Or.inr (Or.inr (Or.inl ⟨h7, h.symm⟩))))))
  rw [if_neg h7] at h
  by_cases h8 : kv.1 = "fallback_application_name".data
  · rw [if_pos h8] at h
    injection h with h
    exact Or.inr (Or.inr (Or.inr (Or.inr (Or.inr (Or.inr (Or.inr (Or.inl ⟨h8, h.symm⟩)))))))
  rw [if_neg h8] at h
  by_cases h9 : kv.1 = "sslmode".data
  · rw [if_pos h9] at h
    exact Or.inr (Or.inr (Or.inr (Or.inr (Or.inr (Or.inr (Or.inr (Or.inr (Or.inl ⟨h9, h⟩))))))))
  rw [if_neg h9] at h
  by_cases h10 : kv.1 = "requiressl".data
  · rw [if_pos h10] at h
    injection h with h
    exact Or.inr (Or.inr (Or.inr (Or.inr (Or.inr (Or.inr (Or.inr (Or.inr (Or.inr (Or.inl ⟨h10, h.symm⟩)))))))))
  rw [if_neg h10] at h
  by_cases h11 : kv.1 = "sslcert".data
  · rw [if_pos h11] at h
    injection h with h
    exact Or.inr (Or.inr (Or.inr (Or.inr (Or.inr (Or.inr (Or.inr (Or.inr (Or.inr (Or.inr (Or.inl ⟨h11, h.symm⟩))))))))))
  rw [if_neg h11] at h
  by_cases h12 : kv.1 = "sslkey".data
  · rw [if_pos h12] at h
    injection h with h
    exact Or.inr (Or.inr (Or.inr (Or.inr (Or.inr (Or.inr (Or.inr (Or.inr (Or.inr (Or.inr (Or.inr (Or.inl ⟨h12, h.symm⟩)))))))))))
  rw [if_neg h12] at h
  by_cases h13 : kv.1 ∈ ignoredKeys
  · rw [if_pos h13] at h
    injection h with h
    exact Or.inr (Or.inr (Or.inr (Or.inr (Or.inr (Or.inr (Or.inr (Or.inr (Or.inr (Or.inr (Or.inr (Or.inr (⟨h13, h.symm⟩))))))))))))
  rw [if_neg h13] at h
  cases h

/-- Every way in which `parseSSLMode` can succeed. -/
theorem parseSSLMode_ok_inv {l l' : Locals} {m : Str} (h : parseSSLMode l m = Except.ok l') :
    ((m = "allow".data ∨ m = "prefer".data ∨ m = "require".data ∨ m = "verify-ca".data) ∧
      l' = { l with
        hasSSLConfig := true
        tlsconfig := { l.tlsconfig with InsecureSkipVerify := true }
        sslEnabled := true }) ∨
    (m = "verify-full".data ∧
      l' = { l with
        hasSSLConfig := true
        tlsconfig := { l.tlsconfig with InsecureSkipVerify := false }
        sslNeedsHostname := true
        sslEnabled := true }) ∨
    (m = "disable".data ∧ l' = { l with hasSSLConfig := true, sslEnabled := false }) := by
  unfold parseSSLMode at h
  dsimp only at h
  by_cases h1 : m = "allow".data ∨ m = "prefer".data ∨ m = "require".data ∨ m = "verify-ca".data
  · rw [if_pos h1] at h
    injection h with h
    exact Or.inl ⟨h1, h.symm⟩
  rw [if_neg h1] at h
  by_cases h2 : m = "verify-full".data
  · rw [if_pos h2] at h
    injection h with h
    exact Or.inr (Or.inl ⟨h2, h.symm⟩)
  rw [if_neg h2] at h
  by_cases h3 : m = "disable".data
  · rw [if_pos h3] at h
    injection h with h
    exact Or.inr (Or.inr ⟨h3, h.symm⟩)
  rw [if_neg h3] at h
  cases h

/-- A step of the loop changes a variable only when the key is the name of
the parameter that sets it. -/
theorem rangeBody_frame {l l' : Locals} {kv : Str × Str} (h : rangeBody l kv = Except.ok l') :
    (¬ (kv.1 = "host".data ∨ kv.1 = "hostaddr".data) → l'.host = l.host) ∧
    (¬ kv.1 = "port".data → l'.port = l.port) ∧
    (¬ kv.1 = "dbname".data → l'.options.Database = l.options.Database) ∧
    (¬ kv.1 = "user".data → l'.options.User = l.options.User) ∧
    (¬ kv.1 = "password".data → l'.options.Password = l.options.Password) ∧
    (¬ kv.1 = "connect_timeout".data → l'.options.DialTimeout = l.options.DialTimeout) ∧
    (¬ kv.1 = "application_name".data →
      l'.options.ApplicationName = l.options.ApplicationName) ∧
    (¬ kv.1 = "fallback_application_name".data → l'.fallbackAppname = l.fallbackAppname) ∧
    (¬ (kv.1 = "sslmode".data ∨ kv.1 = "requiressl".data) →
      l'.tlsconfig = l.tlsconfig ∧ l'.sslNeedsHostname = l.sslNeedsHostname ∧
        l'.hasSSLConfig = l.hasSSLConfig ∧ l'.sslEnabled = l.sslEnabled) ∧
    (¬ kv.1 = "sslcert".data → l'.clientCert = l.clientCert) ∧
    (¬ kv.1 = "sslkey".data → l'.clientKey = l.clientKey) := by
  rcases rangeBody_ok_inv h with ⟨_, ⟨hk, rfl⟩ | ⟨hk, _, _, rfl⟩ | ⟨hk, rfl⟩ | ⟨hk, rfl⟩ |
    ⟨hk, rfl⟩ | ⟨hk, _, _, rfl⟩ | ⟨hk, rfl⟩ | ⟨hk, rfl⟩ | ⟨hk, hs⟩ | ⟨hk, rfl⟩ | ⟨hk, rfl⟩ |
    ⟨hk, rfl⟩ | ⟨hk, rfl⟩⟩
  case intro.inr.inr.inr.inr.inr.inr.inr.inr.inl.intro =>
    rcases parseSSLMode_ok_inv hs with ⟨_, rfl⟩ | ⟨_, rfl⟩ | ⟨_, rfl⟩ <;>
      refine ⟨?_, ?_, ?_, ?_, ?_, ?_, ?_, ?_, ?_, ?_, ?_⟩ <;> intro hne <;>
      first
        | rfl
        | exact absurd (Or.inl hk) hne
  all_goals
    refine ⟨?_, ?_, ?_, ?_, ?_, ?_, ?_, ?_, ?_, ?_, ?_⟩ <;> intro hne <;>
    first
      | rfl
      | exact absurd hk hne
      | exact absurd (Or.inr hk) hne
      | exact ⟨rfl, rfl, rfl, rfl⟩

/-- A step of the loop never touches the network, address and TLS
configuration of the options. -/
theorem rangeBody_frame_options {l l' : Locals} {kv : Str × Str}
    (h : rangeBody l kv = Except.ok l') :
    l'.options.Network = l.options.Network ∧ l'.options.Addr = l.options.Addr ∧
      l'.options.TLSConfig = l.options.TLSConfig := by
  rcases rangeBody_ok_inv h with ⟨_, ⟨hk, rfl⟩ | ⟨hk, _, _, rfl⟩ | ⟨hk, rfl⟩ | ⟨hk, rfl⟩ |
    ⟨hk, rfl⟩ | ⟨hk, _, _, rfl⟩ | ⟨hk, rfl⟩ | ⟨hk, rfl⟩ | ⟨hk, hs⟩ | ⟨hk, rfl⟩ | ⟨hk, rfl⟩ |
    ⟨hk, rfl⟩ | ⟨hk, rfl⟩⟩
  case intro.inr.inr.inr.inr.inr.inr.inr.inr.inl.intro =>
    rcases parseSSLMode_ok_inv hs with ⟨_, rfl⟩ | ⟨_, rfl⟩ | ⟨_, rfl⟩ <;> exact ⟨rfl, rfl, rfl⟩
  all_goals exact ⟨rfl, rfl, rfl⟩

/-- What a successful step of the loop does for the keys that set a
variable. -/
theorem rangeBody_set {l l' : Locals} {kv : Str × Str} (h : rangeBody l kv = Except.ok l') :
    ((kv.1 = "host".data ∨ kv.1 = "hostaddr".data) → l'.host = kv.2) ∧
    (kv.1 = "port".data → strconv.Atoi kv.2 = some l'.port) ∧
    (kv.1 = "dbname".data → l'.options.Database = kv.2) ∧
    (kv.1 = "user".data → l'.options.User = kv.2) ∧
    (kv.1 = "password".data → l'.options.Password = kv.2) ∧
    (kv.1 = "sslmode".data → parseSSLMode l kv.2 = Except.ok l') := by
  rcases rangeBody_ok_inv h with ⟨_, ⟨hk, rfl⟩ | ⟨hk, _, hp, rfl⟩ | ⟨hk, rfl⟩ | ⟨hk, rfl⟩ |
    ⟨hk, rfl⟩ | ⟨hk, _, _, rfl⟩ | ⟨hk, rfl⟩ | ⟨hk, rfl⟩ | ⟨hk, hs⟩ | ⟨hk, rfl⟩ | ⟨hk, rfl⟩ |
    ⟨hk, rfl⟩ | ⟨hk, rfl⟩⟩
  case intro.inl.intro =>
    refine ⟨fun _ => rfl, ?_, ?_, ?_, ?_, ?_⟩ <;> intro hk2 <;> rw [hk2] at hk <;>
      exact absurd hk (by decide)
  case intro.inr.inr.inr.inr.inr.inr.inr.inr.inr.inr.inr.inr.intro =>
    refine ⟨?_, ?_, ?_, ?_, ?_, ?_⟩ <;> intro hk2 <;>
      first
        | (rw [hk2] at hk; exact absurd hk (by decide))
        | (rcases hk2 with hk2 | hk2 <;> rw [hk2] at hk <;> exact absurd hk (by decide))
  all_goals
    refine ⟨?_, ?_, ?_, ?_, ?_, ?_⟩ <;> intro hk2 <;>
    first
      | rfl
      | exact hp
      | exact hs
      | (rw [hk] at hk2; exact absurd hk2 (by decide))

/-- The loop over entries with pairwise different keys, for a variable `f`
that only the entry with key `k` sets: the final value is the one this entry
gives, or the initial one when there is no such entry. -/
theorem rangeLoop_single {α : Type} (f : Locals → α) (k : Str) (g : Str → α → α)
    (hframe : ∀ l kv l', ¬ kv.1 = k → rangeBody l kv = Except.ok l' → f l' = f l)
    (hset : ∀ l v l', rangeBody l (k, v) = Except.ok l' → f l' = g v (f l))
    (ps : List (Str × Str)) (l l' : Locals) (hnd : (ps.map Prod.fst).Nodup)
    (h : rangeLoop l ps = Except.ok l') :
    (∀ v, (k, v) ∈ ps → f l' = g v (f l)) ∧ ((∀ v, (k, v) ∉ ps) → f l' = f l) := by
  constructor
  · intro v hv
    exact rangeLoop_set f (fun x => x = k) k g hframe hset ps l l' v hnd (fun _ _ hx => hx) hv h
  · intro hno
    refine rangeLoop_frame f (fun x => x = k) hframe ps l l' ?_ h
    intro kv hkv hk
    exact hno kv.2 (by rw [← hk]; exact hkv)

/-- The user after the loop. -/
theorem rangeLoop_user (ps : List (Str × Str)) (l l' : Locals)
    (hnd : (ps.map Prod.fst).Nodup) (h : rangeLoop l ps = Except.ok l') :
    (∀ v, ("user".data, v) ∈ ps → l'.options.User = v) ∧
      ((∀ v, ("user".data, v) ∉ ps) → l'.options.User = l.options.User) :=
  rangeLoop_single (fun l => l.options.User) "user".data (fun v _ => v)
    (fun _ _ _ hk hb => (rangeBody_frame hb).2.2.2.1 hk)
    (fun _ _ _ hb => (rangeBody_set hb).2.2.2.1 rfl) ps l l' hnd h

/-- The password after the loop. -/
theorem rangeLoop_password (ps : List (Str × Str)) (l l' : Locals)
    (hnd : (ps.map Prod.fst).Nodup) (h : rangeLoop l ps = Except.ok l') :
    (∀ v, ("password".data, v) ∈ ps → l'.options.Password = v) ∧
      ((∀ v, ("password".data, v) ∉ ps) → l'.options.Password = l.options.Password) :=
  rangeLoop_single (fun l => l.options.Password) "password".data (fun v _ => v)
    (fun _ _ _ hk hb => (rangeBody_frame hb).2.2.2.2.1 hk)
    (fun _ _ _ hb => (rangeBody_set hb).2.2.2.2.1 rfl) ps l l' hnd h

/-- The database after the loop. -/
theorem rangeLoop_database (ps : List (Str × Str)) (l l' : Locals)
    (hnd : (ps.map Prod.fst).Nodup) (h : rangeLoop l ps = Except.ok l') :
    (∀ v, ("dbname".data, v) ∈ ps → l'.options.Database = v) ∧
      ((∀ v, ("dbname".data, v) ∉ ps) → l'.options.Database = l.options.Database) :=
  rangeLoop_single (fun l => l.options.Database) "dbname".data (fun v _ => v)
    (fun _ _ _ hk hb => (rangeBody_frame hb).2.2.1 hk)
    (fun _ _ _ hb => (rangeBody_set hb).2.2.1 rfl) ps l l' hnd h

/-- The port after the loop. -/
theorem rangeLoop_port (ps : List (Str × Str)) (l l' : Locals)
    (hnd : (ps.map Prod.fst).Nodup) (h : rangeLoop l ps = Except.ok l') :
    (∀ v, ("port".data, v) ∈ ps → strconv.Atoi v = some l'.port) ∧
      ((∀ v, ("port".data, v) ∉ ps) → l'.port = l.port) := by
  have := rangeLoop_single (fun l => some l.port) "port".data (fun v _ => strconv.Atoi v)
    (fun _ _ _ hk hb => congrArg some ((rangeBody_frame hb).2.1 hk))
    (fun _ _ _ hb => ((rangeBody_set hb).2.1 rfl).symm) ps l l' hnd h
  exact ⟨fun v hv => (this.1 v hv).symm, fun hno => Option.some.inj (this.2 hno)⟩

/-- The host after the loop when no entry has the key `host` or `hostaddr`. -/
theorem rangeLoop_host_none (ps : List (Str × Str)) (l l' : Locals)
    (hno : ∀ kv ∈ ps, ¬ (kv.1 = "host".data ∨ kv.1 = "hostaddr".data))
    (h : rangeLoop l ps = Except.ok l') : l'.host = l.host :=
  rangeLoop_frame (fun l => l.host) (fun x => x = "host".data ∨ x = "hostaddr".data)
    (fun _ _ _ hk hb => (rangeBody_frame hb).1 hk) ps l l' hno h

/-- The host after the loop when `host` is present and `hostaddr` is not. -/
theorem rangeLoop_host (ps : List (Str × Str)) (l l' : Locals) (v : Str)
    (hnd : (ps.map Prod.fst).Nodup) (hv : ("host".data, v) ∈ ps)
    (hno : ∀ x, ("hostaddr".data, x) ∉ ps)
    (h : rangeLoop l ps = Except.ok l') : l'.host = v := by
  refine rangeLoop_set (fun l => l.host) (fun x => x = "host".data ∨ x = "hostaddr".data)
    "host".data (fun v _ => v) (fun _ _ _ hk hb => (rangeBody_frame hb).1 hk)
    (fun _ _ _ hb => (rangeBody_set hb).1 (Or.inl rfl)) ps l l' v hnd ?_ hv h
  intro kv hkv hk
  rcases hk with hk | hk
  · exact hk
  · exact absurd (by rw [← hk]; exact hkv) (hno kv.2)

/-! ## The parameter map has pairwise different keys -/

theorem Params.set_keys (k v : Str) (m : Params) :
    (Params.set k v m).map Prod.fst =
      if k ∈ m.map Prod.fst then m.map Prod.fst else m.map Prod.fst ++ [k] := by
  induction m with
  | nil => simp [Params.set]
  | cons p m ih =>
    obtain ⟨k1, v1⟩ := p
    by_cases h : k1 = k
    · simp [Params.set, h]
    · have h2 : ¬ k = k1 := fun hc => h hc.symm
      simp only [Params.set, if_neg h, List.map_cons, ih, List.mem_cons, h2, false_or]
      split <;> simp

theorem Params.set_nodup (k v : Str) (m : Params) (h : (m.map Prod.fst).Nodup) :
    ((Params.set k v m).map Prod.fst).Nodup := by
  rw [Params.set_keys]
  split
  · exact h
  · rename_i hk
    exact List.Nodup.append h (List.nodup_singleton k) (by
      intro x hx hx2
      rw [List.mem_singleton] at hx2
      subst hx2
      exact hk hx)

theorem Params.mem_set_self (k v : Str) (m : Params) : (k, v) ∈ Params.set k v m := by
  induction m with
  | nil => simp [Params.set]
  | cons p m ih =>
    obtain ⟨k1, v1⟩ := p
    by_cases h : k1 = k
    · simp [Params.set, h]
    · simp only [Params.set, if_neg h, List.mem_cons]
      exact Or.inr ih

theorem Params.mem_set_of_ne (k v : Str) (m : Params) (kv : Str × Str) (hne : ¬ kv.1 = k) :
    kv ∈ Params.set k v m ↔ kv ∈ m := by
  induction m with
  | nil =>
    simp only [Params.set, List.mem_singleton, List.not_mem_nil, iff_false]
    intro hc
    exact hne (by rw [hc])
  | cons p m ih =>
    obtain ⟨k1, v1⟩ := p
    by_cases h : k1 = k
    · simp only [Params.set, if_pos h, List.mem_cons]
      constructor
      · rintro (h1 | h1)
        · exact absurd (by rw [h1]; exact h) hne
        · exact Or.inr h1
      · rintro (h1 | h1)
        · exact absurd (by rw [h1]; exact h) hne
        · exact Or.inr h1
    · simp only [Params.set, if_neg h, List.mem_cons, ih]

theorem Params.has_iff (m : Params) (k : Str) : m.has k = true ↔ ∃ v, (k, v) ∈ m := by
  unfold Params.has
  rw [List.any_eq_true]
  constructor
  · rintro ⟨⟨k1, v1⟩, hmem, hk⟩
    have hk1 : k1 = k := by simpa using hk
    subst hk1
    exact ⟨v1, hmem⟩
  · rintro ⟨v, hv⟩
    exact ⟨(k, v), hv, by simp⟩

theorem Values.add_keys (k v : Str) (m : url.Values) :
    (url.Values.add k v m).map Prod.fst =
      if k ∈ m.map Prod.fst then m.map Prod.fst else m.map Prod.fst ++ [k] := by
  induction m with
  | nil => simp [url.Values.add]
  | cons p m ih =>
    obtain ⟨k1, v1⟩ := p
    by_cases h : k1 = k
    · simp [url.Values.add, h]
    · have h2 : ¬ k = k1 := fun hc => h hc.symm
      simp only [url.Values.add, if_neg h, List.map_cons, ih, List.mem_cons, h2, false_or]
      split <;> simp

theorem Values.add_nodup (k v : Str) (m : url.Values) (h : (m.map Prod.fst).Nodup) :
    ((url.Values.add k v m).map Prod.fst).Nodup := by
  rw [Values.add_keys]
  split
  · exact h
  · rename_i hk
    exact List.Nodup.append h (List.nodup_singleton k) (by
      intro x hx hx2
      rw [List.mem_singleton] at hx2
      subst hx2
      exact hk hx)

theorem parseQueryStep_nodup (st : url.Values × Bool) (piece : Str)
    (h : (st.1.map Prod.fst).Nodup) : ((url.parseQueryStep st piece).1.map Prod.fst).Nodup := by
  unfold url.parseQueryStep
  dsimp only
  split
  · exact h
  · split
    · exact h
    · split
      · exact h
      · split
        · exact h
        · exact Values.add_nodup _ _ _ h

theorem foldl_parseQueryStep_nodup (pieces : List Str) :
    ∀ st : url.Values × Bool, (st.1.map Prod.fst).Nodup →
      (((pieces.foldl url.parseQueryStep st).1).map Prod.fst).Nodup := by
  induction pieces with
  | nil => intro st h; exact h
  | cons p ps ih =>
    intro st h
    exact ih _ (parseQueryStep_nodup st p h)

theorem ParseQuery_nodup (q : Str) : (((url.ParseQuery q).1).map Prod.fst).Nodup :=
  foldl_parseQueryStep_nodup _ _ List.nodup_nil

theorem flatten_keys : ∀ (m : url.Values) (ps : Params), flatten m = Except.ok ps →
    ps.map Prod.fst = m.map Prod.fst := by
  intro m
  induction m with
  | nil =>
    intro ps h
    simp only [flatten] at h
    cases h
    rfl
  | cons p m ih =>
    intro ps h
    obtain ⟨k, vs⟩ := p
    match vs, h with
    | [], h => simp [flatten] at h
    | [v], h =>
      simp only [flatten] at h
      cases hf : flatten m with
      | error e => rw [hf] at h; cases h
      | ok ps1 =>
        rw [hf] at h
        cases h
        simp [ih ps1 hf]
    | _ :: _ :: _, h => simp [flatten] at h

theorem withHostPort_nodup (uri : url.URL) (m : Params) (h : (m.map Prod.fst).Nodup) :
    ((withHostPort uri m).map Prod.fst).Nodup := by
  unfold withHostPort
  dsimp only
  repeat' first
    | exact h
    | apply Params.set_nodup
    | split

theorem splitKeyValues_nodup : ∀ (fields : List Str) (m ps : Params),
    (m.map Prod.fst).Nodup → splitKeyValues m fields = Except.ok ps →
      (ps.map Prod.fst).Nodup := by
  intro fields
  induction fields with
  | nil =>
    intro m ps hm h
    simp only [splitKeyValues] at h
    cases h
    exact hm
  | cons f fs ih =>
    intro m ps hm h
    simp only [splitKeyValues] at h
    split at h
    · exact ih _ ps (Params.set_nodup _ _ _ hm) h
    · cases h

/-- What a successful `uriParameters` returns. -/
theorem uriParameters_ok_inv {dsn : Str} {opts : Options} {params : Params}
    (h : uriParameters dsn = Except.ok (opts, params)) :
    ∃ (uri : url.URL) (q : Params), url.Parse (rebuildURI dsn) = some uri ∧
      (url.ParseQuery uri.RawQuery).2 = false ∧
      flatten (url.ParseQuery uri.RawQuery).1 = Except.ok q ∧
      opts = uriOptions uri ∧ params = withHostPort uri q := by
  unfold uriParameters at h
  cases hu : url.Parse (rebuildURI dsn) with
  | none => rw [hu] at h; cases h
  | some uri =>
    rw [hu] at h
    dsimp only at h
    cases hq : (url.ParseQuery uri.RawQuery).2 with
    | true => rw [hq] at h; simp at h
    | false =>
      rw [hq] at h
      simp only [Bool.false_eq_true, if_false] at h
      cases hf : flatten (url.ParseQuery uri.RawQuery).1 with
      | error e => rw [hf] at h; cases h
      | ok q =>
        rw [hf] at h
        injection h with h
        injection h with h1 h2
        exact ⟨uri, q, rfl, hq, hf, h1.symm, h2.symm⟩

/-- What a successful `connstrParameters` returns. -/
theorem connstrParameters_ok_inv {s : Str} {opts : Options} {params : Params}
    (h : connstrParameters s = Except.ok (opts, params)) :
    ∃ records, csv.ReadAll s = Except.ok records ∧
      splitKeyValues [] (records.headD []) = Except.ok params ∧ opts = {} := by
  unfold connstrParameters at h
  cases hr : csv.ReadAll s with
  | error e => rw [hr] at h; cases h
  | ok records =>
    rw [hr] at h
    dsimp only at h
    cases hs : splitKeyValues [] (records.headD []) with
    | error e => rw [hs] at h; cases h
    | ok ps =>
      rw [hs] at h
      injection h with h
      injection h with h1 h2
      exact ⟨records, rfl, h2 ▸ hs, h1.symm⟩

/-- The keys of the parameter map handed to `parseParameters` are pairwise
different. -/
theorem decoded_nodup {s : Str} {opts : Options} {params : Params}
    (h : decoded s = Except.ok (opts, params)) : (params.map Prod.fst).Nodup := by
  unfold decoded at h
  split at h
  · obtain ⟨uri, q, _, _, hf, _, rfl⟩ := uriParameters_ok_inv h
    apply withHostPort_nodup
    rw [flatten_keys _ _ hf]
    exact ParseQuery_nodup _
  · obtain ⟨records, _, hs, _⟩ := connstrParameters_ok_inv h
    exact splitKeyValues_nodup _ [] _ (by simp) hs

/-- What a successful `parseParameters` consists of. -/
theorem parseParameters_ok_inv {w : World} {opts o : Options} {params : Params}
    (h : parseParameters w opts params = Except.ok o) :
    ∃ l, rangeLoop { options := opts } (w.rangeOrder params) = Except.ok l ∧
      resolve w l = Except.ok o := by
  unfold parseParameters at h
  cases hl : rangeLoop { options := opts } (w.rangeOrder params) with
  | error e => rw [hl] at h; cases h
  | ok l => rw [hl] at h; exact ⟨l, rfl, h⟩

/-- A successful `Parse`: the input decodes, the loop runs through and the
resolution succeeds. -/
theorem Parse_ok_inv {w : World} {s : Str} {o : Options} (h : Parse w s = Except.ok o) :
    ∃ opts params l, decoded s = Except.ok (opts, params) ∧
      rangeLoop { options := opts } (w.rangeOrder params) = Except.ok l ∧
      resolve w l = Except.ok o := by
  rw [Parse_eq_decoded] at h
  cases hd : decoded s with
  | error e => rw [hd] at h; cases h
  | ok op =>
    obtain ⟨opts, params⟩ := op
    rw [hd] at h
    obtain ⟨l, h1, h2⟩ := parseParameters_ok_inv h
    exact ⟨opts, params, l, rfl, h1, h2⟩

/-! ## The resolution after the loop -/

/-- What a successful `attachTLS` returns: the options with a TLS
configuration exactly when SSL is enabled. -/
theorem attachTLS_ok_inv {w : World} {l1 : Locals} {isSocket : Bool} {host : Str}
    {options o : Options} (h : attachTLS w l1 isSocket host options = Except.ok o) :
    (l1.sslEnabled = false → o = options) ∧
    (l1.sslEnabled = true → ∃ tls, o = { options with TLSConfig := some tls } ∧
      tls.InsecureSkipVerify =
        (if l1.sslNeedsHostname = true ∧ isSocket = true then true
          else l1.tlsconfig.InsecureSkipVerify) ∧
      tls.ServerName =
        (if l1.sslNeedsHostname = true ∧ isSocket = false then host
          else l1.tlsconfig.ServerName)) := by
  unfold attachTLS at h
  dsimp only at h
  cases hen : l1.sslEnabled with
  | false =>
    rw [hen] at h
    simp only [Bool.false_eq_true, if_false] at h
    injection h with h
    exact ⟨fun _ => h.symm, fun hc => Bool.noConfusion hc⟩
  | true =>
    rw [hen] at h
    simp only [if_true] at h
    refine ⟨fun hc => Bool.noConfusion hc, fun _ => ?_⟩
    have htls : ∀ t : TLSConfig,
        t = (if l1.sslNeedsHostname = true then
              if isSocket = true then { l1.tlsconfig with InsecureSkipVerify := true }
              else { l1.tlsconfig with ServerName := host }
            else l1.tlsconfig) →
        t.InsecureSkipVerify =
          (if l1.sslNeedsHostname = true ∧ isSocket = true then true
            else l1.tlsconfig.InsecureSkipVerify) ∧
        t.ServerName =
          (if l1.sslNeedsHostname = true ∧ isSocket = false then host
            else l1.tlsconfig.ServerName) := by
      intro t ht
      subst ht
      cases l1.sslNeedsHostname <;> cases isSocket <;> simp
    generalize (if l1.clientCert = [] then w.Getenv "PGSSLCERT".data else l1.clientCert) = cc at h
    generalize (if l1.clientKey = [] then w.Getenv "PGSSLKEY".data else l1.clientKey) = ck at h
    generalize ht : (if l1.sslNeedsHostname = true then
              if isSocket = true then { l1.tlsconfig with InsecureSkipVerify := true }
              else { l1.tlsconfig with ServerName := host }
            else l1.tlsconfig) = t at h
    have ht2 := htls t ht.symm
    by_cases hc : ck ≠ [] ∧ cc ≠ []
    · rw [if_pos hc] at h
      cases hl : w.LoadX509KeyPair cc ck with
      | none => rw [hl] at h; cases h
      | some cert =>
        rw [hl] at h
        injection h with h
        exact ⟨_, h.symm, ht2⟩
    · rw [if_neg hc] at h
      injection h with h
      exact ⟨_, h.symm, ht2⟩

/-- What a successful `resolve` consists of. -/
theorem resolve_ok_inv {w : World} {l : Locals} {o : Options} (h : resolve w l = Except.ok o) :
    ∃ port l1 dialTimeout, resolvedPort w l = some port ∧ envSSL w l = Except.ok l1 ∧
      resolvedDialTimeout w l = some dialTimeout ∧
      attachTLS w l1 (resolvedHost w l ≠ [] ∧ strings.HasPrefix (resolvedHost w l) ['/'])
        (if resolvedHost w l = [] then "localhost".data else resolvedHost w l)
        (assemble w l (resolvedHost w l) port dialTimeout) = Except.ok o := by
  unfold resolve at h
  cases hp : resolvedPort w l with
  | none => rw [hp] at h; cases h
  | some port =>
    rw [hp] at h
    dsimp only at h
    cases hs : envSSL w l with
    | error e => rw [hs] at h; cases h
    | ok l1 =>
      rw [hs] at h
      dsimp only at h
      cases hd : resolvedDialTimeout w l with
      | none => rw [hd] at h; cases h
      | some dt =>
        rw [hd] at h
        exact ⟨port, l1, dt, rfl, rfl, rfl, h⟩

/-- The fields of a successful `resolve` other than the TLS configuration are
those of `assemble`. -/
theorem resolve_ok_fields {w : World} {l : Locals} {o : Options}
    (h : resolve w l = Except.ok o) :
    ∃ port dialTimeout, resolvedPort w l = some port ∧
      resolvedDialTimeout w l = some dialTimeout ∧
      o.Network = (assemble w l (resolvedHost w l) port dialTimeout).Network ∧
      o.Addr = (assemble w l (resolvedHost w l) port dialTimeout).Addr ∧
      o.User = (assemble w l (resolvedHost w l) port dialTimeout).User ∧
      o.Password = (assemble w l (resolvedHost w l) port dialTimeout).Password ∧
      o.Database = (assemble w l (resolvedHost w l) port dialTimeout).Database ∧
      o.ApplicationName = (assemble w l (resolvedHost w l) port dialTimeout).ApplicationName ∧
      o.DialTimeout = dialTimeout := by
  obtain ⟨port, l1, dt, hp, _, hd, ha⟩ := resolve_ok_inv h
  refine ⟨port, dt, hp, hd, ?_⟩
  have h1 := attachTLS_ok_inv ha
  cases hen : l1.sslEnabled with
  | false =>
    rw [h1.1 hen]
    exact ⟨rfl, rfl, rfl, rfl, rfl, rfl, rfl⟩
  | true =>
    obtain ⟨tls, ho, _⟩ := h1.2 hen
    rw [ho]
    exact ⟨rfl, rfl, rfl, rfl, rfl, rfl, rfl⟩

/-- Two entries of a map with the same key have the same value. -/
theorem mem_unique {ps : List (Str × Str)} (hnd : (ps.map Prod.fst).Nodup) {k v1 v2 : Str}
    (h1 : (k, v1) ∈ ps) (h2 : (k, v2) ∈ ps) : v1 = v2 := by
  induction ps with
  | nil => cases h1
  | cons p ps ih =>
    rw [List.map_cons, List.nodup_cons] at hnd
    rcases List.mem_cons.mp h1 with e1 | e1 <;> rcases List.mem_cons.mp h2 with e2 | e2
    · rw [← e2] at e1
      injection e1
    · exact absurd (List.mem_map.mpr ⟨(k, v2), e2, by rw [← e1]⟩) hnd.1
    · exact absurd (List.mem_map.mpr ⟨(k, v1), e1, by rw [← e2]⟩) hnd.1
    · exact ih hnd.2 e1 e2

/-- The visit of a map in a world whose `range` is a permutation: same
entries, keys still pairwise different. -/
theorem rangeOrder_facts {w : World} (hw : w.RangeIsPerm) (params : Params)
    (hnd : (params.map Prod.fst).Nodup) :
    ((w.rangeOrder params).map Prod.fst).Nodup ∧
      ∀ kv, kv ∈ w.rangeOrder params ↔ kv ∈ params :=
  ⟨((hw params).map Prod.fst).nodup_iff.mpr hnd, fun _ => (hw params).mem_iff⟩

theorem exampleWorld_perm : exampleWorld.RangeIsPerm := fun m => List.Perm.refl m

/-! ## Facts about the string functions -/

theorem strings.TrimPrefix_append (p t : Str) : strings.TrimPrefix (p ++ t) p = t := by
  unfold strings.TrimPrefix strings.HasPrefix
  have : p.isPrefixOf (p ++ t) = true := List.isPrefixOf_iff_prefix.mpr (List.prefix_append p t)
  rw [if_pos this, List.drop_left]

theorem strings.TrimSuffix_append (a b : Str) : strings.TrimSuffix (a ++ b) b = a := by
  unfold strings.TrimSuffix strings.HasSuffix
  have : b.isSuffixOf (a ++ b) = true := List.isSuffixOf_iff_suffix.mpr (List.suffix_append a b)
  rw [if_pos this]
  simp

theorem strings.Cut_single (c : Char) (x y : Str) (hx : c ∉ x) :
    strings.Cut [c] (x ++ c :: y) = some (x, y) := by
  induction x with
  | nil => simp [strings.Cut]
  | cons a x ih =>
    have ha : ¬ c = a := fun h => hx (by rw [h]; exact List.mem_cons_self _ _)
    have hx2 : c ∉ x := fun h => hx (List.mem_cons_of_mem _ h)
    simp [strings.Cut, ha, ih hx2]

theorem strings.Cut_none (c : Char) (x : Str) (hx : c ∉ x) : strings.Cut [c] x = none := by
  induction x with
  | nil => simp [strings.Cut]
  | cons a x ih =>
    have ha : ¬ c = a := fun h => hx (by rw [h]; exact List.mem_cons_self _ _)
    have hx2 : c ∉ x := fun h => hx (List.mem_cons_of_mem _ h)
    simp [strings.Cut, ha, ih hx2]

theorem strings.CutLast_none (c : Char) (x : Str) (hx : c ∉ x) : strings.CutLast c x = none := by
  induction x with
  | nil => rfl
  | cons a x ih =>
    have ha : ¬ a = c := fun h => hx (by rw [h]; exact List.mem_cons_self _ _)
    have hx2 : c ∉ x := fun h => hx (List.mem_cons_of_mem _ h)
    simp [strings.CutLast, ha, ih hx2]

theorem strings.CutLast_single (c : Char) (x y : Str) (hy : c ∉ y) :
    strings.CutLast c (x ++ c :: y) = some (x, y) := by
  induction x with
  | nil => simp [strings.CutLast, strings.CutLast_none c y hy]
  | cons a x ih => simp [strings.CutLast, ih]

theorem strings.ContainsRune_iff (s : Str) (c : Char) :
    strings.ContainsRune s c = true ↔ c ∈ s := by
  unfold strings.ContainsRune
  simp

theorem strings.HasSuffix_single_false (c : Char) (s t : Str) (ht : t ≠ [])
    (hc : c ∉ t) : strings.HasSuffix (s ++ t) [c] = false := by
  unfold strings.HasSuffix
  cases h : [c].isSuffixOf (s ++ t) with
  | false => rfl
  | true =>
    exfalso
    rw [List.isSuffixOf_iff_suffix] at h
    obtain ⟨r, hr⟩ := h
    have h1 : (s ++ t).getLast? = some c := by rw [← hr]; simp
    have h2 : (s ++ t).getLast? = t.getLast? := by
      rw [List.getLast?_append]
      cases hl : t.getLast? with
      | none => exact absurd (List.getLast?_eq_none_iff.mp hl) ht
      | some v => rfl
    rw [h2] at h1
    exact hc (List.mem_of_getLast?_eq_some h1)

/-- A replacement whose first byte does not occur leaves the text as it is. -/
theorem strings.replaceFrom_id_of_head (c : Char) (old new : Str) (s : Str) (hc : c ∉ s) :
    strings.replaceFrom (c :: old) new 0 s = s := by
  induction s with
  | nil => rfl
  | cons a s ih =>
    have ha : ¬ c = a := fun h => hc (by rw [h]; exact List.mem_cons_self _ _)
    have hs : c ∉ s := fun h => hc (List.mem_cons_of_mem _ h)
    simp [strings.replaceFrom, ha, ih hs]

/-- A replacement of a text that does not occur leaves the text as it is. -/
theorem strings.replaceFrom_id_of_not_infix (old new : Str) (s : Str) (h : ¬ old <:+: s) :
    strings.replaceFrom old new 0 s = s := by
  induction s with
  | nil => rfl
  | cons a s ih =>
    have h1 : old.isPrefixOf (a :: s) = false := by
      cases hp : old.isPrefixOf (a :: s) with
      | false => rfl
      | true => exact absurd (List.isPrefixOf_iff_prefix.mp hp).isInfix h
    have h2 : ¬ old <:+: s := fun hi => h (hi.trans (List.suffix_cons a s).isInfix)
    simp [strings.replaceFrom, h1, ih h2]

theorem List.isPrefixOf_append_of_not_mem (c : Char) (old a b : Str) (hc : c ∉ old) :
    old.isPrefixOf (a ++ c :: b) = old.isPrefixOf a := by
  induction old generalizing a with
  | nil => simp
  | cons o old ih =>
    have ho : ¬ o = c := fun h => hc (by rw [h]; exact List.mem_cons_self _ _)
    have hc2 : c ∉ old := fun h => hc (List.mem_cons_of_mem _ h)
    cases a with
    | nil => simp [List.isPrefixOf, ho]
    | cons x a =>
      show (o == x && old.isPrefixOf (a ++ c :: b)) = (o == x && old.isPrefixOf a)
      rw [ih a hc2]

/-- A replacement works on the two sides of a byte that does not occur in the
text to replace. -/
theorem strings.replaceFrom_split (c : Char) (old new : Str) (b : Str) (hc : c ∉ old)
    (hold : old ≠ []) :
    ∀ (a : Str) (k : Nat), k ≤ a.length →
      strings.replaceFrom old new k (a ++ c :: b) =
        strings.replaceFrom old new k a ++ c :: strings.replaceFrom old new 0 b := by
  intro a
  induction a with
  | nil =>
    intro k hk
    have hk0 : k = 0 := by simpa using hk
    subst hk0
    have hpre : old.isPrefixOf (c :: b) = false := by
      have := List.isPrefixOf_append_of_not_mem c old [] b hc
      rw [List.nil_append] at this
      rw [this]
      cases old with
      | nil => exact absurd rfl hold
      | cons o old => rfl
    show strings.replaceFrom old new 0 (c :: b) = _
    simp only [strings.replaceFrom, hpre]
    simp
  | cons x a ih =>
    intro k hk
    cases k with
    | zero =>
      have hpre : old.isPrefixOf (x :: (a ++ c :: b)) = old.isPrefixOf (x :: a) :=
        List.isPrefixOf_append_of_not_mem c old (x :: a) b hc
      show strings.replaceFrom old new 0 (x :: (a ++ c :: b)) = _
      simp only [strings.replaceFrom]
      rw [hpre]
      by_cases hp : old.isPrefixOf (x :: a) = true
      · rw [if_pos hp, if_pos hp]
        have hlen : old.length ≤ (x :: a).length :=
          (List.isPrefixOf_iff_prefix.mp hp).length_le
        rw [ih (old.length - 1) (by simp at hlen; omega)]
        simp
      · rw [if_neg hp, if_neg hp]
        rw [ih 0 (Nat.zero_le _)]
        simp
    | succ k =>
      show strings.replaceFrom old new (k + 1) (x :: (a ++ c :: b)) = _
      simp only [strings.replaceFrom]
      exact ih k (by simp at hk; omega)

/-! ## Facts about letters, digits and numerals -/

theorem isAlnum_ne {c x : Char} (hc : url.isAlnum c = true) (hx : url.isAlnum x = false) :
    c ≠ x := by
  intro h
  rw [h, hx] at hc
  cases hc

theorem AlnumStr.not_mem {s : Str} (hs : AlnumStr s) {x : Char} (hx : url.isAlnum x = false) :
    x ∉ s := fun h => isAlnum_ne (hs x h) hx rfl

theorem AlnumStr.append {s t : Str} (hs : AlnumStr s) (ht : AlnumStr t) : AlnumStr (s ++ t) := by
  intro c hc
  rcases List.mem_append.mp hc with h | h
  · exact hs c h
  · exact ht c h

theorem DigitStr.alnum {s : Str} (hs : DigitStr s) : AlnumStr s := by
  intro c hc
  obtain ⟨h1, h2⟩ := hs c hc
  unfold url.isAlnum
  simp [h1, h2]

theorem digitChar_digit : ∀ m, m < 10 →
    48 ≤ (Nat.digitChar m).toNat ∧ (Nat.digitChar m).toNat ≤ 57 ∧
      strconv.digitVal (Nat.digitChar m) = some m := by
  decide

theorem toDigitsCore_digits : ∀ (fuel n : Nat) (ds : Str), DigitStr ds →
    DigitStr (Nat.toDigitsCore 10 fuel n ds) := by
  intro fuel
  induction fuel with
  | zero => intro n ds h; exact h
  | succ fuel ih =>
    intro n ds h
    have hd : DigitStr (Nat.digitChar (n % 10) :: ds) := by
      intro c hc
      rcases List.mem_cons.mp hc with e | e
      · rw [e]
        have := digitChar_digit (n % 10) (Nat.mod_lt _ (by decide))
        exact ⟨this.1, this.2.1⟩
      · exact h c e
    simp only [Nat.toDigitsCore]
    split
    · exact hd
    · exact ih _ _ hd

theorem toDigits_digits (n : Nat) : DigitStr (Nat.toDigits 10 n) :=
  toDigitsCore_digits _ _ _ (fun _ h => by cases h)

theorem parseDigits_toDigitsCore : ∀ (fuel n : Nat) (ds : Str), n < fuel →
    strconv.parseDigits (Nat.toDigitsCore 10 fuel n ds) 0 = strconv.parseDigits ds n := by
  intro fuel
  induction fuel with
  | zero => intro n ds h; omega
  | succ fuel ih =>
    intro n ds h
    have hd := (digitChar_digit (n % 10) (Nat.mod_lt _ (by decide))).2.2
    simp only [Nat.toDigitsCore]
    split
    · rename_i h0
      have hn : n % 10 = n := by omega
      simp only [strconv.parseDigits, hd]
      rw [hn]
      simp
    · rename_i h0
      rw [ih (n / 10) _ (by omega)]
      simp only [strconv.parseDigits, hd]
      congr 1
      omega

theorem parseDigits_toDigits (n : Nat) : strconv.parseDigits (Nat.toDigits 10 n) 0 = some n := by
  unfold Nat.toDigits
  rw [parseDigits_toDigitsCore _ _ _ (Nat.lt_succ_self n)]
  rfl

theorem toDigits_ne_nil (n : Nat) : Nat.toDigits 10 n ≠ [] := by
  unfold Nat.toDigits
  simp only [Nat.toDigitsCore]
  split
  · simp
  · intro h
    have h1 := parseDigits_toDigitsCore n (n / 10) [Nat.digitChar (n % 10)] (by omega)
    rw [h] at h1
    have hd := (digitChar_digit (n % 10) (Nat.mod_lt _ (by decide))).2.2
    simp [strconv.parseDigits, hd] at h1
    omega

/-- `Atoi` reads back the numeral that `%d` prints for a natural number in
the range of `int`. -/
theorem Atoi_formatInt (n : Nat) (hn : n ≤ 9223372036854775807) :
    strconv.Atoi (fmt.formatInt (n : Int)) = some (n : Int) := by
  have hfmt : fmt.formatInt (n : Int) = Nat.toDigits 10 n := rfl
  rw [hfmt]
  have hne := toDigits_ne_nil n
  have hdig := toDigits_digits n
  unfold strconv.Atoi
  cases hN : Nat.toDigits 10 n with
  | nil => exact absurd hN hne
  | cons c cs =>
    have hc := hdig c (by rw [hN]; exact List.mem_cons_self _ _)
    have h1 : ¬ c = '-' := by
      intro h
      rw [h] at hc
      revert hc
      decide
    have h2 : ¬ c = '+' := by
      intro h
      rw [h] at hc
      revert hc
      decide
    have hp := parseDigits_toDigits n
    rw [hN] at hp
    have h3 : (-9223372036854775808 : Int) ≤ (n : Int) ∧ (n : Int) ≤ 9223372036854775807 := by
      constructor <;> omega
    simp [h1, h2, hp, h3]

theorem DigitStr.lacks {s : Str} (hs : DigitStr s) {x : Char}
    (hx : ¬ (48 ≤ x.toNat ∧ x.toNat ≤ 57)) : x ∉ s := fun h => hx (hs x h)

/-! ## Facts about the URI parser -/

theorem shouldEscapeHost_alnum {c : Char} (h : url.isAlnum c = true) :
    url.shouldEscapeHost c = false := by
  unfold url.shouldEscapeHost
  simp [h]

theorem unescapeCheck_plain (mode : url.encoding) (s : Str)
    (h : ∀ c ∈ s, c ≠ '%' ∧ c ≠ '+' ∧
      ((mode = url.encoding.encodeHost ∨ mode = url.encoding.encodeZone) →
        url.shouldEscapeHost c = false)) :
    url.unescapeCheck mode s = true := by
  induction s with
  | nil => rfl
  | cons c s ih =>
    obtain ⟨h1, h2, h3⟩ := h c (List.mem_cons_self _ _)
    have ih2 := ih (fun x hx => h x (List.mem_cons_of_mem _ hx))
    unfold url.unescapeCheck
    rw [if_neg h1, if_neg h2]
    by_cases hm : mode = url.encoding.encodeHost ∨ mode = url.encoding.encodeZone
    · rw [if_neg (by rw [h3 hm]; simp)]
      exact ih2
    · rw [if_neg (fun hc => hm hc.1)]
      exact ih2

theorem unescapeDecode_plain (mode : url.encoding) (s : Str)
    (h : ∀ c ∈ s, c ≠ '%' ∧ c ≠ '+') : url.unescapeDecode mode s = s := by
  induction s with
  | nil => rfl
  | cons c s ih =>
    obtain ⟨h1, h2⟩ := h c (List.mem_cons_self _ _)
    have ih2 := ih (fun x hx => h x (List.mem_cons_of_mem _ hx))
    unfold url.unescapeDecode
    rw [if_neg h1, if_neg h2, ih2]

/-- `unescape` returns a text without `%` and `+` as it is, in a host when
its bytes need no escape there. -/
theorem unescape_plain (mode : url.encoding) (s : Str)
    (h : ∀ c ∈ s, c ≠ '%' ∧ c ≠ '+' ∧
      ((mode = url.encoding.encodeHost ∨ mode = url.encoding.encodeZone) →
        url.shouldEscapeHost c = false)) :
    url.unescape s mode = some s := by
  unfold url.unescape
  rw [if_pos (unescapeCheck_plain mode s h),
    unescapeDecode_plain mode s (fun c hc => ⟨(h c hc).1, (h c hc).2.1⟩)]

theorem unescape_alnum (mode : url.encoding) (s : Str) (hs : AlnumStr s) :
    url.unescape s mode = some s :=
  unescape_plain mode s (fun c hc =>
    ⟨isAlnum_ne (hs c hc) (by decide), isAlnum_ne (hs c hc) (by decide),
      fun _ => shouldEscapeHost_alnum (hs c hc)⟩)

theorem validOptionalPort_digits (n : Str) (hn : DigitStr n) :
    url.validOptionalPort (':' :: n) = true := by
  unfold url.validOptionalPort
  simp only [decide_True, Bool.true_and, List.all_eq_true]
  intro b hb
  obtain ⟨h1, h2⟩ := hn b hb
  simp [h1, h2]

theorem strings.HasSuffix_single_mem (c : Char) (s : Str) (h : strings.HasSuffix s [c] = true) :
    c ∈ s := by
  unfold strings.HasSuffix at h
  obtain ⟨r, hr⟩ := List.isSuffixOf_iff_suffix.mp h
  rw [← hr]
  simp

theorem getScheme_postgresql (z : Str) :
    url.getScheme ("postgresql://".data ++ z) = some ("postgresql".data, '/' :: '/' :: z) := rfl

/-- `url.Parse` on a URI `postgresql://A/D` whose authority `A` contains no
slash and which has no query, no fragment and no control character: the
authority is parsed by `parseAuthority` and the path is unescaped. -/
theorem url_Parse_authority_path (a d : Str) (ha : '/' ∉ a)
    (hq : '?' ∉ a ++ d) (hf : '#' ∉ a ++ d)
    (hctl : url.stringContainsCTLByte (a ++ d) = false) :
    url.Parse ("postgresql://".data ++ a ++ '/' :: d) =
      match url.parseAuthority a with
      | none => none
      | some (user, host) =>
        url.setPath { Scheme := "postgresql".data, User := user, Host := host } ('/' :: d) := by
  have hq1 : '?' ∉ a := fun h => hq (List.mem_append_left _ h)
  have hq2 : '?' ∉ d := fun h => hq (List.mem_append_right _ h)
  have hf1 : '#' ∉ a := fun h => hf (List.mem_append_left _ h)
  have hf2 : '#' ∉ d := fun h => hf (List.mem_append_right _ h)
  have hfrag : strings.Cut ['#'] ("postgresql://".data ++ a ++ '/' :: d) = none := by
    apply strings.Cut_none
    intro h
    rcases List.mem_append.mp h with h | h
    · rcases List.mem_append.mp h with h | h
      · revert h
        decide
      · exact hf1 h
    · rcases List.mem_cons.mp h with h | h
      · revert h
        decide
      · exact hf2 h
  have hctl2 : url.stringContainsCTLByte ("postgresql://".data ++ a ++ '/' :: d) = false := by
    unfold url.stringContainsCTLByte at hctl ⊢
    rw [List.any_eq_false] at hctl ⊢
    intro x hx
    rcases List.mem_append.mp hx with h | h
    · rcases List.mem_append.mp h with h | h
      · have hlit : ∀ y ∈ "postgresql://".data, ¬ (decide (y.toNat < 32) ||
            decide (y.toNat = 127)) = true := by decide
        exact hlit x h
      · exact hctl x (List.mem_append_left _ h)
    · rcases List.mem_cons.mp h with h | h
      · rw [h]
        decide
      · exact hctl x (List.mem_append_right _ h)
  have hstar : ¬ ("postgresql://".data ++ a ++ '/' :: d) = ['*'] := by
    intro h
    have := congrArg List.head? h
    simp at this
  have hscheme : url.getScheme ("postgresql://".data ++ a ++ '/' :: d) =
      some ("postgresql".data, '/' :: '/' :: (a ++ '/' :: d)) := by
    rw [List.append_assoc]
    exact getScheme_postgresql _
  have hrest : '?' ∉ '/' :: '/' :: (a ++ '/' :: d) := by
    intro h
    rcases List.mem_cons.mp h with h | h
    · revert h
      decide
    · rcases List.mem_cons.mp h with h | h
      · revert h
        decide
      · rcases List.mem_append.mp h with h | h
        · exact hq1 h
        · rcases List.mem_cons.mp h with h | h
          · revert h
            decide
          · exact hq2 h
  have hsuf : ¬ (strings.HasSuffix ('/' :: '/' :: (a ++ '/' :: d)) ['?'] = true ∧
      strings.CountByte ('/' :: '/' :: (a ++ '/' :: d)) '?' = 1) :=
    fun h => hrest (strings.HasSuffix_single_mem _ _ h.1)
  have hcutq : strings.Cut ['?'] ('/' :: '/' :: (a ++ '/' :: d)) = none :=
    strings.Cut_none _ _ hrest
  have hcuts : strings.Cut ['/'] (a ++ '/' :: d) = some (a, d) := strings.Cut_single _ _ _ ha
  unfold url.Parse
  rw [hfrag]
  dsimp only
  unfold url.parse
  rw [if_neg (by rw [hctl2]; simp), if_neg hstar, hscheme]
  dsimp only
  rw [if_neg hsuf, hcutq]
  dsimp only
  have hlow : strings.ToLower "postgresql".data = "postgresql".data := by decide
  rw [hlow]
  have hp1 : strings.HasPrefix ('/' :: '/' :: (a ++ '/' :: d)) ['/'] = true := rfl
  have hp2 : strings.HasPrefix ('/' :: '/' :: (a ++ '/' :: d)) ['/', '/'] = true := by
    simp [strings.HasPrefix, List.isPrefixOf]
  rw [if_neg (fun h => h.1 hp1), if_neg (fun h => h.1 hp1)]
  rw [if_pos ⟨Or.inl (by decide), hp2⟩]
  have hdrop : List.drop 2 ('/' :: '/' :: (a ++ '/' :: d)) = a ++ '/' :: d := rfl
  rw [hdrop, hcuts]
  dsimp only
  cases hauth : url.parseAuthority a with
  | none => rfl
  | some uh =>
    obtain ⟨user, host⟩ := uh
    dsimp only
    cases url.setPath _ ('/' :: d) with
    | none => rfl
    | some u => simp

/-! ## A URI with user, password, host, port and database -/

theorem not_hasPrefix_postgres (x d : Str) (hx : '/' ∉ x) (hd : '/' ∉ d) :
    strings.HasPrefix (x ++ '/' :: d) "postgres://".data = false := by
  cases h : strings.HasPrefix (x ++ '/' :: d) "postgres://".data with
  | false => rfl
  | true =>
    exfalso
    unfold strings.HasPrefix at h
    obtain ⟨r, hr⟩ := List.isPrefixOf_iff_prefix.mp h
    have h1 : strings.Cut ['/'] (x ++ '/' :: d) = some (x, d) := strings.Cut_single _ _ _ hx
    have h2 : strings.Cut ['/'] ("postgres://".data ++ r) = some ("postgres:".data, '/' :: r) :=
      rfl
    rw [← hr, h2] at h1
    injection h1 with h1
    injection h1 with _ h3
    exact hd (by rw [← h3]; exact List.mem_cons_self _ _)

/-- The URI `postgresql://U:P@H:N/D` is rebuilt as it is. -/
theorem rebuildURI_full (U P H N D : Str) (hU : AlnumStr U) (hUne : U ≠ []) (hP : AlnumStr P)
    (hH : AlnumStr H) (hN : DigitStr N) (hNne : N ≠ []) (hD : AlnumStr D) :
    rebuildURI ("postgresql://".data ++ (U ++ ':' :: (P ++ '@' :: (H ++ ':' :: N)) ++ '/' :: D)) =
      "postgresql://".data ++ (U ++ ':' :: P ++ '@' :: (H ++ ':' :: N)) ++ '/' :: D := by
  have hNa := hN.alnum
  have hx : '/' ∉ U ++ ':' :: (P ++ '@' :: (H ++ ':' :: N)) := by
    simp only [List.mem_append, List.mem_cons, not_or]
    exact ⟨hU.not_mem (by decide), by decide, hP.not_mem (by decide), by decide,
      hH.not_mem (by decide), by decide, hNa.not_mem (by decide)⟩
  have hd : '/' ∉ D := hD.not_mem (by decide)
  have hat1 : '@' ∉ U ++ ':' :: P := by
    simp only [List.mem_append, List.mem_cons, not_or]
    exact ⟨hU.not_mem (by decide), by decide, hP.not_mem (by decide)⟩
  have hat : '@' ∈ U ++ ':' :: (P ++ '@' :: (H ++ ':' :: N)) := by simp
  have hqm : '?' ∉ H ++ ':' :: N := by
    simp only [List.mem_append, List.mem_cons, not_or]
    exact ⟨hH.not_mem (by decide), by decide, hNa.not_mem (by decide)⟩
  have hpc : '%' ∉ H ++ ':' :: N := by
    simp only [List.mem_append, List.mem_cons, not_or]
    exact ⟨hH.not_mem (by decide), by decide, hNa.not_mem (by decide)⟩
  have e1 : strings.TrimPrefix
      ("postgresql://".data ++ (U ++ ':' :: (P ++ '@' :: (H ++ ':' :: N)) ++ '/' :: D))
      "postgresql://".data = U ++ ':' :: (P ++ '@' :: (H ++ ':' :: N)) ++ '/' :: D :=
    strings.TrimPrefix_append _ _
  have e2 : strings.TrimPrefix (U ++ ':' :: (P ++ '@' :: (H ++ ':' :: N)) ++ '/' :: D)
      "postgres://".data = U ++ ':' :: (P ++ '@' :: (H ++ ':' :: N)) ++ '/' :: D := by
    unfold strings.TrimPrefix
    rw [not_hasPrefix_postgres _ _ hx hd]
    simp
  have e3 : strings.SplitN2 (U ++ ':' :: (P ++ '@' :: (H ++ ':' :: N)) ++ '/' :: D) ['/'] =
      [U ++ ':' :: (P ++ '@' :: (H ++ ':' :: N)), D] := by
    unfold strings.SplitN2
    rw [strings.Cut_single _ _ _ hx]
  have e4 : strings.SplitN2 (U ++ ':' :: (P ++ '@' :: (H ++ ':' :: N))) ['@'] =
      [U ++ ':' :: P, H ++ ':' :: N] := by
    unfold strings.SplitN2
    have : U ++ ':' :: (P ++ '@' :: (H ++ ':' :: N)) = (U ++ ':' :: P) ++ '@' :: (H ++ ':' :: N) := by
      simp
    rw [this, strings.Cut_single _ _ _ hat1]
  have e5 : strings.ContainsRune (U ++ ':' :: (P ++ '@' :: (H ++ ':' :: N))) '@' = true :=
    (strings.ContainsRune_iff _ _).mpr hat
  have e6 : strings.ContainsRune (H ++ ':' :: N) '?' = false := by
    cases h : strings.ContainsRune (H ++ ':' :: N) '?' with
    | false => rfl
    | true => exact absurd ((strings.ContainsRune_iff _ _).mp h) hqm
  have e7 : strings.TrimSuffix (H ++ ':' :: N) [':'] = H ++ ':' :: N := by
    unfold strings.TrimSuffix
    have : H ++ ':' :: N = (H ++ [':']) ++ N := by simp
    rw [this, strings.HasSuffix_single_false ':' _ N hNne (hNa.not_mem (by decide))]
    simp
  have e8 : strings.ReplaceAll (H ++ ':' :: N) "%f2".data slashReplacement = H ++ ':' :: N :=
    strings.replaceFrom_id_of_head '%' _ _ _ hpc
  have e9 : strings.ReplaceAll (H ++ ':' :: N) "%2F".data slashReplacement = H ++ ':' :: N :=
    strings.replaceFrom_id_of_head '%' _ _ _ hpc
  have e10 : U ++ ':' :: P ≠ [] := by
    cases U with
    | nil => exact absurd rfl hUne
    | cons a U => simp
  unfold rebuildURI
  simp only [e1, e2, e3, e4, e5, e6, e7, e8, e9, List.length_cons, List.length_nil,
    List.getD_cons_zero, List.getD_cons_succ, if_true, if_false, Bool.false_eq_true]
  simp [e10]

theorem isAlnum_not_ctl {c : Char} (h : url.isAlnum c = true) :
    (decide (c.toNat < 32) || decide (c.toNat = 127)) = false := by
  unfold url.isAlnum at h
  simp only [Bool.or_eq_true, Bool.and_eq_true, decide_eq_true_eq] at h
  simp only [Bool.or_eq_false_iff, decide_eq_false_iff_not]
  omega

theorem hasPrefix_bracket_false (H t : Str) (hH : AlnumStr H) :
    strings.HasPrefix (H ++ ':' :: t) ['['] = false := by
  unfold strings.HasPrefix
  cases H with
  | nil => rfl
  | cons a H =>
    have : ¬ '[' = a := fun h =>
      isAlnum_ne (hH a (List.mem_cons_self _ _)) (by decide) h.symm
    simp [List.isPrefixOf, this]

/-- `parseHost` accepts `H:N` as it is. -/
theorem parseHost_host_port (H N : Str) (hH : AlnumStr H) (hN : DigitStr N) :
    url.parseHost (H ++ ':' :: N) = some (H ++ ':' :: N) := by
  have hNa := hN.alnum
  unfold url.parseHost
  rw [hasPrefix_bracket_false H N hH]
  simp only [Bool.false_eq_true, if_false]
  rw [strings.CutLast_single ':' H N (hNa.not_mem (by decide))]
  dsimp only
  rw [validOptionalPort_digits N hN]
  simp only [Bool.not_true, Bool.false_eq_true, if_false]
  apply unescape_plain
  intro c hc
  rcases List.mem_append.mp hc with h | h
  · exact ⟨isAlnum_ne (hH c h) (by decide), isAlnum_ne (hH c h) (by decide),
      fun _ => shouldEscapeHost_alnum (hH c h)⟩
  · rcases List.mem_cons.mp h with h | h
    · rw [h]
      exact ⟨by decide, by decide, fun _ => by decide⟩
    · exact ⟨isAlnum_ne (hNa c h) (by decide), isAlnum_ne (hNa c h) (by decide),
        fun _ => shouldEscapeHost_alnum (hNa c h)⟩

theorem validUserinfo_user_password (U P : Str) (hU : AlnumStr U) (hP : AlnumStr P) :
    url.validUserinfo (U ++ ':' :: P) = true := by
  unfold url.validUserinfo
  rw [List.all_eq_true]
  intro c hc
  rcases List.mem_append.mp hc with h | h
  · simp [hU c h]
  · rcases List.mem_cons.mp h with h | h
    · rw [h]
      decide
    · simp [hP c h]

/-- `parseAuthority` on `U:P@H:N`. -/
theorem parseAuthority_full (U P H N : Str) (hU : AlnumStr U) (hP : AlnumStr P)
    (hH : AlnumStr H) (hN : DigitStr N) :
    url.parseAuthority ((U ++ ':' :: P) ++ '@' :: (H ++ ':' :: N)) =
      some (some ⟨U, P, true⟩, H ++ ':' :: N) := by
  have hNa := hN.alnum
  have hat : '@' ∉ H ++ ':' :: N := by
    simp only [List.mem_append, List.mem_cons, not_or]
    exact ⟨hH.not_mem (by decide), by decide, hNa.not_mem (by decide)⟩
  unfold url.parseAuthority
  rw [strings.CutLast_single '@' _ _ hat]
  dsimp only
  rw [parseHost_host_port H N hH hN]
  dsimp only
  rw [validUserinfo_user_password U P hU hP]
  simp only [Bool.not_true, Bool.false_eq_true, if_false]
  rw [strings.Cut_single ':' U P (hU.not_mem (by decide))]
  dsimp only
  rw [unescape_alnum _ U hU, unescape_alnum _ P hP]

/-- `url.Parse` on `postgresql://U:P@H:N/D`. -/
theorem url_Parse_full (U P H N D : Str) (hU : AlnumStr U) (hP : AlnumStr P)
    (hH : AlnumStr H) (hN : DigitStr N) (hD : AlnumStr D) :
    url.Parse ("postgresql://".data ++ ((U ++ ':' :: P) ++ '@' :: (H ++ ':' :: N)) ++ '/' :: D) =
      some
        { Scheme := "postgresql".data
          User := some ⟨U, P, true⟩
          Host := H ++ ':' :: N
          Path := '/' :: D } := by
  have hNa := hN.alnum
  have hmem : ∀ c ∈ ((U ++ ':' :: P) ++ '@' :: (H ++ ':' :: N)) ++ D,
      url.isAlnum c = true ∨ c = ':' ∨ c = '@' := by
    intro c hc
    simp only [List.mem_append, List.mem_cons] at hc
    rcases hc with ((h | h | h) | h | h | h | h) | h
    · exact Or.inl (hU c h)
    · exact Or.inr (Or.inl h)
    · exact Or.inl (hP c h)
    · exact Or.inr (Or.inr h)
    · exact Or.inl (hH c h)
    · exact Or.inr (Or.inl h)
    · exact Or.inl (hNa c h)
    · exact Or.inl (hD c h)
  have hne : ∀ x : Char, url.isAlnum x = false → x ≠ ':' → x ≠ '@' →
      x ∉ ((U ++ ':' :: P) ++ '@' :: (H ++ ':' :: N)) ++ D := by
    intro x hx h1 h2 hin
    rcases hmem x hin with h | h | h
    · rw [hx] at h
      cases h
    · exact h1 h
    · exact h2 h
  have ha : '/' ∉ (U ++ ':' :: P) ++ '@' :: (H ++ ':' :: N) := fun h =>
    hne '/' (by decide) (by decide) (by decide) (List.mem_append_left _ h)
  have hctl : url.stringContainsCTLByte (((U ++ ':' :: P) ++ '@' :: (H ++ ':' :: N)) ++ D) =
      false := by
    unfold url.stringContainsCTLByte
    rw [List.any_eq_false]
    intro c hc
    rcases hmem c hc with h | h | h
    · rw [isAlnum_not_ctl h]
      simp
    · rw [h]
      decide
    · rw [h]
      decide
  rw [url_Parse_authority_path _ D ha (hne '?' (by decide) (by decide) (by decide))
    (hne '#' (by decide) (by decide) (by decide)) hctl]
  rw [parseAuthority_full U P H N hU hP hH hN]
  dsimp only
  unfold url.setPath
  have hpath : url.unescape ('/' :: D) url.encoding.encodePath = some ('/' :: D) := by
    apply unescape_plain
    intro c hc
    rcases List.mem_cons.mp hc with h | h
    · rw [h]
      exact ⟨by decide, by decide, fun hm => by rcases hm with hm | hm <;> cases hm⟩
    · exact ⟨isAlnum_ne (hD c h) (by decide), isAlnum_ne (hD c h) (by decide),
        fun _ => shouldEscapeHost_alnum (hD c h)⟩
  rw [hpath]

theorem dropWhile_id_of_head {p : Char → Bool} (s : Str) (h : ∀ c ∈ s, p c = false) :
    s.dropWhile p = s := by
  cases s with
  | nil => rfl
  | cons a s => simp [List.dropWhile, h a (List.mem_cons_self _ _)]

theorem Trim_slash_alnum (D : Str) (hD : AlnumStr D) : strings.Trim ('/' :: D) ['/'] = D := by
  have hp : ∀ c ∈ D, (['/'].contains c) = false := by
    intro c hc
    have : c ≠ '/' := isAlnum_ne (hD c hc) (by decide)
    simp [this]
  have hp2 : ∀ c ∈ D.reverse, (['/'].contains c) = false :=
    fun c hc => hp c (List.mem_reverse.mp hc)
  unfold strings.Trim
  have h1 : List.dropWhile (fun c => ['/'].contains c) ('/' :: D) = D := by
    have : (['/'].contains '/') = true := by decide
    simp only [List.dropWhile, this]
    exact dropWhile_id_of_head D hp
  rw [h1, dropWhile_id_of_head D.reverse hp2, List.reverse_reverse]

theorem Port_host_port (u : url.URL) (H N : Str) (hN : DigitStr N) (hu : u.Host = H ++ ':' :: N) :
    url.Port u = N := by
  unfold url.Port
  rw [hu, strings.CutLast_single ':' H N (hN.alnum.not_mem (by decide))]
  dsimp only
  rw [validOptionalPort_digits N hN]
  simp

/-- The sentinel is not put back into a host `H:N` that does not contain it. -/
theorem ReplaceAll_sentinel_id (H N : Str) (hH : ¬ slashReplacement <:+: H) (hN : DigitStr N) :
    strings.ReplaceAll (H ++ ':' :: N) slashReplacement ['/'] = H ++ ':' :: N := by
  unfold strings.ReplaceAll
  rw [strings.replaceFrom_split ':' slashReplacement ['/'] N (by decide) (by decide) H 0
    (Nat.zero_le _)]
  rw [strings.replaceFrom_id_of_not_infix _ _ H hH]
  have hhead : slashReplacement = 'H' :: "ereWasASlash".data := rfl
  rw [hhead, strings.replaceFrom_id_of_head 'H' _ _ N (hN.lacks (by decide))]

theorem rangeBody_host_ok (l : Locals) (v : Str) (hv : v ≠ []) :
    rangeBody l ("host".data, v) = Except.ok { l with host := v } := by
  unfold rangeBody
  dsimp only
  have h0 : ¬ v.length = 0 := fun h => hv (List.length_eq_zero.mp h)
  rw [if_neg h0, if_pos (Or.inl rfl)]

theorem rangeBody_port_ok (l : Locals) (v : Str) (p : Int) (hv : v ≠ [])
    (hp : strconv.Atoi v = some p) :
    rangeBody l ("port".data, v) = Except.ok { l with port := p } := by
  unfold rangeBody
  dsimp only
  have h0 : ¬ v.length = 0 := fun h => hv (List.length_eq_zero.mp h)
  rw [if_neg h0, if_neg (by decide), if_pos rfl, hp]

/-- The SSL variables after the loop when no entry has the key `sslmode` or
`requiressl`. -/
theorem rangeLoop_ssl_none (ps : List (Str × Str)) (l l' : Locals)
    (hno : ∀ kv ∈ ps, ¬ (kv.1 = "sslmode".data ∨ kv.1 = "requiressl".data))
    (h : rangeLoop l ps = Except.ok l') : sslState l' = sslState l :=
  rangeLoop_frame sslState (fun x => x = "sslmode".data ∨ x = "requiressl".data)
    (fun l1 _ l2 hk hb => by
      obtain ⟨h1, h2, h3, h4⟩ := (rangeBody_frame hb).2.2.2.2.2.2.2.2.1 hk
      unfold sslState
      rw [h1, h2, h3, h4]) ps l l' hno h

/-- The dial timeout after the loop when no entry has the key
`connect_timeout`. -/
theorem rangeLoop_dialTimeout_none (ps : List (Str × Str)) (l l' : Locals)
    (hno : ∀ kv ∈ ps, ¬ kv.1 = "connect_timeout".data)
    (h : rangeLoop l ps = Except.ok l') : l'.options.DialTimeout = l.options.DialTimeout :=
  rangeLoop_frame (fun l => l.options.DialTimeout) (fun x => x = "connect_timeout".data)
    (fun _ _ _ hk hb => (rangeBody_frame hb).2.2.2.2.2.1 hk) ps l l' hno h

/-- The resolution succeeds when the port is resolved, no SSL setting comes
from the parameters or the environment, and no dial timeout is looked up. -/
theorem resolve_ok_plain (w : World) (l : Locals) (p : Int)
    (hport : resolvedPort w l = some p) (hssl : sslState l = ({}, false, false, false))
    (hmode : w.Getenv "PGSSLMODE".data = []) (hreq : w.Getenv "PGREQUIRESSL".data = [])
    (hdial : l.options.DialTimeout = 0) (htimeout : w.Getenv "PGCONNECT_TIMEOUT".data = []) :
    resolve w l = Except.ok (assemble w l (resolvedHost w l) p 0) := by
  have hcfg : l.hasSSLConfig = false := congrArg (fun x => x.2.2.1) hssl
  have hen : l.sslEnabled = false := congrArg (fun x => x.2.2.2) hssl
  have henv : envSSL w l = Except.ok l := by
    unfold envSSL
    simp [hcfg, hmode, hreq]
  have hdt : resolvedDialTimeout w l = some 0 := by
    unfold resolvedDialTimeout
    simp [hdial, htimeout]
  unfold resolve
  rw [hport]
  dsimp only
  rw [henv]
  dsimp only
  rw [hdt]
  dsimp only
  unfold attachTLS
  simp [hen]

/-- The options and parameters decoded from `postgresql://U:P@H:N/D`. -/
theorem decoded_full (U P H N D : Str) (hU : AlnumStr U) (hUne : U ≠ []) (hP : AlnumStr P)
    (hH : AlnumStr H) (hHne : H ≠ []) (hsent : ¬ slashReplacement <:+: H)
    (hN : DigitStr N) (hNne : N ≠ []) (hD : AlnumStr D) :
    decoded ("postgresql://".data ++ (U ++ ':' :: (P ++ '@' :: (H ++ ':' :: N)) ++ '/' :: D)) =
      Except.ok ({ User := U, Password := P, Database := D },
        [("port".data, N), ("host".data, H)]) := by
  have hpre : strings.HasPrefix
      ("postgresql://".data ++ (U ++ ':' :: (P ++ '@' :: (H ++ ':' :: N)) ++ '/' :: D))
      "postgresql://".data = true :=
    List.isPrefixOf_iff_prefix.mpr (List.prefix_append _ _)
  unfold decoded
  rw [if_pos (Or.inl hpre)]
  unfold uriParameters
  rw [rebuildURI_full U P H N D hU hUne hP hH hN hNne hD]
  rw [url_Parse_full U P H N D hU hP hH hN hD]
  dsimp only
  have hq : url.ParseQuery [] = ([], false) := rfl
  rw [hq]
  simp only [Bool.false_eq_true, if_false, flatten]
  have hopt : uriOptions
      { Scheme := "postgresql".data, User := some ⟨U, P, true⟩, Host := H ++ ':' :: N,
        Path := '/' :: D } = { User := U, Password := P, Database := D } := by
    unfold uriOptions
    simp only [url.Username, url.Password]
    rw [Trim_slash_alnum D hD]
  have hport : url.Port
      { Scheme := "postgresql".data, User := some ⟨U, P, true⟩, Host := H ++ ':' :: N,
        Path := '/' :: D } = N := Port_host_port _ H N hN rfl
  have hwp : withHostPort
      { Scheme := "postgresql".data, User := some ⟨U, P, true⟩, Host := H ++ ':' :: N,
        Path := '/' :: D } [] = [("port".data, N), ("host".data, H)] := by
    unfold withHostPort
    simp only [hport]
    rw [ReplaceAll_sentinel_id H N hsent hN]
    have hts : strings.TrimSuffix (H ++ ':' :: N) ([':'] ++ N) = H :=
      strings.TrimSuffix_append H (':' :: N)
    have hhas : Params.has [] "port".data = false := rfl
    simp only [hhas, hts, Params.set]
    simp [hNne, hHne, Params.has, Params.set]
  rw [hopt, hwp]

theorem hasPrefix_slash_alnum (H : Str) (hH : AlnumStr H) : strings.HasPrefix H ['/'] = false := by
  unfold strings.HasPrefix
  cases H with
  | nil => rfl
  | cons a H =>
    have : ¬ '/' = a := fun h =>
      isAlnum_ne (hH a (List.mem_cons_self _ _)) (by decide) h.symm
    simp [List.isPrefixOf, this]

/-- C1: for every URI `postgresql://U:P@H:N/D`, where U, P, H and D are
non-empty strings of ASCII letters and digits, H does not contain the text
`HereWasASlash` and N is the decimal numeral of an integer in 1..65535, Parse
succeeds with the address `H:N`, the network `tcp`, the user U, the password P
and the database D.  This holds in every environment in which PGSSLMODE,
PGREQUIRESSL and PGCONNECT_TIMEOUT are unset, whatever the other variables
hold and in whatever order the parameter map is visited. -/
theorem C1_full_uri (w : World) (hw : w.RangeIsPerm) (U P H D : Str) (n : Nat)
    (hU : AlnumStr U) (hUne : U ≠ []) (hP : AlnumStr P) (hPne : P ≠ [])
    (hH : AlnumStr H) (hHne : H ≠ []) (hsent : ¬ slashReplacement <:+: H)
    (hD : AlnumStr D) (hDne : D ≠ []) (hn : 1 ≤ n ∧ n ≤ 65535)
    (hmode : w.Getenv "PGSSLMODE".data = []) (hreq : w.Getenv "PGREQUIRESSL".data = [])
    (htimeout : w.Getenv "PGCONNECT_TIMEOUT".data = []) :
    ∃ o, Parse w ("postgresql://".data ++ U ++ ":".data ++ P ++ "@".data ++ H ++ ":".data ++
        fmt.formatInt n ++ "/".data ++ D) = Except.ok o ∧
      o.Addr = H ++ ":".data ++ fmt.formatInt n ∧ o.Network = "tcp".data ∧ o.User = U ∧
      o.Password = P ∧ o.Database = D := by
  have hfmt : fmt.formatInt (n : Int) = Nat.toDigits 10 n := rfl
  have hN : DigitStr (fmt.formatInt (n : Int)) := by rw [hfmt]; exact toDigits_digits n
  have hNne : fmt.formatInt (n : Int) ≠ [] := by rw [hfmt]; exact toDigits_ne_nil n
  have hatoi : strconv.Atoi (fmt.formatInt (n : Int)) = some (n : Int) :=
    Atoi_formatInt n (by omega)
  generalize hNdef : fmt.formatInt (n : Int) = N at hN hNne hatoi ⊢
  have hdsn : "postgresql://".data ++ U ++ ":".data ++ P ++ "@".data ++ H ++ ":".data ++ N ++
      "/".data ++ D =
      "postgresql://".data ++ (U ++ ':' :: (P ++ '@' :: (H ++ ':' :: N)) ++ '/' :: D) := by
    simp
  rw [hdsn, Parse_eq_decoded,
    decoded_full U P H N D hU hUne hP hH hHne hsent hN hNne hD]
  dsimp only
  have hnd : (([("port".data, N), ("host".data, H)] : Params).map Prod.fst).Nodup := by
    simp only [List.map_cons, List.map_nil]
    decide
  obtain ⟨hnd2, hmem⟩ := rangeOrder_facts hw [("port".data, N), ("host".data, H)] hnd
  have hkeys : ∀ kv ∈ w.rangeOrder [("port".data, N), ("host".data, H)],
      kv = ("port".data, N) ∨ kv = ("host".data, H) := by
    intro kv hkv
    have := (hmem kv).mp hkv
    simpa using this
  obtain ⟨l, hl⟩ := rangeLoop_ok_of_forall (w.rangeOrder [("port".data, N), ("host".data, H)])
    { options := { User := U, Password := P, Database := D } } (by
      intro kv hkv l
      rcases hkeys kv hkv with e | e
      · rw [e]
        exact ⟨_, rangeBody_port_ok l N _ hNne hatoi⟩
      · rw [e]
        exact ⟨_, rangeBody_host_ok l H hHne⟩)
  have hno : ∀ (k : Str), ¬ k = "port".data → ¬ k = "host".data →
      ∀ v, (k, v) ∉ w.rangeOrder [("port".data, N), ("host".data, H)] := by
    intro k h1 h2 v hv
    rcases hkeys _ hv with e | e
    · injection e with e1 _
      exact h1 e1
    · injection e with e1 _
      exact h2 e1
  have hno2 : ∀ (k1 k2 : Str), ¬ "port".data = k1 → ¬ "host".data = k1 → ¬ "port".data = k2 →
      ¬ "host".data = k2 → ∀ kv ∈ w.rangeOrder [("port".data, N), ("host".data, H)],
        ¬ (kv.1 = k1 ∨ kv.1 = k2) := by
    intro k1 k2 a1 a2 a3 a4 kv hkv hk
    rcases hkeys kv hkv with e | e <;> rw [e] at hk <;> rcases hk with hk | hk
    · exact a1 hk
    · exact a3 hk
    · exact a2 hk
    · exact a4 hk
  have hhost : l.host = H :=
    rangeLoop_host _ _ _ H hnd2 ((hmem _).mpr (by simp)) (hno _ (by decide) (by decide)) hl
  have hport : l.port = (n : Int) := by
    have := (rangeLoop_port _ _ _ hnd2 hl).1 N ((hmem _).mpr (by simp))
    rw [hatoi] at this
    exact (Option.some.inj this).symm
  have huser : l.options.User = U :=
    (rangeLoop_user _ _ _ hnd2 hl).2 (hno _ (by decide) (by decide))
  have hpass : l.options.Password = P :=
    (rangeLoop_password _ _ _ hnd2 hl).2 (hno _ (by decide) (by decide))
  have hdb : l.options.Database = D :=
    (rangeLoop_database _ _ _ hnd2 hl).2 (hno _ (by decide) (by decide))
  have hssl : sslState l = ({}, false, false, false) :=
    rangeLoop_ssl_none _ _ _
      (hno2 _ _ (by decide) (by decide) (by decide) (by decide)) hl
  have hdial : l.options.DialTimeout = 0 :=
    rangeLoop_dialTimeout_none _ _ _ (fun kv hkv hk => by
      rcases hkeys kv hkv with e | e
      · rw [e] at hk
        exact absurd (show "port".data = "connect_timeout".data from hk) (by decide)
      · rw [e] at hk
        exact absurd (show "host".data = "connect_timeout".data from hk) (by decide)) hl
  have hrport : resolvedPort w l = some (n : Int) := by
    unfold resolvedPort
    have : ¬ ((n : Int) = 0) := by omega
    rw [hport, if_neg (fun h => this h.1)]
  have hrhost : resolvedHost w l = H := by
    unfold resolvedHost
    rw [hhost, if_neg hHne]
  unfold parseParameters
  rw [hl]
  dsimp only
  rw [resolve_ok_plain w l n hrport hssl hmode hreq hdial htimeout, hrhost]
  refine ⟨_, rfl, ?_, ?_, ?_, ?_, ?_⟩
  · unfold assemble
    have : ¬ ((n : Int) = 0) := by omega
    simp [hHne, hasPrefix_slash_alnum H hH, this, hNdef]
  · unfold assemble
    simp [hHne, hasPrefix_slash_alnum H hH]
  · unfold assemble
    simp [huser, hUne]
  · unfold assemble
    simp [hpass, hPne]
  · unfold assemble
    simp [hdb, hDne]

set_option maxRecDepth 100000 in
/-- Witness of C1: `postgresql://user:pw@host:1234/db` in the example world. -/
theorem C1_full_uri_witness :
    Parse exampleWorld "postgresql://user:pw@host:1234/db".data =
      Except.ok
        { Network := "tcp".data, Addr := "host:1234".data, User := "user".data,
          Password := "pw".data, Database := "db".data } ∧
    ∃ o, Parse exampleWorld ("postgresql://".data ++ "user".data ++ ":".data ++ "pw".data ++
        "@".data ++ "host".data ++ ":".data ++ fmt.formatInt 1234 ++ "/".data ++ "db".data) =
        Except.ok o ∧
      o.Addr = "host".data ++ ":".data ++ fmt.formatInt 1234 ∧ o.Network = "tcp".data ∧
      o.User = "user".data ∧ o.Password = "pw".data ∧ o.Database = "db".data :=
  ⟨rfl,
    C1_full_uri exampleWorld exampleWorld_perm "user".data "pw".data "host".data "db".data 1234
      (by decide) (by decide) (by decide) (by decide) (by decide) (by decide) (by decide)
      (by decide) (by decide) (by decide) rfl rfl rfl⟩

/-! ## C2: network and address -/

theorem rangeLoop_host_weak : ∀ (ps : List (Str × Str)) (l l' : Locals),
    rangeLoop l ps = Except.ok l' →
    l'.host = l.host ∨
      ∃ kv ∈ ps, (kv.1 = "host".data ∨ kv.1 = "hostaddr".data) ∧ l'.host = kv.2 := by
  intro ps
  induction ps with
  | nil =>
    intro l l' h
    simp only [rangeLoop] at h
    cases h
    exact Or.inl rfl
  | cons p ps ih =>
    intro l l' h
    obtain ⟨l1, h1, h2⟩ := rangeLoop_cons_ok h
    rcases ih l1 l' h2 with e | ⟨kv, hkv, hk, e⟩
    · by_cases hp : p.1 = "host".data ∨ p.1 = "hostaddr".data
      · exact Or.inr ⟨p, List.mem_cons_self _ _, hp, by rw [e, (rangeBody_set h1).1 hp]⟩
      · exact Or.inl (by rw [e, (rangeBody_frame h1).1 hp])
    · exact Or.inr ⟨kv, List.mem_cons_of_mem _ hkv, hk, e⟩

/-- The host after the loop is the value of an entry with key `host` or
`hostaddr` when there is one. -/
theorem rangeLoop_host_some : ∀ (ps : List (Str × Str)) (l l' : Locals),
    rangeLoop l ps = Except.ok l' →
    (∃ kv ∈ ps, kv.1 = "host".data ∨ kv.1 = "hostaddr".data) →
      ∃ kv ∈ ps, (kv.1 = "host".data ∨ kv.1 = "hostaddr".data) ∧ l'.host = kv.2 := by
  intro ps
  induction ps with
  | nil =>
    intro l l' _ hex
    obtain ⟨kv, hkv, _⟩ := hex
    cases hkv
  | cons p ps ih =>
    intro l l' h hex
    obtain ⟨l1, h1, h2⟩ := rangeLoop_cons_ok h
    rcases rangeLoop_host_weak ps l1 l' h2 with e | ⟨kv, hkv, hk, e⟩
    · by_cases hp : p.1 = "host".data ∨ p.1 = "hostaddr".data
      · exact ⟨p, List.mem_cons_self _ _, hp, by rw [e, (rangeBody_set h1).1 hp]⟩
      · obtain ⟨kv, hkv, hk⟩ := hex
        rcases List.mem_cons.mp hkv with e2 | e2
        · rw [e2] at hk
          exact absurd hk hp
        · obtain ⟨kv2, hkv2, hk2, e3⟩ := ih l1 l' h2 ⟨kv, e2, hk⟩
          exact ⟨kv2, List.mem_cons_of_mem _ hkv2, hk2, e3⟩
    · exact ⟨kv, List.mem_cons_of_mem _ hkv, hk, e⟩

theorem assemble_address (w : World) (l : Locals) (h : Str) (p dt : Int) :
    ((assemble w l h p dt).Network, (assemble w l h p dt).Addr) = specAddress h p := by
  unfold assemble specAddress
  dsimp only
  by_cases h1 : h = []
  · subst h1
    simp [strings.HasPrefix]
  · by_cases h2 : strings.HasPrefix h ['/'] = true
    · simp [h1, h2]
    · simp [h1, h2]

theorem resolvedPort_eq_specPort (w : World) (l : Locals) :
    resolvedPort w l = specPort w l.port := by
  unfold resolvedPort specPort
  by_cases h1 : l.port = 0
  · by_cases h2 : w.Getenv "PGPORT".data = []
    · simp [h1, h2]
    · simp [h1, h2]
  · simp [h1]

/-- C2: on every successful Parse the network and the address are determined
by the resolved host h and the resolved port p.  The host h is the value of a
`host` or `hostaddr` parameter when there is one, otherwise PGHOST; the port p
is the value of the `port` parameter, otherwise (no parameter, or the value 0)
the number in PGPORT.  An empty h is replaced by `localhost` and p = 0 by
5432; a host that begins with `/` gives the network `unix` and the address
`h/.s.PGSQL.p`, any other the network `tcp` and the address `h:p`.  In
particular an input whose parameters contain neither `host`, `hostaddr` nor
`port` (the empty string among them) parses with PGHOST and PGPORT unset to
the network `tcp` and the address `localhost:5432`. -/
theorem C2_network_and_address (w : World) (hw : w.RangeIsPerm) (s : Str) (opts o : Options)
    (params : Params) (hd : decoded s = Except.ok (opts, params))
    (hp : Parse w s = Except.ok o) :
    (∃ (h : Str) (e p : Int),
      ((∀ kv ∈ params, ¬ (kv.1 = "host".data ∨ kv.1 = "hostaddr".data)) →
        h = w.Getenv "PGHOST".data) ∧
      ((∃ kv ∈ params, kv.1 = "host".data ∨ kv.1 = "hostaddr".data) →
        ∃ kv ∈ params, (kv.1 = "host".data ∨ kv.1 = "hostaddr".data) ∧ h = kv.2) ∧
      (∀ v, ("port".data, v) ∈ params → strconv.Atoi v = some e) ∧
      ((∀ v, ("port".data, v) ∉ params) → e = 0) ∧
      specPort w e = some p ∧
      (o.Network, o.Addr) = specAddress h p) ∧
    ((∀ kv ∈ params, ¬ (kv.1 = "host".data ∨ kv.1 = "hostaddr".data ∨ kv.1 = "port".data)) →
      w.Getenv "PGHOST".data = [] → w.Getenv "PGPORT".data = [] →
      o.Network = "tcp".data ∧ o.Addr = "localhost:5432".data) := by
  obtain ⟨opts1, params1, l, hd1, hl, hr⟩ := Parse_ok_inv hp
  rw [hd] at hd1
  injection hd1 with hd1
  injection hd1 with e1 e2
  subst e1 e2
  have hnd := decoded_nodup hd
  obtain ⟨hnd2, hmem⟩ := rangeOrder_facts hw params hnd
  obtain ⟨port, dt, hport, _, hN, hA, _⟩ := resolve_ok_fields hr
  have haddr : (o.Network, o.Addr) = specAddress (resolvedHost w l) port := by
    rw [hN, hA]
    exact assemble_address w l _ port dt
  have hhost0 : (∀ kv ∈ params, ¬ (kv.1 = "host".data ∨ kv.1 = "hostaddr".data)) →
      l.host = [] := by
    intro hno
    exact rangeLoop_host_none _ _ _ (fun kv hkv => hno kv ((hmem kv).mp hkv)) hl
  have hport0 : (∀ v, ("port".data, v) ∉ params) → l.port = 0 := by
    intro hno
    exact (rangeLoop_port _ _ _ hnd2 hl).2 (fun v hv => hno v ((hmem _).mp hv))
  constructor
  · refine ⟨resolvedHost w l, l.port, port, ?_, ?_, ?_, hport0, ?_, haddr⟩
    · intro hno
      unfold resolvedHost
      rw [if_pos (hhost0 hno)]
    · rintro ⟨kv, hkv, hk⟩
      obtain ⟨kv2, hkv2, hk2, e⟩ := rangeLoop_host_some _ _ _ hl ⟨kv, (hmem kv).mpr hkv, hk⟩
      refine ⟨kv2, (hmem kv2).mp hkv2, hk2, ?_⟩
      have hne : kv2.2 ≠ [] := by
        intro hempty
        obtain ⟨k, v⟩ := kv2
        simp only at hempty
        subst hempty
        obtain ⟨err, he⟩ := rangeLoop_error_of_mem (k, [])
          (fun l => ⟨_, rangeBody_empty_value l k⟩) _ { options := opts } hkv2
        rw [he] at hl
        cases hl
      unfold resolvedHost
      rw [e, if_neg hne]
    · intro v hv
      exact (rangeLoop_port _ _ _ hnd2 hl).1 v ((hmem _).mpr hv)
    · rw [← resolvedPort_eq_specPort]
      exact hport
  · intro hno hPGHOST hPGPORT
    have h1 : l.host = [] := hhost0 (fun kv hkv hk => hno kv hkv (by
      rcases hk with hk | hk
      · exact Or.inl hk
      · exact Or.inr (Or.inl hk)))
    have h2 : l.port = 0 := hport0 (fun v hv => hno _ hv (Or.inr (Or.inr rfl)))
    have h3 : resolvedHost w l = [] := by
      unfold resolvedHost
      rw [if_pos h1, hPGHOST]
    have h4 : port = 0 := by
      unfold resolvedPort at hport
      rw [h2, hPGPORT] at hport
      simp at hport
      exact hport.symm
    rw [h3, h4] at haddr
    have h5 : specAddress [] 0 = ("tcp".data, "localhost:5432".data) := by decide
    rw [h5] at haddr
    injection haddr with a b
    exact ⟨a, b⟩

set_option maxRecDepth 100000 in
/-- Witness of C2: the empty string, and a keyword/value string without host
and port, in the example world. -/
theorem C2_network_and_address_witness :
    (∃ o, Parse exampleWorld [] = Except.ok o ∧
      o.Network = "tcp".data ∧ o.Addr = "localhost:5432".data) ∧
    ∃ o, Parse exampleWorld "user=bob dbname=shop".data = Except.ok o ∧
      o.Network = "tcp".data ∧ o.Addr = "localhost:5432".data :=
  ⟨⟨_, rfl,
      (C2_network_and_address exampleWorld exampleWorld_perm [] {} _ [] rfl rfl).2
        (by simp) rfl rfl⟩,
    _, rfl,
    (C2_network_and_address exampleWorld exampleWorld_perm "user=bob dbname=shop".data {} _
      [("user".data, "bob".data), ("dbname".data, "shop".data)] rfl rfl).2 (by decide) rfl rfl⟩

/-! ## C3: user and database -/

theorem explicitValue_of_mem {ps : Params} (hnd : (ps.map Prod.fst).Nodup) {k v : Str}
    (d : Str) (h : (k, v) ∈ ps) : explicitValue k d ps = v := by
  unfold explicitValue
  cases hf : ps.find? (fun kv => kv.1 = k) with
  | none =>
    have := List.find?_eq_none.mp hf (k, v) h
    simp at this
  | some kv =>
    have h1 := List.find?_some hf
    have h2 := List.mem_of_find?_eq_some hf
    have hk : kv.1 = k := by simpa using h1
    obtain ⟨k1, v1⟩ := kv
    simp only at hk
    subst hk
    exact mem_unique hnd h2 h

theorem explicitValue_of_not_mem {ps : Params} {k : Str} (d : Str)
    (h : ∀ v, (k, v) ∉ ps) : explicitValue k d ps = d := by
  unfold explicitValue
  cases hf : ps.find? (fun kv => kv.1 = k) with
  | none => rfl
  | some kv =>
    have h1 := List.find?_some hf
    have h2 := List.mem_of_find?_eq_some hf
    have hk : kv.1 = k := by simpa using h1
    obtain ⟨k1, v1⟩ := kv
    simp only at hk
    subst hk
    exact absurd h2 (h v1)

/-- The value of a single-writer variable after the loop over the visit of a
map is the explicit value. -/
theorem explicitValue_eq {ps qs : Params} (hnd : (ps.map Prod.fst).Nodup)
    (hmem : ∀ kv, kv ∈ qs ↔ kv ∈ ps) {k d x : Str}
    (h1 : ∀ v, (k, v) ∈ qs → x = v) (h2 : (∀ v, (k, v) ∉ qs) → x = d) :
    x = explicitValue k d ps := by
  by_cases hex : ∃ v, (k, v) ∈ ps
  · obtain ⟨v, hv⟩ := hex
    rw [explicitValue_of_mem hnd d hv]
    exact h1 v ((hmem _).mpr hv)
  · have hno : ∀ v, (k, v) ∉ ps := fun v hv => hex ⟨v, hv⟩
    rw [explicitValue_of_not_mem d hno]
    exact h2 (fun v hv => hno v ((hmem _).mp hv))

/-- C3: on every successful Parse the user is the explicitly supplied user
(the `user` parameter, otherwise the userinfo of the URI) when there is one,
otherwise PGUSER when it is not empty, otherwise the name of the OS account,
or `postgres` when that lookup fails; the database is the explicitly supplied
database (the `dbname` parameter, otherwise the trimmed path of the URI) when
there is one, otherwise PGDATABASE when it is not empty, otherwise the
resolved user.  When the OS account name is not empty, user and database are
both non-empty. -/
theorem C3_user_and_database (w : World) (hw : w.RangeIsPerm) (s : Str) (opts o : Options)
    (params : Params) (hd : decoded s = Except.ok (opts, params))
    (hp : Parse w s = Except.ok o) :
    o.User = specUser w (explicitValue "user".data opts.User params) ∧
    o.Database = specDatabase w (explicitValue "dbname".data opts.Database params) o.User ∧
    (w.userCurrent ≠ some [] → o.User ≠ [] ∧ o.Database ≠ []) := by
  obtain ⟨opts1, params1, l, hd1, hl, hr⟩ := Parse_ok_inv hp
  rw [hd] at hd1
  injection hd1 with hd1
  injection hd1 with e1 e2
  subst e1 e2
  have hnd := decoded_nodup hd
  obtain ⟨hnd2, hmem⟩ := rangeOrder_facts hw params hnd
  have hu := rangeLoop_user _ _ _ hnd2 hl
  have hdb := rangeLoop_database _ _ _ hnd2 hl
  have hu2 : l.options.User = explicitValue "user".data opts.User params :=
    explicitValue_eq hnd hmem hu.1 hu.2
  have hdb2 : l.options.Database = explicitValue "dbname".data opts.Database params :=
    explicitValue_eq hnd hmem hdb.1 hdb.2
  obtain ⟨port, dt, _, _, _, _, hU, _, hD, _, _⟩ := resolve_ok_fields hr
  have hU2 : o.User = specUser w (explicitValue "user".data opts.User params) := by
    rw [hU, ← hu2]
    unfold assemble specUser
    dsimp only
    by_cases h1 : l.options.User = []
    · by_cases h2 : w.Getenv "PGUSER".data = []
      · simp [h1, h2]
      · simp [h1, h2]
    · simp [h1]
  have hD2 : o.Database =
      specDatabase w (explicitValue "dbname".data opts.Database params) o.User := by
    rw [hD, ← hdb2, hU]
    unfold assemble specDatabase
    dsimp only
    by_cases h1 : l.options.Database = []
    · by_cases h2 : w.Getenv "PGDATABASE".data = []
      · simp [h1, h2]
      · simp [h1, h2]
    · simp [h1]
  refine ⟨hU2, hD2, ?_⟩
  intro hcur
  have hUne : o.User ≠ [] := by
    rw [hU2]
    unfold specUser
    split
    · assumption
    · split
      · assumption
      · cases hc : w.userCurrent with
        | none => simp
        | some name =>
          simp only
          intro hn
          exact hcur (by rw [hc, hn])
  refine ⟨hUne, ?_⟩
  rw [hD2]
  unfold specDatabase
  split
  · assumption
  · split
    · assumption
    · exact hUne

set_option maxRecDepth 100000 in
/-- Witness of C3: `postgresql://uri-user@host/` in the example world. -/
theorem C3_user_and_database_witness :
    (Parse exampleWorld "postgresql://uri-user@host/".data).toOption.map
        (fun o => (o.User, o.Database)) = some ("uri-user".data, "uri-user".data) ∧
      ∃ o, Parse exampleWorld "postgresql://uri-user@host/".data = Except.ok o ∧
        o.User = specUser exampleWorld
          (explicitValue "user".data "uri-user".data [("host".data, "host".data)]) ∧
        o.Database = specDatabase exampleWorld
          (explicitValue "dbname".data [] [("host".data, "host".data)]) o.User ∧
        (exampleWorld.userCurrent ≠ some [] → o.User ≠ [] ∧ o.Database ≠ []) :=
  ⟨rfl, _, rfl,
    C3_user_and_database exampleWorld exampleWorld_perm "postgresql://uri-user@host/".data
      { User := "uri-user".data } _ [("host".data, "host".data)] rfl rfl⟩

/-! ## C4: query parameters override the URI -/

/-- C4: query parameters win over the values written in the URI itself.
Whenever the parameters decoded from the input contain `user=U2`
(respectively `password=P2`, `dbname=D2`), a successful Parse yields the user
U2 (respectively the password P2, the database D2), whatever the userinfo and
the path of the URI carry. -/
theorem C4_query_overrides_uri (w : World) (hw : w.RangeIsPerm) (s : Str) (opts o : Options)
    (params : Params) (hd : decoded s = Except.ok (opts, params))
    (hp : Parse w s = Except.ok o) :
    (∀ U2, ("user".data, U2) ∈ params → o.User = U2) ∧
    (∀ P2, ("password".data, P2) ∈ params → o.Password = P2) ∧
    (∀ D2, ("dbname".data, D2) ∈ params → o.Database = D2) := by
  obtain ⟨opts1, params1, l, hd1, hl, hr⟩ := Parse_ok_inv hp
  rw [hd] at hd1
  injection hd1 with hd1
  injection hd1 with e1 e2
  subst e1 e2
  have hnd := decoded_nodup hd
  obtain ⟨hnd2, hmem⟩ := rangeOrder_facts hw params hnd
  have hne : ∀ kv ∈ w.rangeOrder params, kv.2 ≠ [] := by
    intro kv hkv hempty
    obtain ⟨k, v⟩ := kv
    simp only at hempty
    subst hempty
    obtain ⟨e, he⟩ := rangeLoop_error_of_mem (k, [])
      (fun l => ⟨_, rangeBody_empty_value l k⟩) _ { options := opts } hkv
    rw [he] at hl
    cases hl
  obtain ⟨port, dt, _, _, _, _, hU, hP, hD, _, _⟩ := resolve_ok_fields hr
  refine ⟨?_, ?_, ?_⟩
  · intro U2 h2
    have h3 := (hmem _).mpr h2
    have h4 := (rangeLoop_user _ _ _ hnd2 hl).1 U2 h3
    have h5 : U2 ≠ [] := hne _ h3
    rw [hU]
    unfold assemble
    simp [h4, h5]
  · intro P2 h2
    have h3 := (hmem _).mpr h2
    have h4 := (rangeLoop_password _ _ _ hnd2 hl).1 P2 h3
    have h5 : P2 ≠ [] := hne _ h3
    rw [hP]
    unfold assemble
    simp [h4, h5]
  · intro D2 h2
    have h3 := (hmem _).mpr h2
    have h4 := (rangeLoop_database _ _ _ hnd2 hl).1 D2 h3
    have h5 : D2 ≠ [] := hne _ h3
    rw [hD]
    unfold assemble
    simp [h4, h5]

set_option maxRecDepth 100000 in
/-- Witness of C4: a URI with userinfo and path and all three overrides. -/
theorem C4_query_overrides_uri_witness :
    Parse exampleWorld "postgresql://u1:p1@host/d1?user=u2&password=p2&dbname=d2".data =
      Except.ok
        { Network := "tcp".data, Addr := "host:5432".data, User := "u2".data,
          Password := "p2".data, Database := "d2".data } ∧
      ((∀ U2, ("user".data, U2) ∈ [("user".data, "u2".data), ("password".data, "p2".data),
          ("dbname".data, "d2".data), ("host".data, "host".data)] →
        "u2".data = U2) ∧
      (∀ P2, ("password".data, P2) ∈ [("user".data, "u2".data), ("password".data, "p2".data),
          ("dbname".data, "d2".data), ("host".data, "host".data)] →
        "p2".data = P2) ∧
      (∀ D2, ("dbname".data, D2) ∈ [("user".data, "u2".data), ("password".data, "p2".data),
          ("dbname".data, "d2".data), ("host".data, "host".data)] →
        "d2".data = D2)) :=
  ⟨rfl,
    C4_query_overrides_uri exampleWorld exampleWorld_perm
      "postgresql://u1:p1@host/d1?user=u2&password=p2&dbname=d2".data
      { User := "u1".data, Password := "p1".data, Database := "d1".data }
      { Network := "tcp".data, Addr := "host:5432".data, User := "u2".data,
        Password := "p2".data, Database := "d2".data }
      [("user".data, "u2".data), ("password".data, "p2".data), ("dbname".data, "d2".data),
        ("host".data, "host".data)] rfl rfl⟩

/-! ## C5 and C6: the port of the authority and the encoded slash -/

set_option maxRecDepth 100000 in
/-- C5, the code at `postgresql://host:1234/db?port=5433`: the port of the
query is used, but the port of the authority stays in the host, so that the
address is `host:1234:5433` and not `host:5433`; without the query parameter
the same URI gives `host:1234`. -/
theorem C5_authority_port_stays_in_host :
    Parse exampleWorld "postgresql://host:1234/db?port=5433".data =
      Except.ok
        { Network := "tcp".data, Addr := "host:1234:5433".data, User := "alice".data,
          Database := "db".data } ∧
    Parse exampleWorld "postgresql://host:1234/db".data =
      Except.ok
        { Network := "tcp".data, Addr := "host:1234".data, User := "alice".data,
          Database := "db".data } :=
  ⟨rfl, rfl⟩

set_option maxRecDepth 100000 in
/-- C6, the code at `postgres://%2fvar%2flib%2fpostgresql/dbname`: the slash
encoded with a lower-case `f` is not replaced (the code looks for `%f2`), so
the URI parser rejects the host and Parse fails in every world, while the
same URI with `%2F` parses to the Unix-socket address. -/
theorem C6_lowercase_encoded_slash_fails :
    (∀ w, Parse w "postgres://%2fvar%2flib%2fpostgresql/dbname".data =
      Except.error Error.uriParse) ∧
    Parse exampleWorld "postgres://%2Fvar%2Flib%2Fpostgresql/dbname".data =
      Except.ok
        { Network := "unix".data, Addr := "/var/lib/postgresql/.s.PGSQL.5432".data,
          User := "alice".data, Database := "dbname".data } :=
  ⟨fun _ => rfl, rfl⟩

/-! ## Repeated keys of a query string -/

theorem parseQueryStep_err_mono (st : url.Values × Bool) (p : Str) (h : st.2 = true) :
    (url.parseQueryStep st p).2 = true := by
  unfold url.parseQueryStep
  dsimp only
  split
  · rfl
  · split
    · exact h
    · split
      · rfl
      · split
        · rfl
        · exact h

theorem foldl_parseQueryStep_err_mono (ps : List Str) :
    ∀ st : url.Values × Bool, st.2 = true → (ps.foldl url.parseQueryStep st).2 = true := by
  induction ps with
  | nil => intro st h; exact h
  | cons p ps ih => intro st h; exact ih _ (parseQueryStep_err_mono st p h)

/-- A step of `parseQuery` leaves the map as it is or adds one value. -/
theorem parseQueryStep_map (st : url.Values × Bool) (p : Str) :
    (url.parseQueryStep st p).1 = st.1 ∨
      ∃ k v, (url.parseQueryStep st p).1 = url.Values.add k v st.1 := by
  unfold url.parseQueryStep
  dsimp only
  split
  · exact Or.inl rfl
  · split
    · exact Or.inl rfl
    · split
      · exact Or.inl rfl
      · split
        · exact Or.inl rfl
        · exact Or.inr ⟨_, _, rfl⟩

/-- A step of `parseQuery` on a non-empty piece with the key `k` that raises no
error adds a value for `k`. -/
theorem parseQueryStep_key (st : url.Values × Bool) (p k : Str) (hp : p ≠ [])
    (hk : queryKey p = some k) (herr : (url.parseQueryStep st p).2 = false) :
    ∃ v, (url.parseQueryStep st p).1 = url.Values.add k v st.1 := by
  unfold url.parseQueryStep at herr ⊢
  unfold queryKey at hk
  dsimp only at herr ⊢
  by_cases h1 : strings.Contains p [';'] = true
  · rw [if_pos h1] at herr
    cases herr
  · rw [if_neg h1] at herr ⊢
    rw [if_neg hp] at herr ⊢
    have hkey : url.QueryUnescape
        (match strings.Cut ['='] p with
          | some (k, v) => (k, v)
          | none => (p, [])).1 = some k := by
      rw [← hk]
      cases strings.Cut ['='] p with
      | none => rfl
      | some kv => rfl
    rw [hkey] at herr ⊢
    dsimp only at herr ⊢
    cases hv : url.QueryUnescape
        (match strings.Cut ['='] p with
          | some (k, v) => (k, v)
          | none => (p, [])).2 with
    | none =>
      rw [hv] at herr
      cases herr
    | some value => exact ⟨value, rfl⟩

theorem Values.add_allNonempty (k v : Str) (m : url.Values) (h : AllNonempty m) :
    AllNonempty (url.Values.add k v m) := by
  induction m with
  | nil =>
    intro kv hkv
    simp only [url.Values.add, List.mem_singleton] at hkv
    subst hkv
    simp
  | cons p m ih =>
    obtain ⟨k1, vs⟩ := p
    intro kv hkv
    by_cases hk : k1 = k
    · simp only [url.Values.add, if_pos hk, List.mem_cons] at hkv
      rcases hkv with e | e
      · subst e
        simp
      · exact h kv (List.mem_cons_of_mem _ e)
    · simp only [url.Values.add, if_neg hk, List.mem_cons] at hkv
      rcases hkv with e | e
      · subst e
        exact h _ (List.mem_cons_self _ _)
      · exact ih (fun x hx => h x (List.mem_cons_of_mem _ hx)) kv e

theorem Values.add_hasDup (k v : Str) (m : url.Values) (h : HasDup m) :
    HasDup (url.Values.add k v m) := by
  induction m with
  | nil =>
    obtain ⟨kv, hkv, _⟩ := h
    cases hkv
  | cons p m ih =>
    obtain ⟨k1, vs⟩ := p
    obtain ⟨kv, hkv, hlen⟩ := h
    by_cases hk : k1 = k
    · simp only [url.Values.add, if_pos hk]
      rcases List.mem_cons.mp hkv with e | e
      · subst e
        exact ⟨(k1, vs ++ [v]), List.mem_cons_self _ _, by
          simp only [List.length_append] at hlen ⊢
          omega⟩
      · exact ⟨kv, List.mem_cons_of_mem _ e, hlen⟩
    · simp only [url.Values.add, if_neg hk]
      rcases List.mem_cons.mp hkv with e | e
      · subst e
        exact ⟨(k1, vs), List.mem_cons_self _ _, hlen⟩
      · obtain ⟨kv2, hkv2, hlen2⟩ := ih ⟨kv, e, hlen⟩
        exact ⟨kv2, List.mem_cons_of_mem _ hkv2, hlen2⟩

/-- A second value for a key that is already in the map. -/
theorem Values.add_present (k v : Str) (m : url.Values) (hne : AllNonempty m)
    (hk : k ∈ m.map Prod.fst) : HasDup (url.Values.add k v m) := by
  induction m with
  | nil => cases hk
  | cons p m ih =>
    obtain ⟨k1, vs⟩ := p
    by_cases h1 : k1 = k
    · simp only [url.Values.add, if_pos h1]
      have := hne (k1, vs) (List.mem_cons_self _ _)
      exact ⟨(k1, vs ++ [v]), List.mem_cons_self _ _, by
        simp only [List.length_append, List.length_singleton] at this ⊢
        omega⟩
    · simp only [url.Values.add, if_neg h1]
      have hk2 : k ∈ m.map Prod.fst := by
        rcases List.mem_cons.mp hk with e | e
        · exact absurd e.symm h1
        · exact e
      obtain ⟨kv2, hkv2, hlen2⟩ := ih (fun x hx => hne x (List.mem_cons_of_mem _ hx)) hk2
      exact ⟨kv2, List.mem_cons_of_mem _ hkv2, hlen2⟩

theorem Values.add_mem_keys (k v : Str) (m : url.Values) :
    k ∈ (url.Values.add k v m).map Prod.fst := by
  rw [Values.add_keys]
  split
  · assumption
  · simp

theorem Values.add_keys_subset (k v : Str) (m : url.Values) (x : Str)
    (hx : x ∈ m.map Prod.fst) : x ∈ (url.Values.add k v m).map Prod.fst := by
  rw [Values.add_keys]
  split
  · exact hx
  · exact List.mem_append_left _ hx

/-- What the steps of `parseQuery` preserve: every key has a value, a key
stays a key, and a key with several values stays one. -/
theorem foldl_parseQueryStep_preserves (ps : List Str) :
    ∀ st : url.Values × Bool,
      (AllNonempty st.1 → AllNonempty (ps.foldl url.parseQueryStep st).1) ∧
      (∀ x, x ∈ st.1.map Prod.fst → x ∈ (ps.foldl url.parseQueryStep st).1.map Prod.fst) ∧
      (HasDup st.1 → HasDup (ps.foldl url.parseQueryStep st).1) := by
  induction ps with
  | nil => intro st; exact ⟨fun h => h, fun _ h => h, fun h => h⟩
  | cons p ps ih =>
    intro st
    obtain ⟨i1, i2, i3⟩ := ih (url.parseQueryStep st p)
    rcases parseQueryStep_map st p with e | ⟨k, v, e⟩
    · rw [List.foldl_cons]
      rw [e] at i1 i2 i3
      exact ⟨i1, i2, i3⟩
    · rw [List.foldl_cons]
      rw [e] at i1 i2 i3
      exact ⟨fun h => i1 (Values.add_allNonempty k v _ h),
        fun x hx => i2 x (Values.add_keys_subset k v _ x hx),
        fun h => i3 (Values.add_hasDup k v _ h)⟩

theorem flatten_hasDup : ∀ m : url.Values, HasDup m → ∃ e, flatten m = Except.error e := by
  intro m
  induction m with
  | nil =>
    rintro ⟨kv, hkv, _⟩
    cases hkv
  | cons p m ih =>
    rintro ⟨kv, hkv, hlen⟩
    obtain ⟨k, vs⟩ := p
    match vs with
    | [] => exact ⟨_, rfl⟩
    | _ :: _ :: _ => exact ⟨_, rfl⟩
    | [v] =>
      rcases List.mem_cons.mp hkv with e | e
      · subst e
        simp at hlen
      · obtain ⟨err, he⟩ := ih ⟨kv, e, hlen⟩
        exact ⟨err, by simp only [flatten, he]⟩

/-- A query string with a repeated key is not accepted: `ParseQuery` reports
an error or the flattening fails. -/
theorem repeatedKey_rejected (q : Str) (h : RepeatedKey q)
    (herr : (url.ParseQuery q).2 = false) : ∃ e, flatten (url.ParseQuery q).1 = Except.error e := by
  obtain ⟨a, b, c, p1, p2, k, hsplit, hp1, hp2, hk1, hk2⟩ := h
  unfold url.ParseQuery at herr ⊢
  rw [hsplit] at herr ⊢
  rw [List.foldl_append, List.foldl_cons, List.foldl_append, List.foldl_cons] at herr ⊢
  generalize hs0 : a.foldl url.parseQueryStep ([], false) = s0 at herr ⊢
  have hne0 : AllNonempty s0.1 := by
    rw [← hs0]
    exact (foldl_parseQueryStep_preserves a ([], false)).1 (fun kv hkv => by cases hkv)
  generalize hs1 : url.parseQueryStep s0 p1 = s1 at herr ⊢
  generalize hs2 : b.foldl url.parseQueryStep s1 = s2 at herr ⊢
  generalize hs3 : url.parseQueryStep s2 p2 = s3 at herr ⊢
  have e3 : s3.2 = false := by
    cases h3 : s3.2 with
    | false => rfl
    | true => rw [foldl_parseQueryStep_err_mono c s3 h3] at herr; cases herr
  have e2 : s2.2 = false := by
    cases h2 : s2.2 with
    | false => rfl
    | true => rw [← hs3, parseQueryStep_err_mono s2 p2 h2] at e3; cases e3
  have e1 : s1.2 = false := by
    cases h1 : s1.2 with
    | false => rfl
    | true => rw [← hs2, foldl_parseQueryStep_err_mono b s1 h1] at e2; cases e2
  obtain ⟨v1, hv1⟩ := parseQueryStep_key s0 p1 k hp1 hk1 (by rw [hs1]; exact e1)
  rw [hs1] at hv1
  have hkey1 : k ∈ s1.1.map Prod.fst := by rw [hv1]; exact Values.add_mem_keys k v1 _
  have hne1 : AllNonempty s1.1 := by rw [hv1]; exact Values.add_allNonempty k v1 _ hne0
  have hkey2 : k ∈ s2.1.map Prod.fst := by
    rw [← hs2]
    exact (foldl_parseQueryStep_preserves b s1).2.1 k hkey1
  have hne2 : AllNonempty s2.1 := by
    rw [← hs2]
    exact (foldl_parseQueryStep_preserves b s1).1 hne1
  obtain ⟨v2, hv2⟩ := parseQueryStep_key s2 p2 k hp2 hk2 (by rw [hs3]; exact e3)
  rw [hs3] at hv2
  have hdup3 : HasDup s3.1 := by rw [hv2]; exact Values.add_present k v2 _ hne2 hkey2
  exact flatten_hasDup _ ((foldl_parseQueryStep_preserves c s3).2.2 hdup3)

/-- C7: a repeated query key is rejected.  For every input with one of the
URI prefixes whose query string (the query of the URI that `parseURI` hands to
the URI parser) contains the same percent-decoded key more than once, Parse
returns an error. -/
theorem C7_repeated_query_key_rejected (w : World) (dsn : Str)
    (huri : strings.HasPrefix dsn "postgresql://".data = true ∨
      strings.HasPrefix dsn "postgres://".data = true)
    (hq : ∀ uri, url.Parse (rebuildURI dsn) = some uri → RepeatedKey uri.RawQuery) :
    ∃ e, Parse w dsn = Except.error e := by
  unfold Parse
  rw [if_pos huri]
  unfold parseURI uriParameters
  cases hu : url.Parse (rebuildURI dsn) with
  | none => exact ⟨_, rfl⟩
  | some uri =>
    dsimp only
    cases herr : (url.ParseQuery uri.RawQuery).2 with
    | true => exact ⟨Error.uriQuery, by simp⟩
    | false =>
      obtain ⟨e, he⟩ := repeatedKey_rejected uri.RawQuery (hq uri hu) herr
      exact ⟨e, by simp [he]⟩

set_option maxRecDepth 100000 in
/-- Witness of C7: `postgresql://host?user=a&user=b`. -/
theorem C7_repeated_query_key_rejected_witness :
    RepeatedKey "user=a&user=b".data ∧
      ∃ e, Parse exampleWorld "postgresql://host?user=a&user=b".data = Except.error e :=
  ⟨⟨[], [], [], "user=a".data, "user=b".data, "user".data, rfl, by decide, by decide, rfl, rfl⟩,
    C7_repeated_query_key_rejected exampleWorld "postgresql://host?user=a&user=b".data
      (Or.inl rfl) (fun uri hu => by
        have h0 : url.Parse (rebuildURI "postgresql://host?user=a&user=b".data) =
            some
              { Scheme := "postgresql".data, Host := "host".data, Path := "/".data,
                RawQuery := "user=a&user=b".data } := rfl
        rw [h0] at hu
        injection hu with hu
        rw [← hu]
        exact ⟨[], [], [], "user=a".data, "user=b".data, "user".data, rfl, by decide,
          by decide, rfl, rfl⟩)⟩

/-! ## C8 and C9: rejected parameters -/

/-- C8: an empty parameter value is rejected.  Whenever the parameters
decoded from the input (query parameters of a URI or keyword/value tokens)
contain a key, recognised or not, whose value is the empty string, Parse
returns an error. -/
theorem C8_empty_value_rejected (w : World) (hw : w.RangeIsPerm) (s : Str) (opts : Options)
    (params : Params) (k : Str) (hd : decoded s = Except.ok (opts, params))
    (hk : (k, []) ∈ params) : ∃ e, Parse w s = Except.error e := by
  rw [Parse_eq_decoded, hd]
  dsimp only
  unfold parseParameters
  obtain ⟨e, he⟩ := rangeLoop_error_of_mem (k, [])
    (fun l => ⟨_, rangeBody_empty_value l k⟩) (w.rangeOrder params) { options := opts }
    ((hw params).mem_iff.mpr hk)
  exact ⟨e, by rw [he]⟩

set_option maxRecDepth 100000 in
/-- Witness of C8: the three inputs `postgresql://host?sslmode=`,
`postgresql://host?uzer=` and `sslmode=`. -/
theorem C8_empty_value_rejected_witness :
    (∃ e, Parse exampleWorld "postgresql://host?sslmode=".data = Except.error e) ∧
      (∃ e, Parse exampleWorld "postgresql://host?uzer=".data = Except.error e) ∧
      (∃ e, Parse exampleWorld "sslmode=".data = Except.error e) :=
  ⟨C8_empty_value_rejected exampleWorld exampleWorld_perm "postgresql://host?sslmode=".data {}
      [("sslmode".data, []), ("host".data, "host".data)] "sslmode".data rfl (by decide),
    C8_empty_value_rejected exampleWorld exampleWorld_perm "postgresql://host?uzer=".data {}
      [("uzer".data, []), ("host".data, "host".data)] "uzer".data rfl (by decide),
    C8_empty_value_rejected exampleWorld exampleWorld_perm "sslmode=".data {}
      [("sslmode".data, [])] "sslmode".data rfl (by decide)⟩

/-- C9: an unknown parameter name is rejected.  Whenever the parameters
decoded from the input contain a key that is not, character for character,
one of the recognised names, Parse returns an error, whatever the other
parameters are. -/
theorem C9_unknown_parameter_rejected (w : World) (hw : w.RangeIsPerm) (s : Str)
    (opts : Options) (params : Params) (k v : Str)
    (hd : decoded s = Except.ok (opts, params)) (hk : (k, v) ∈ params)
    (hunknown : k ∉ recognisedKeys) : ∃ e, Parse w s = Except.error e := by
  rw [Parse_eq_decoded, hd]
  dsimp only
  unfold parseParameters
  obtain ⟨e, he⟩ := rangeLoop_error_of_mem (k, v)
    (fun l => rangeBody_unknown_key l k v hunknown) (w.rangeOrder params) { options := opts }
    ((hw params).mem_iff.mpr hk)
  exact ⟨e, by rw [he]⟩

set_option maxRecDepth 100000 in
/-- Witness of C9: the keyword string `zzz=1`, and the key `Host`, which
differs from a recognised name only in the case of a letter. -/
theorem C9_unknown_parameter_rejected_witness :
    (∃ e, Parse exampleWorld "zzz=1".data = Except.error e) ∧
      (∃ e, Parse exampleWorld "user=u Host=h".data = Except.error e) :=
  ⟨C9_unknown_parameter_rejected exampleWorld exampleWorld_perm "zzz=1".data {}
      [("zzz".data, "1".data)] "zzz".data "1".data rfl (by decide) (by decide),
    C9_unknown_parameter_rejected exampleWorld exampleWorld_perm "user=u Host=h".data {}
      [("user".data, "u".data), ("Host".data, "h".data)] "Host".data "h".data rfl (by decide)
      (by decide)⟩

/-! ## C10: the TLS posture -/

theorem parseSSLMode_effect {l l' : Locals} {m : Str} (h : parseSSLMode l m = Except.ok l') :
    m ∈ supportedSSLModes ∧ sslState l' = sslModeEffect m (sslState l) := by
  rcases parseSSLMode_ok_inv h with ⟨hm, rfl⟩ | ⟨hm, rfl⟩ | ⟨hm, rfl⟩
  · rcases hm with rfl | rfl | rfl | rfl <;> exact ⟨by decide, rfl⟩
  · subst hm
    exact ⟨by decide, rfl⟩
  · subst hm
    exact ⟨by decide, rfl⟩

/-- The SSL variables after the loop when `sslmode` is present and
`requiressl` is not. -/
theorem rangeLoop_sslmode (ps : List (Str × Str)) (l l' : Locals) (m : Str)
    (hnd : (ps.map Prod.fst).Nodup) (hm : ("sslmode".data, m) ∈ ps)
    (hno : ∀ x, ("requiressl".data, x) ∉ ps)
    (h : rangeLoop l ps = Except.ok l') : sslState l' = sslModeEffect m (sslState l) := by
  refine rangeLoop_set sslState (fun x => x = "sslmode".data ∨ x = "requiressl".data)
    "sslmode".data sslModeEffect ?_ ?_ ps l l' m hnd ?_ hm h
  · intro l1 kv l2 hk hb
    obtain ⟨h1, h2, h3, h4⟩ := (rangeBody_frame hb).2.2.2.2.2.2.2.2.1 hk
    unfold sslState
    rw [h1, h2, h3, h4]
  · intro l1 v l2 hb
    exact (parseSSLMode_effect ((rangeBody_set hb).2.2.2.2.2 rfl)).2
  · intro kv hkv hk
    rcases hk with hk | hk
    · exact hk
    · exact absurd (by rw [← hk]; exact hkv) (hno kv.2)

/-- An unsupported value of `sslmode` makes the loop fail. -/
theorem rangeBody_sslmode_unsupported (l : Locals) (m : Str) (hm : m ∉ supportedSSLModes) :
    ∃ e, rangeBody l ("sslmode".data, m) = Except.error e := by
  cases hb : rangeBody l ("sslmode".data, m) with
  | error e => exact ⟨e, rfl⟩
  | ok l' => exact absurd (parseSSLMode_effect ((rangeBody_set hb).2.2.2.2.2 rfl)).1 hm

theorem envSSL_of_hasSSLConfig (w : World) (l : Locals) (h : l.hasSSLConfig = true) :
    envSSL w l = Except.ok l := by
  unfold envSSL
  simp [h]

/-- C10: the TLS posture is the documented function of the SSL mode and the
address family.  For an input whose parameters contain `sslmode=m` and no
`requiressl`: an unsupported m makes Parse fail; on success, `disable` gives
no TLS configuration; `allow`, `prefer`, `require` and `verify-ca` give a TLS
configuration with skip-verification true and no server name; `verify-full`
with a TCP address gives skip-verification false and the host of the address
as server name; `verify-full` with a Unix-socket address gives
skip-verification true and no server name. -/
theorem C10_tls_posture (w : World) (hw : w.RangeIsPerm) (s : Str) (opts : Options)
    (params : Params) (m : Str) (hd : decoded s = Except.ok (opts, params))
    (hm : ("sslmode".data, m) ∈ params) (hno : ∀ v, ("requiressl".data, v) ∉ params) :
    (m ∉ supportedSSLModes → ∃ e, Parse w s = Except.error e) ∧
    ∀ o, Parse w s = Except.ok o →
      (m = "disable".data → o.TLSConfig = none) ∧
      (m ∈ ["allow".data, "prefer".data, "require".data, "verify-ca".data] →
        ∃ tls, o.TLSConfig = some tls ∧ tls.InsecureSkipVerify = true ∧ tls.ServerName = []) ∧
      (m = "verify-full".data → o.Network = "tcp".data →
        ∃ tls, o.TLSConfig = some tls ∧ tls.InsecureSkipVerify = false ∧
          ∃ port : Int, o.Addr = tls.ServerName ++ ":".data ++ fmt.formatInt port) ∧
      (m = "verify-full".data → o.Network = "unix".data →
        ∃ tls, o.TLSConfig = some tls ∧ tls.InsecureSkipVerify = true ∧ tls.ServerName = []) := by
  constructor
  · intro hm2
    rw [Parse_eq_decoded, hd]
    dsimp only
    unfold parseParameters
    obtain ⟨e, he⟩ := rangeLoop_error_of_mem ("sslmode".data, m)
      (fun l => rangeBody_sslmode_unsupported l m hm2) (w.rangeOrder params)
      { options := opts } ((hw params).mem_iff.mpr hm)
    exact ⟨e, by rw [he]⟩
  · intro o hp
    obtain ⟨opts1, params1, l, hd1, hl, hr⟩ := Parse_ok_inv hp
    rw [hd] at hd1
    injection hd1 with hd1
    injection hd1 with e1 e2
    subst e1 e2
    have hnd := decoded_nodup hd
    obtain ⟨hnd2, hmem⟩ := rangeOrder_facts hw params hnd
    have hs := rangeLoop_sslmode _ _ _ m hnd2 ((hmem _).mpr hm)
      (fun x hx => hno x ((hmem _).mp hx)) hl
    obtain ⟨port, l1, dt, _, hssl, _, ha⟩ := resolve_ok_inv hr
    have hcfg : l.hasSSLConfig = true := by
      have : (sslState l).2.2.1 = true := by
        rw [hs]
        unfold sslModeEffect
        split
        · rfl
        · split <;> rfl
      exact this
    rw [envSSL_of_hasSSLConfig w l hcfg] at hssl
    injection hssl with hssl
    subst hssl
    have hT := attachTLS_ok_inv ha
    have hnet : o.Network =
        (if (decide (resolvedHost w l ≠ [] ∧ strings.HasPrefix (resolvedHost w l) ['/'] = true))
          = true then "unix".data else "tcp".data) := by
      obtain ⟨port2, dt2, _, _, hN, _⟩ := resolve_ok_fields hr
      rw [hN]
      rfl
    have haddr : ∃ p : Int, o.Addr =
        (if (decide (resolvedHost w l ≠ [] ∧ strings.HasPrefix (resolvedHost w l) ['/'] = true))
          = true then
          (if resolvedHost w l = [] then "localhost".data else resolvedHost w l) ++
            "/.s.PGSQL.".data ++ fmt.formatInt p
        else (if resolvedHost w l = [] then "localhost".data else resolvedHost w l) ++
            ":".data ++ fmt.formatInt p) := by
      obtain ⟨port2, dt2, _, _, _, hA, _⟩ := resolve_ok_fields hr
      exact ⟨if port2 = 0 then 5432 else port2, by rw [hA]; rfl⟩
    refine ⟨?_, ?_, ?_, ?_⟩
    · intro hmd
      subst hmd
      have hen : l.sslEnabled = false := by
        have : (sslState l).2.2.2 = false := by rw [hs]; rfl
        exact this
      rw [hT.1 hen]
      rfl
    · intro hmf
      have hst : sslState l = ({ InsecureSkipVerify := true }, false, true, true) := by
        rw [hs]
        simp only [List.mem_cons, List.mem_singleton, List.not_mem_nil, or_false] at hmf
        rcases hmf with rfl | rfl | rfl | rfl <;> rfl
      have hen : l.sslEnabled = true := congrArg (fun x => x.2.2.2) hst
      have hnh : l.sslNeedsHostname = false := congrArg (fun x => x.2.1) hst
      have htc : l.tlsconfig = { InsecureSkipVerify := true } := congrArg (fun x => x.1) hst
      obtain ⟨tls, ho, h1, h2⟩ := hT.2 hen
      refine ⟨tls, by rw [ho], ?_, ?_⟩
      · rw [h1, hnh, htc]
        simp
      · rw [h2, hnh, htc]
        simp
    · intro hmv htcp
      subst hmv
      have hst : sslState l = ({ InsecureSkipVerify := false }, true, true, true) := by
        rw [hs]
        rfl
      have hen : l.sslEnabled = true := congrArg (fun x => x.2.2.2) hst
      have hnh : l.sslNeedsHostname = true := congrArg (fun x => x.2.1) hst
      have htc : l.tlsconfig = { InsecureSkipVerify := false } := congrArg (fun x => x.1) hst
      have hsock : (decide (resolvedHost w l ≠ [] ∧
          strings.HasPrefix (resolvedHost w l) ['/'] = true)) = false := by
        cases hc : (decide (resolvedHost w l ≠ [] ∧
          strings.HasPrefix (resolvedHost w l) ['/'] = true)) with
        | false => rfl
        | true =>
          rw [hnet, hc] at htcp
          simp at htcp
      obtain ⟨tls, ho, h1, h2⟩ := hT.2 hen
      obtain ⟨p, hp2⟩ := haddr
      refine ⟨tls, by rw [ho], ?_, p, ?_⟩
      · rw [h1, hnh, htc, hsock]
        simp
      · rw [hp2, h2, hnh, hsock]
        simp
    · intro hmv hunix
      subst hmv
      have hst : sslState l = ({ InsecureSkipVerify := false }, true, true, true) := by
        rw [hs]
        rfl
      have hen : l.sslEnabled = true := congrArg (fun x => x.2.2.2) hst
      have hnh : l.sslNeedsHostname = true := congrArg (fun x => x.2.1) hst
      have htc : l.tlsconfig = { InsecureSkipVerify := false } := congrArg (fun x => x.1) hst
      have hsock : (decide (resolvedHost w l ≠ [] ∧
          strings.HasPrefix (resolvedHost w l) ['/'] = true)) = true := by
        cases hc : (decide (resolvedHost w l ≠ [] ∧
          strings.HasPrefix (resolvedHost w l) ['/'] = true)) with
        | true => rfl
        | false =>
          rw [hnet, hc] at hunix
          simp at hunix
      obtain ⟨tls, ho, h1, h2⟩ := hT.2 hen
      refine ⟨tls, by rw [ho], ?_, ?_⟩
      · rw [h1, hnh, hsock]
        simp
      · rw [h2, hnh, htc, hsock]
        simp

set_option maxRecDepth 100000 in
/-- Witness of C10: `verify-full` towards a Unix socket and towards a TCP
host, `require`, `disable`, and an unsupported mode, in the example world. -/
theorem C10_tls_posture_witness :
    (∃ o, Parse exampleWorld "sslmode=verify-full host=/tmp".data = Except.ok o ∧
      ∃ tls, o.TLSConfig = some tls ∧ tls.InsecureSkipVerify = true ∧ tls.ServerName = []) ∧
    (∃ o, Parse exampleWorld "sslmode=verify-full host=db1".data = Except.ok o ∧
      ∃ tls, o.TLSConfig = some tls ∧ tls.InsecureSkipVerify = false ∧
        ∃ port : Int, o.Addr = tls.ServerName ++ ":".data ++ fmt.formatInt port) ∧
    (∃ o, Parse exampleWorld "sslmode=require".data = Except.ok o ∧
      ∃ tls, o.TLSConfig = some tls ∧ tls.InsecureSkipVerify = true ∧ tls.ServerName = []) ∧
    (∃ o, Parse exampleWorld "sslmode=disable".data = Except.ok o ∧ o.TLSConfig = none) ∧
    (∃ e, Parse exampleWorld "sslmode=bogus".data = Except.error e) :=
  ⟨⟨_, rfl,
      ((C10_tls_posture exampleWorld exampleWorld_perm "sslmode=verify-full host=/tmp".data {}
        [("sslmode".data, "verify-full".data), ("host".data, "/tmp".data)] "verify-full".data
        rfl (by decide) (by intro v; simp)).2 _ rfl).2.2.2 rfl rfl⟩,
    ⟨_, rfl,
      ((C10_tls_posture exampleWorld exampleWorld_perm "sslmode=verify-full host=db1".data {}
        [("sslmode".data, "verify-full".data), ("host".data, "db1".data)] "verify-full".data
        rfl (by decide) (by intro v; simp)).2 _ rfl).2.2.1 rfl rfl⟩,
    ⟨_, rfl,
      ((C10_tls_posture exampleWorld exampleWorld_perm "sslmode=require".data {}
        [("sslmode".data, "require".data)] "require".data
        rfl (by decide) (by intro v; simp)).2 _ rfl).2.1 (by decide)⟩,
    ⟨_, rfl,
      ((C10_tls_posture exampleWorld exampleWorld_perm "sslmode=disable".data {}
        [("sslmode".data, "disable".data)] "disable".data
        rfl (by decide) (by intro v; simp)).2 _ rfl).1 rfl⟩,
    (C10_tls_posture exampleWorld exampleWorld_perm "sslmode=bogus".data {}
      [("sslmode".data, "bogus".data)] "bogus".data rfl (by decide) (by intro v; simp)).1 (by decide)⟩

/-! ## The resolution in two worlds -/

/-- The resolution gives the same result in two worlds in which the resolved
host, port, dial timeout and SSL settings are the same and which agree on the
other variables read, on the OS account and on the loading of key pairs. -/
theorem resolve_congr (w1 w2 : World) (l : Locals)
    (hhost : resolvedHost w1 l = resolvedHost w2 l)
    (hport : resolvedPort w1 l = resolvedPort w2 l)
    (hssl : envSSL w1 l = envSSL w2 l)
    (hdial : resolvedDialTimeout w1 l = resolvedDialTimeout w2 l)
    (henv : ∀ k ∈ ["PGDATABASE".data, "PGUSER".data, "PGPASSWORD".data, "PGAPPNAME".data,
      "PGSSLCERT".data, "PGSSLKEY".data], w1.Getenv k = w2.Getenv k)
    (hu : w1.userCurrent = w2.userCurrent) (hload : w1.LoadX509KeyPair = w2.LoadX509KeyPair) :
    resolve w1 l = resolve w2 l := by
  have e1 : w1.Getenv "PGDATABASE".data = w2.Getenv "PGDATABASE".data := henv _ (by decide)
  have e2 : w1.Getenv "PGUSER".data = w2.Getenv "PGUSER".data := henv _ (by decide)
  have e3 : w1.Getenv "PGPASSWORD".data = w2.Getenv "PGPASSWORD".data := henv _ (by decide)
  have e4 : w1.Getenv "PGAPPNAME".data = w2.Getenv "PGAPPNAME".data := henv _ (by decide)
  have e5 : w1.Getenv "PGSSLCERT".data = w2.Getenv "PGSSLCERT".data := henv _ (by decide)
  have e6 : w1.Getenv "PGSSLKEY".data = w2.Getenv "PGSSLKEY".data := henv _ (by decide)
  have ha : ∀ h p d, assemble w1 l h p d = assemble w2 l h p d := by
    intro h p d
    unfold assemble
    rw [e1, e2, e3, e4, hu]
  have ht : ∀ l1 b h o, attachTLS w1 l1 b h o = attachTLS w2 l1 b h o := by
    intro l1 b h o
    unfold attachTLS
    rw [e5, e6, hload]
  unfold resolve
  rw [hport, hssl, hdial, hhost]
  simp only [ha, ht]

theorem resolvedHost_congr (w1 w2 : World) (l : Locals)
    (h : w1.Getenv "PGHOST".data = w2.Getenv "PGHOST".data) :
    resolvedHost w1 l = resolvedHost w2 l := by
  unfold resolvedHost
  rw [h]

theorem resolvedPort_congr (w1 w2 : World) (l : Locals)
    (h : w1.Getenv "PGPORT".data = w2.Getenv "PGPORT".data) :
    resolvedPort w1 l = resolvedPort w2 l := by
  unfold resolvedPort
  rw [h]

theorem resolvedDialTimeout_congr (w1 w2 : World) (l : Locals)
    (h : w1.Getenv "PGCONNECT_TIMEOUT".data = w2.Getenv "PGCONNECT_TIMEOUT".data) :
    resolvedDialTimeout w1 l = resolvedDialTimeout w2 l := by
  unfold resolvedDialTimeout
  rw [h]

theorem envSSL_congr (w1 w2 : World) (l : Locals)
    (h1 : w1.Getenv "PGSSLMODE".data = w2.Getenv "PGSSLMODE".data)
    (h2 : w1.Getenv "PGREQUIRESSL".data = w2.Getenv "PGREQUIRESSL".data) :
    envSSL w1 l = envSSL w2 l := by
  unfold envSSL
  rw [h1, h2]

/-- `Parse` gives the same outcome in two worlds with the same order of visit
in which the resolution after the loop gives the same result. -/
theorem Parse_congr (w1 w2 : World) (s : Str) (horder : w1.rangeOrder = w2.rangeOrder)
    (hres : ∀ opts params l, decoded s = Except.ok (opts, params) →
      rangeLoop { options := opts } (w1.rangeOrder params) = Except.ok l →
      resolve w1 l = resolve w2 l) :
    Parse w1 s = Parse w2 s := by
  rw [Parse_eq_decoded, Parse_eq_decoded]
  cases hd : decoded s with
  | error e => rfl
  | ok op =>
    obtain ⟨opts, params⟩ := op
    dsimp only
    unfold parseParameters
    rw [← horder]
    cases hl : rangeLoop { options := opts } (w1.rangeOrder params) with
    | error e => rfl
    | ok l => exact hres opts params l hd hl

/-- A step of the loop keeps the flag `hasSSLConfig` once it is set, and sets
it for the keys `sslmode` and `requiressl`. -/
theorem rangeBody_hasSSLConfig {l l' : Locals} {kv : Str × Str}
    (h : rangeBody l kv = Except.ok l') :
    (l.hasSSLConfig = true → l'.hasSSLConfig = true) ∧
      ((kv.1 = "sslmode".data ∨ kv.1 = "requiressl".data) → l'.hasSSLConfig = true) := by
  rcases rangeBody_ok_inv h with ⟨_, ⟨hk, rfl⟩ | ⟨hk, _, _, rfl⟩ | ⟨hk, rfl⟩ | ⟨hk, rfl⟩ |
    ⟨hk, rfl⟩ | ⟨hk, _, _, rfl⟩ | ⟨hk, rfl⟩ | ⟨hk, rfl⟩ | ⟨hk, hs⟩ | ⟨hk, rfl⟩ | ⟨hk, rfl⟩ |
    ⟨hk, rfl⟩ | ⟨hk, rfl⟩⟩
  case intro.inr.inr.inr.inr.inr.inr.inr.inr.inl.intro =>
    rcases parseSSLMode_ok_inv hs with ⟨_, rfl⟩ | ⟨_, rfl⟩ | ⟨_, rfl⟩ <;>
      exact ⟨fun _ => rfl, fun _ => rfl⟩
  case intro.inr.inr.inr.inr.inr.inr.inr.inr.inr.inl.intro =>
    exact ⟨fun _ => rfl, fun _ => rfl⟩
  all_goals
    refine ⟨fun h0 => h0, fun hk2 => ?_⟩
    first
      | (rw [hk] at hk2; exact absurd hk2 (by decide))
      | (exfalso
         rcases hk with hk | hk <;> rw [hk] at hk2 <;> exact absurd hk2 (by decide))
      | (exfalso
         have hne : ∀ x ∈ ignoredKeys, ¬ (x = "sslmode".data ∨ x = "requiressl".data) := by
           decide
         exact hne _ hk hk2)

/-- After the loop over entries among which is `sslmode` or `requiressl`, the
flag `hasSSLConfig` is set. -/
theorem rangeLoop_hasSSLConfig : ∀ (ps : List (Str × Str)) (l l' : Locals),
    rangeLoop l ps = Except.ok l' →
    (l.hasSSLConfig = true ∨ ∃ kv ∈ ps, kv.1 = "sslmode".data ∨ kv.1 = "requiressl".data) →
    l'.hasSSLConfig = true := by
  intro ps
  induction ps with
  | nil =>
    intro l l' h hc
    simp only [rangeLoop] at h
    cases h
    rcases hc with hc | ⟨kv, hkv, _⟩
    · exact hc
    · cases hkv
  | cons p ps ih =>
    intro l l' h hc
    obtain ⟨l1, h1, h2⟩ := rangeLoop_cons_ok h
    have hb := rangeBody_hasSSLConfig h1
    apply ih l1 l' h2
    rcases hc with hc | ⟨kv, hkv, hk⟩
    · exact Or.inl (hb.1 hc)
    · rcases List.mem_cons.mp hkv with e | e
      · rw [e] at hk
        exact Or.inl (hb.2 hk)
      · exact Or.inr ⟨kv, e, hk⟩

theorem envWorld_perm (name value : Str) : (envWorld name value).RangeIsPerm :=
  fun m => List.Perm.refl m

theorem reverseWorld_perm : reverseWorld.RangeIsPerm := fun m => List.reverse_perm m

/-- The example world with one variable set agrees with the example world
except on that variable. -/
theorem envWorld_agree (name value : Str) (names : List Str) (hn : name ∈ names) :
    World.AgreeExcept (envWorld name value) exampleWorld names := by
  refine ⟨rfl, rfl, rfl, ?_⟩
  intro k hk
  have hne : ¬ k = name := fun h => hk (by rw [h]; exact hn)
  show (if k = name then value else []) = []
  rw [if_neg hne]

/-! ## More about the loop: timeout, application name, ignored keys -/

/-- What a successful step of the loop does for the keys `connect_timeout`,
`application_name` and `fallback_application_name`. -/
theorem rangeBody_set_more {l l' : Locals} {kv : Str × Str}
    (h : rangeBody l kv = Except.ok l') :
    (kv.1 = "connect_timeout".data →
      ∃ t, strconv.Atoi kv.2 = some t ∧
        l'.options.DialTimeout = wrapInt64 (t * 1000000000)) ∧
    (kv.1 = "application_name".data → l'.options.ApplicationName = kv.2) ∧
    (kv.1 = "fallback_application_name".data → l'.fallbackAppname = kv.2) := by
  rcases rangeBody_ok_inv h with ⟨_, ⟨hk, rfl⟩ | ⟨hk, _, _, rfl⟩ | ⟨hk, rfl⟩ | ⟨hk, rfl⟩ |
    ⟨hk, rfl⟩ | ⟨hk, t, ht, rfl⟩ | ⟨hk, rfl⟩ | ⟨hk, rfl⟩ | ⟨hk, hs⟩ | ⟨hk, rfl⟩ | ⟨hk, rfl⟩ |
    ⟨hk, rfl⟩ | ⟨hk, rfl⟩⟩
  case intro.inl.intro =>
    refine ⟨?_, ?_, ?_⟩ <;> intro hk2 <;> rw [hk2] at hk <;> exact absurd hk (by decide)
  case intro.inr.inr.inr.inr.inr.inl.intro.intro.intro =>
    refine ⟨fun _ => ⟨t, ht, rfl⟩, ?_, ?_⟩ <;> intro hk2 <;> rw [hk] at hk2 <;>
      exact absurd hk2 (by decide)
  case intro.inr.inr.inr.inr.inr.inr.inr.inr.inr.inr.inr.inr.intro =>
    have hne : ∀ x ∈ ignoredKeys, ¬ x = "connect_timeout".data ∧
        ¬ x = "application_name".data ∧ ¬ x = "fallback_application_name".data := by decide
    exact ⟨fun hk2 => absurd hk2 (hne _ hk).1, fun hk2 => absurd hk2 (hne _ hk).2.1,
      fun hk2 => absurd hk2 (hne _ hk).2.2⟩
  all_goals
    refine ⟨?_, ?_, ?_⟩ <;> intro hk2 <;>
    first
      | rfl
      | (rw [hk] at hk2; exact absurd hk2 (by decide))

/-- The dial timeout after the loop. -/
theorem rangeLoop_dialTimeout (ps : List (Str × Str)) (l l' : Locals)
    (hnd : (ps.map Prod.fst).Nodup) (h : rangeLoop l ps = Except.ok l') :
    (∀ v, ("connect_timeout".data, v) ∈ ps →
      (strconv.Atoi v).map (fun t => wrapInt64 (t * 1000000000)) =
        some l'.options.DialTimeout) ∧
    ((∀ v, ("connect_timeout".data, v) ∉ ps) →
      l'.options.DialTimeout = l.options.DialTimeout) := by
  have := rangeLoop_single (fun l => some l.options.DialTimeout) "connect_timeout".data
    (fun v _ => (strconv.Atoi v).map (fun t => wrapInt64 (t * 1000000000)))
    (fun _ _ _ hk hb => congrArg some ((rangeBody_frame hb).2.2.2.2.2.1 hk))
    (fun _ v _ hb => by
      obtain ⟨t, ht, hdt⟩ := (rangeBody_set_more hb).1 rfl
      show some _ = Option.map _ (strconv.Atoi v)
      rw [ht, hdt]
      rfl) ps l l' hnd h
  exact ⟨fun v hv => (this.1 v hv).symm, fun hno => Option.some.inj (this.2 hno)⟩

/-- The application name after the loop. -/
theorem rangeLoop_appname (ps : List (Str × Str)) (l l' : Locals)
    (hnd : (ps.map Prod.fst).Nodup) (h : rangeLoop l ps = Except.ok l') :
    (∀ v, ("application_name".data, v) ∈ ps → l'.options.ApplicationName = v) ∧
      ((∀ v, ("application_name".data, v) ∉ ps) →
        l'.options.ApplicationName = l.options.ApplicationName) :=
  rangeLoop_single (fun l => l.options.ApplicationName) "application_name".data (fun v _ => v)
    (fun _ _ _ hk hb => (rangeBody_frame hb).2.2.2.2.2.2.1 hk)
    (fun _ _ _ hb => (rangeBody_set_more hb).2.1 rfl) ps l l' hnd h

/-- The fallback application name after the loop. -/
theorem rangeLoop_fallback (ps : List (Str × Str)) (l l' : Locals)
    (hnd : (ps.map Prod.fst).Nodup) (h : rangeLoop l ps = Except.ok l') :
    (∀ v, ("fallback_application_name".data, v) ∈ ps → l'.fallbackAppname = v) ∧
      ((∀ v, ("fallback_application_name".data, v) ∉ ps) →
        l'.fallbackAppname = l.fallbackAppname) :=
  rangeLoop_single (fun l => l.fallbackAppname) "fallback_application_name".data
    (fun v _ => v)
    (fun _ _ _ hk hb => (rangeBody_frame hb).2.2.2.2.2.2.2.1 hk)
    (fun _ _ _ hb => (rangeBody_set_more hb).2.2 rfl) ps l l' hnd h

/-- The options handed to `parseParameters` carry at most a user, a password
and a database. -/
theorem decoded_options {s : Str} {opts : Options} {params : Params}
    (h : decoded s = Except.ok (opts, params)) :
    opts.ApplicationName = [] ∧ opts.DialTimeout = 0 ∧ opts.Network = [] ∧ opts.Addr = [] ∧
      opts.TLSConfig = none := by
  unfold decoded at h
  split at h
  · obtain ⟨uri, q, _, _, _, ho, _⟩ := uriParameters_ok_inv h
    rw [ho]
    exact ⟨rfl, rfl, rfl, rfl, rfl⟩
  · obtain ⟨records, _, _, ho⟩ := connstrParameters_ok_inv h
    rw [ho]
    exact ⟨rfl, rfl, rfl, rfl, rfl⟩

/-- A step of the loop on an ignored key with a value does nothing. -/
theorem rangeBody_ignored (l : Locals) (k v : Str) (hk : k ∈ ignoredKeys) (hv : v ≠ []) :
    rangeBody l (k, v) = Except.ok l := by
  have hne : ∀ x ∈ ignoredKeys,
      ¬ (x = "host".data ∨ x = "hostaddr".data) ∧ ¬ x = "port".data ∧ ¬ x = "dbname".data ∧
      ¬ x = "user".data ∧ ¬ x = "password".data ∧ ¬ x = "connect_timeout".data ∧
      ¬ x = "application_name".data ∧ ¬ x = "fallback_application_name".data ∧
      ¬ x = "sslmode".data ∧ ¬ x = "requiressl".data ∧ ¬ x = "sslcert".data ∧
      ¬ x = "sslkey".data := by decide
  obtain ⟨h1, h2, h3, h4, h5, h6, h7, h8, h9, h10, h11, h12⟩ := hne k hk
  have h0 : ¬ v.length = 0 := fun h => hv (List.length_eq_zero.mp h)
  unfold rangeBody
  dsimp only
  rw [if_neg h0, if_neg h1, if_neg h2, if_neg h3, if_neg h4, if_neg h5, if_neg h6, if_neg h7,
    if_neg h8, if_neg h9, if_neg h10, if_neg h11, if_neg h12, if_pos hk]

/-- The loop passes over an ignored key with a value: the visit with the
entry gives what the visit without it gives. -/
theorem rangeLoop_ignored (k v : Str) (hk : k ∈ ignoredKeys) (hv : v ≠ [])
    (post : List (Str × Str)) : ∀ (pre : List (Str × Str)) (l : Locals),
    rangeLoop l (pre ++ (k, v) :: post) = rangeLoop l (pre ++ post) := by
  intro pre
  induction pre with
  | nil =>
    intro l
    simp only [List.nil_append, rangeLoop, rangeBody_ignored l k v hk hv]
  | cons p pre ih =>
    intro l
    simp only [List.cons_append, rangeLoop]
    cases rangeBody l p with
    | error e => rfl
    | ok l1 => exact ih l1

/-! ## Numerals and the port of an address -/

/-- The result of `Atoi` is in the range of a 64 bit `int`. -/
theorem Atoi_range {s : Str} {v : Int} (h : strconv.Atoi s = some v) :
    -9223372036854775808 ≤ v ∧ v ≤ 9223372036854775807 := by
  unfold strconv.Atoi at h
  dsimp only at h
  generalize (if s.head? = some '-' ∨ s.head? = some '+' then s.tail else s) = body at h
  by_cases hb : body = []
  · rw [if_pos hb] at h
    cases h
  · rw [if_neg hb] at h
    cases hpd : strconv.parseDigits body 0 with
    | none =>
      rw [hpd] at h
      cases h
    | some n =>
      rw [hpd] at h
      dsimp only at h
      by_cases hr : -9223372036854775808 ≤ (if s.head? = some '-' then -(n : Int) else (n : Int)) ∧
          (if s.head? = some '-' then -(n : Int) else (n : Int)) ≤ 9223372036854775807
      · rw [if_pos hr] at h
        injection h with h
        rw [← h]
        exact hr
      · rw [if_neg hr] at h
        cases h

/-- `Atoi` reads back the numeral that `%d` prints for any `int`. -/
theorem Atoi_formatInt_int (n : Int) (h1 : -9223372036854775808 ≤ n)
    (h2 : n ≤ 9223372036854775807) : strconv.Atoi (fmt.formatInt n) = some n := by
  cases n with
  | ofNat m =>
    have hm : (m : Int) ≤ 9223372036854775807 := h2
    exact Atoi_formatInt m (by omega)
  | negSucc m =>
    have hfmt : fmt.formatInt (Int.negSucc m) = '-' :: Nat.toDigits 10 (m + 1) := rfl
    rw [hfmt]
    have hne := toDigits_ne_nil (m + 1)
    have hp := parseDigits_toDigits (m + 1)
    have hneg : Int.negSucc m = -((m : Int) + 1) := Int.negSucc_eq m
    rw [hneg] at h1
    have hv : -(((m + 1 : Nat)) : Int) = Int.negSucc m := by
      rw [hneg]
      push_cast
      rfl
    have hr : -9223372036854775808 ≤ -(((m + 1 : Nat)) : Int) ∧
        -(((m + 1 : Nat)) : Int) ≤ 9223372036854775807 := by
      push_cast
      omega
    unfold strconv.Atoi
    simp only [List.head?_cons, List.tail_cons, true_or, if_true, if_neg hne, hp]
    rw [if_pos hr, hv]

/-- The numeral that `%d` prints holds neither a colon nor a dot. -/
theorem formatInt_lacks (n : Int) {x : Char} (hx : x = ':' ∨ x = '.') :
    x ∉ fmt.formatInt n := by
  have hd : ¬ (48 ≤ x.toNat ∧ x.toNat ≤ 57) := by
    rcases hx with rfl | rfl <;> decide
  cases n with
  | ofNat m => exact (toDigits_digits m).lacks hd
  | negSucc m =>
    have hfmt : fmt.formatInt (Int.negSucc m) = '-' :: Nat.toDigits 10 (m + 1) := rfl
    rw [hfmt]
    intro hmem
    rcases List.mem_cons.mp hmem with e | e
    · rcases hx with rfl | rfl <;> exact absurd e (by decide)
    · exact (toDigits_digits (m + 1)).lacks hd e

/-- The port read back from an address that ends in the numeral `text`. -/
theorem addrPort_of_numeral (o : Options) (host text : Str) (n : Int)
    (hn : strconv.Atoi text = some n) (hcolon : ':' ∉ text) (hdot : '.' ∉ text)
    (ho : (o.Network = "unix".data ∧ o.Addr = host ++ "/.s.PGSQL.".data ++ text) ∨
      (o.Network = "tcp".data ∧ o.Addr = host ++ ":".data ++ text)) :
    addrPort o = some n := by
  unfold addrPort
  rcases ho with ⟨h1, h2⟩ | ⟨h1, h2⟩
  · have e : host ++ "/.s.PGSQL.".data ++ text = (host ++ "/.s.PGSQL".data) ++ '.' :: text := by
      simp
    rw [h1, h2, if_pos rfl, e, strings.CutLast_single _ _ _ hdot]
    exact hn
  · have e : host ++ ":".data ++ text = host ++ ':' :: text := by simp
    have hne : ¬ "tcp".data = "unix".data := by decide
    rw [h1, h2, if_neg hne, e, strings.CutLast_single _ _ _ hcolon]
    exact hn

/-- The port read back from the address built from the host `h` and the port
`p`. -/
theorem addrPort_specAddress (o : Options) (h : Str) (p : Int)
    (ho : (o.Network, o.Addr) = specAddress h p)
    (h1 : -9223372036854775808 ≤ p) (h2 : p ≤ 9223372036854775807) :
    addrPort o = some (if p = 0 then 5432 else p) := by
  have hr1 : -9223372036854775808 ≤ (if p = 0 then 5432 else p) := by split <;> omega
  have hr2 : (if p = 0 then 5432 else p) ≤ 9223372036854775807 := by split <;> omega
  have hA := Atoi_formatInt_int _ hr1 hr2
  generalize hH : (if h = [] then "localhost".data else h) = H at *
  have ho2 : (o.Network, o.Addr) =
      (if strings.HasPrefix H ['/'] = true then
        ("unix".data, H ++ "/.s.PGSQL.".data ++ fmt.formatInt (if p = 0 then 5432 else p))
      else ("tcp".data, H ++ ":".data ++ fmt.formatInt (if p = 0 then 5432 else p))) := by
    rw [ho, ← hH]
    rfl
  apply addrPort_of_numeral o H _ _ hA (formatInt_lacks _ (Or.inl rfl))
    (formatInt_lacks _ (Or.inr rfl))
  by_cases hpre : strings.HasPrefix H ['/'] = true
  · rw [if_pos hpre] at ho2
    exact Or.inl ⟨(Prod.mk.inj ho2).1, (Prod.mk.inj ho2).2⟩
  · rw [if_neg hpre] at ho2
    exact Or.inr ⟨(Prod.mk.inj ho2).1, (Prod.mk.inj ho2).2⟩

/-! ## The loop and the order of the visit -/

/-- Whether `parseSSLMode` succeeds does not depend on the state. -/
theorem parseSSLMode_ok_indep {l l' : Locals} {m : Str}
    (h : parseSSLMode l m = Except.ok l') (l2 : Locals) :
    ∃ l3, parseSSLMode l2 m = Except.ok l3 := by
  unfold parseSSLMode at h ⊢
  dsimp only at h ⊢
  by_cases h1 : m = "allow".data ∨ m = "prefer".data ∨ m = "require".data ∨ m = "verify-ca".data
  · rw [if_pos h1]
    exact ⟨_, rfl⟩
  rw [if_neg h1] at h ⊢
  by_cases h2 : m = "verify-full".data
  · rw [if_pos h2]
    exact ⟨_, rfl⟩
  rw [if_neg h2] at h ⊢
  by_cases h3 : m = "disable".data
  · rw [if_pos h3]
    exact ⟨_, rfl⟩
  rw [if_neg h3] at h
  cases h

/-- Whether a step of the loop succeeds does not depend on the state. -/
theorem rangeBody_ok_indep {l l' : Locals} {kv : Str × Str}
    (h : rangeBody l kv = Except.ok l') (l2 : Locals) :
    ∃ l3, rangeBody l2 kv = Except.ok l3 := by
  unfold rangeBody at h ⊢
  dsimp only at h ⊢
  by_cases h0 : kv.2.length = 0
  · rw [if_pos h0] at h
    cases h
  rw [if_neg h0] at h ⊢
  by_cases h1 : kv.1 = "host".data ∨ kv.1 = "hostaddr".data
  · rw [if_pos h1]
    exact ⟨_, rfl⟩
  rw [if_neg h1] at h ⊢
  by_cases h2 : kv.1 = "port".data
  · rw [if_pos h2] at h ⊢
    cases hp : strconv.Atoi kv.2 with
    | none =>
      rw [hp] at h
      cases h
    | some p => exact ⟨_, rfl⟩
  rw [if_neg h2] at h ⊢
  by_cases h3 : kv.1 = "dbname".data
  · rw [if_pos h3]
    exact ⟨_, rfl⟩
  rw [if_neg h3] at h ⊢
  by_cases h4 : kv.1 = "user".data
  · rw [if_pos h4]
    exact ⟨_, rfl⟩
  rw [if_neg h4] at h ⊢
  by_cases h5 : kv.1 = "password".data
  · rw [if_pos h5]
    exact ⟨_, rfl⟩
  rw [if_neg h5] at h ⊢
  by_cases h6 : kv.1 = "connect_timeout".data
  · rw [if_pos h6] at h ⊢
    cases hp : strconv.Atoi kv.2 with
    | none =>
      rw [hp] at h
      cases h
    | some p => exact ⟨_, rfl⟩
  rw [if_neg h6] at h ⊢
  by_cases h7 : kv.1 = "application_name".data
  · rw [if_pos h7]
    exact ⟨_, rfl⟩
  rw [if_neg h7] at h ⊢
  by_cases h8 : kv.1 = "fallback_application_name".data
  · rw [if_pos h8]
    exact ⟨_, rfl⟩
  rw [if_neg h8] at h ⊢
  by_cases h9 : kv.1 = "sslmode".data
  · rw [if_pos h9] at h ⊢
    exact parseSSLMode_ok_indep h l2
  rw [if_neg h9] at h ⊢
  by_cases h10 : kv.1 = "requiressl".data
  · rw [if_pos h10]
    exact ⟨_, rfl⟩
  rw [if_neg h10] at h ⊢
  by_cases h11 : kv.1 = "sslcert".data
  · rw [if_pos h11]
    exact ⟨_, rfl⟩
  rw [if_neg h11] at h ⊢
  by_cases h12 : kv.1 = "sslkey".data
  · rw [if_pos h12]
    exact ⟨_, rfl⟩
  rw [if_neg h12] at h ⊢
  by_cases h13 : kv.1 ∈ ignoredKeys
  · rw [if_pos h13]
    exact ⟨_, rfl⟩
  rw [if_neg h13] at h
  cases h

/-- Every step of a loop that runs through succeeds in any state. -/
theorem rangeLoop_steps_ok : ∀ (ps : List (Str × Str)) (l l' : Locals),
    rangeLoop l ps = Except.ok l' → ∀ kv ∈ ps, ∀ m, ∃ m', rangeBody m kv = Except.ok m' := by
  intro ps
  induction ps with
  | nil => intro l l' _ kv hkv; cases hkv
  | cons p ps ih =>
    intro l l' h kv hkv m
    obtain ⟨l1, h1, h2⟩ := rangeLoop_cons_ok h
    rcases List.mem_cons.mp hkv with e | e
    · rw [e]
      exact rangeBody_ok_indep h1 m
    · exact ih l1 l' h2 kv e m

/-- What a successful step of the loop does for the keys `requiressl`,
`sslcert` and `sslkey`. -/
theorem rangeBody_set_ssl {l l' : Locals} {kv : Str × Str}
    (h : rangeBody l kv = Except.ok l') :
    (kv.1 = "requiressl".data →
      sslState l' =
        ({ (sslState l).1 with InsecureSkipVerify := true }, (sslState l).2.1, true, true)) ∧
    (kv.1 = "sslcert".data → l'.clientCert = kv.2) ∧
    (kv.1 = "sslkey".data → l'.clientKey = kv.2) := by
  rcases rangeBody_ok_inv h with ⟨_, ⟨hk, rfl⟩ | ⟨hk, _, _, rfl⟩ | ⟨hk, rfl⟩ | ⟨hk, rfl⟩ |
    ⟨hk, rfl⟩ | ⟨hk, _, _, rfl⟩ | ⟨hk, rfl⟩ | ⟨hk, rfl⟩ | ⟨hk, hs⟩ | ⟨hk, rfl⟩ | ⟨hk, rfl⟩ |
    ⟨hk, rfl⟩ | ⟨hk, rfl⟩⟩
  case intro.inl.intro =>
    refine ⟨?_, ?_, ?_⟩ <;> intro hk2 <;> rw [hk2] at hk <;> exact absurd hk (by decide)
  case intro.inr.inr.inr.inr.inr.inr.inr.inr.inr.inr.inr.inr.intro =>
    have hne : ∀ x ∈ ignoredKeys, ¬ x = "requiressl".data ∧
        ¬ x = "sslcert".data ∧ ¬ x = "sslkey".data := by decide
    exact ⟨fun hk2 => absurd hk2 (hne _ hk).1, fun hk2 => absurd hk2 (hne _ hk).2.1,
      fun hk2 => absurd hk2 (hne _ hk).2.2⟩
  all_goals
    refine ⟨?_, ?_, ?_⟩ <;> intro hk2 <;>
    first
      | rfl
      | (rw [hk] at hk2; exact absurd hk2 (by decide))

/-- Two loops over the same entries, each visited once, from the same state
agree on a variable that the entries write under one key only. -/
theorem rangeLoop_agree {α : Type} (f : Locals → α) (W : Str → Prop) (k : Str)
    (g : Str → α → α)
    (hframe : ∀ l kv l', ¬ W kv.1 → rangeBody l kv = Except.ok l' → f l' = f l)
    (hset : ∀ l v l', rangeBody l (k, v) = Except.ok l' → f l' = g v (f l))
    (ps qs : List (Str × Str)) (l l1 l2 : Locals) (hmem : ∀ kv, kv ∈ ps ↔ kv ∈ qs)
    (hnd1 : (ps.map Prod.fst).Nodup) (hnd2 : (qs.map Prod.fst).Nodup)
    (hW : ∀ kv ∈ ps, W kv.1 → kv.1 = k)
    (h1 : rangeLoop l ps = Except.ok l1) (h2 : rangeLoop l qs = Except.ok l2) :
    f l1 = f l2 := by
  have hW2 : ∀ kv ∈ qs, W kv.1 → kv.1 = k := fun kv hkv => hW kv ((hmem kv).mpr hkv)
  by_cases hex : ∃ v, (k, v) ∈ ps
  · obtain ⟨v, hv⟩ := hex
    rw [rangeLoop_set f W k g hframe hset ps l l1 v hnd1 hW hv h1,
      rangeLoop_set f W k g hframe hset qs l l2 v hnd2 hW2 ((hmem _).mp hv) h2]
  · have hno : ∀ kv ∈ ps, ¬ W kv.1 := by
      intro kv hkv hWk
      have hk := hW kv hkv hWk
      exact hex ⟨kv.2, by rw [← hk]; exact hkv⟩
    rw [rangeLoop_frame f W hframe ps l l1 hno h1,
      rangeLoop_frame f W hframe qs l l2 (fun kv hkv => hno kv ((hmem kv).mpr hkv)) h2]

/-- Two loops over the same entries from the same state, when no two entries
write the same variable, end in the same state. -/
theorem rangeLoop_perm_eq (ps qs : List (Str × Str)) (l l1 l2 : Locals)
    (hmem : ∀ kv, kv ∈ ps ↔ kv ∈ qs)
    (hnd1 : (ps.map Prod.fst).Nodup) (hnd2 : (qs.map Prod.fst).Nodup)
    (hhost : ¬ ((∃ v, ("host".data, v) ∈ ps) ∧ ∃ v, ("hostaddr".data, v) ∈ ps))
    (hssl : ¬ ((∃ v, ("sslmode".data, v) ∈ ps) ∧ ∃ v, ("requiressl".data, v) ∈ ps))
    (h1 : rangeLoop l ps = Except.ok l1) (h2 : rangeLoop l qs = Except.ok l2) :
    l1 = l2 := by
  have single : ∀ {α : Type} (f : Locals → α) (k : Str) (g : Str → α → α),
      (∀ l kv l', ¬ kv.1 = k → rangeBody l kv = Except.ok l' → f l' = f l) →
      (∀ l v l', rangeBody l (k, v) = Except.ok l' → f l' = g v (f l)) → f l1 = f l2 :=
    fun f k g hframe hset =>
      rangeLoop_agree f (fun x => x = k) k g hframe hset ps qs l l1 l2 hmem hnd1 hnd2
        (fun _ _ hx => hx) h1 h2
  have ehost : l1.host = l2.host := by
    by_cases hb : ∃ v, ("hostaddr".data, v) ∈ ps
    · refine rangeLoop_agree (fun l => l.host)
        (fun x => x = "host".data ∨ x = "hostaddr".data) "hostaddr".data (fun v _ => v)
        (fun _ _ _ hk hb => (rangeBody_frame hb).1 hk)
        (fun _ _ _ hb => (rangeBody_set hb).1 (Or.inr rfl)) ps qs l l1 l2 hmem hnd1 hnd2 ?_ h1 h2
      intro kv hkv hk
      rcases hk with hk | hk
      · exact absurd ⟨⟨kv.2, by rw [← hk]; exact hkv⟩, hb⟩ hhost
      · exact hk
    · refine rangeLoop_agree (fun l => l.host)
        (fun x => x = "host".data ∨ x = "hostaddr".data) "host".data (fun v _ => v)
        (fun _ _ _ hk hb => (rangeBody_frame hb).1 hk)
        (fun _ _ _ hb => (rangeBody_set hb).1 (Or.inl rfl)) ps qs l l1 l2 hmem hnd1 hnd2 ?_ h1 h2
      intro kv hkv hk
      rcases hk with hk | hk
      · exact hk
      · exact absurd ⟨kv.2, by rw [← hk]; exact hkv⟩ hb
  have essl : sslState l1 = sslState l2 := by
    have hfr : ∀ (l : Locals) (kv : Str × Str) (l' : Locals),
        ¬ (kv.1 = "sslmode".data ∨ kv.1 = "requiressl".data) →
        rangeBody l kv = Except.ok l' → sslState l' = sslState l := by
      intro l kv l' hk hb
      obtain ⟨e1, e2, e3, e4⟩ := (rangeBody_frame hb).2.2.2.2.2.2.2.2.1 hk
      unfold sslState
      rw [e1, e2, e3, e4]
    by_cases hb : ∃ v, ("requiressl".data, v) ∈ ps
    · refine rangeLoop_agree sslState
        (fun x => x = "sslmode".data ∨ x = "requiressl".data) "requiressl".data
        (fun _ st => ({ st.1 with InsecureSkipVerify := true }, st.2.1, true, true))
        hfr (fun _ _ _ hb => (rangeBody_set_ssl hb).1 rfl) ps qs l l1 l2 hmem hnd1 hnd2 ?_ h1 h2
      intro kv hkv hk
      rcases hk with hk | hk
      · exact absurd ⟨⟨kv.2, by rw [← hk]; exact hkv⟩, hb⟩ hssl
      · exact hk
    · refine rangeLoop_agree sslState
        (fun x => x = "sslmode".data ∨ x = "requiressl".data) "sslmode".data sslModeEffect
        hfr (fun _ _ _ hb => (parseSSLMode_effect ((rangeBody_set hb).2.2.2.2.2 rfl)).2)
        ps qs l l1 l2 hmem hnd1 hnd2 ?_ h1 h2
      intro kv hkv hk
      rcases hk with hk | hk
      · exact hk
      · exact absurd ⟨kv.2, by rw [← hk]; exact hkv⟩ hb
  have eport : l1.port = l2.port :=
    Option.some.inj (single (fun l => some l.port) "port".data (fun v _ => strconv.Atoi v)
      (fun _ _ _ hk hb => congrArg some ((rangeBody_frame hb).2.1 hk))
      (fun _ _ _ hb => ((rangeBody_set hb).2.1 rfl).symm))
  have edb : l1.options.Database = l2.options.Database :=
    single (fun l => l.options.Database) "dbname".data (fun v _ => v)
      (fun _ _ _ hk hb => (rangeBody_frame hb).2.2.1 hk)
      (fun _ _ _ hb => (rangeBody_set hb).2.2.1 rfl)
  have euser : l1.options.User = l2.options.User :=
    single (fun l => l.options.User) "user".data (fun v _ => v)
      (fun _ _ _ hk hb => (rangeBody_frame hb).2.2.2.1 hk)
      (fun _ _ _ hb => (rangeBody_set hb).2.2.2.1 rfl)
  have epw : l1.options.Password = l2.options.Password :=
    single (fun l => l.options.Password) "password".data (fun v _ => v)
      (fun _ _ _ hk hb => (rangeBody_frame hb).2.2.2.2.1 hk)
      (fun _ _ _ hb => (rangeBody_set hb).2.2.2.2.1 rfl)
  have edt : l1.options.DialTimeout = l2.options.DialTimeout :=
    Option.some.inj (single (fun l => some l.options.DialTimeout) "connect_timeout".data
      (fun v _ => (strconv.Atoi v).map (fun t => wrapInt64 (t * 1000000000)))
      (fun _ _ _ hk hb => congrArg some ((rangeBody_frame hb).2.2.2.2.2.1 hk))
      (fun _ v _ hb => by
        obtain ⟨t, ht, hdt⟩ := (rangeBody_set_more hb).1 rfl
        show some _ = Option.map _ (strconv.Atoi v)
        rw [ht, hdt]
        rfl))
  have eapp : l1.options.ApplicationName = l2.options.ApplicationName :=
    single (fun l => l.options.ApplicationName) "application_name".data (fun v _ => v)
      (fun _ _ _ hk hb => (rangeBody_frame hb).2.2.2.2.2.2.1 hk)
      (fun _ _ _ hb => (rangeBody_set_more hb).2.1 rfl)
  have efb : l1.fallbackAppname = l2.fallbackAppname :=
    single (fun l => l.fallbackAppname) "fallback_application_name".data (fun v _ => v)
      (fun _ _ _ hk hb => (rangeBody_frame hb).2.2.2.2.2.2.2.1 hk)
      (fun _ _ _ hb => (rangeBody_set_more hb).2.2 rfl)
  have ecert : l1.clientCert = l2.clientCert :=
    single (fun l => l.clientCert) "sslcert".data (fun v _ => v)
      (fun _ _ _ hk hb => (rangeBody_frame hb).2.2.2.2.2.2.2.2.2.1 hk)
      (fun _ _ _ hb => (rangeBody_set_ssl hb).2.1 rfl)
  have ekey : l1.clientKey = l2.clientKey :=
    single (fun l => l.clientKey) "sslkey".data (fun v _ => v)
      (fun _ _ _ hk hb => (rangeBody_frame hb).2.2.2.2.2.2.2.2.2.2 hk)
      (fun _ _ _ hb => (rangeBody_set_ssl hb).2.2 rfl)
  have erest : (l1.options.Network, l1.options.Addr, l1.options.TLSConfig) =
      (l2.options.Network, l2.options.Addr, l2.options.TLSConfig) := by
    have hfr : ∀ (l : Locals) (kv : Str × Str) (l' : Locals), ¬ False →
        rangeBody l kv = Except.ok l' →
        (l'.options.Network, l'.options.Addr, l'.options.TLSConfig) =
          (l.options.Network, l.options.Addr, l.options.TLSConfig) := by
      intro l kv l' _ hb
      obtain ⟨e1, e2, e3⟩ := rangeBody_frame_options hb
      rw [e1, e2, e3]
    rw [rangeLoop_frame _ (fun _ => False) hfr ps l l1 (fun _ _ hc => hc) h1,
      rangeLoop_frame _ (fun _ => False) hfr qs l l2 (fun _ _ hc => hc) h2]
  have es1 : l1.tlsconfig = l2.tlsconfig := congrArg (fun x => x.1) essl
  have es2 : l1.sslNeedsHostname = l2.sslNeedsHostname := congrArg (fun x => x.2.1) essl
  have es3 : l1.hasSSLConfig = l2.hasSSLConfig := congrArg (fun x => x.2.2.1) essl
  have es4 : l1.sslEnabled = l2.sslEnabled := congrArg (fun x => x.2.2.2) essl
  have er1 : l1.options.Network = l2.options.Network := congrArg (fun x => x.1) erest
  have er2 : l1.options.Addr = l2.options.Addr := congrArg (fun x => x.2.1) erest
  have er3 : l1.options.TLSConfig = l2.options.TLSConfig := congrArg (fun x => x.2.2) erest
  clear single h1 h2 essl erest
  obtain ⟨⟨n1, a1, u1, p1, d1, an1, dt1, t1⟩, ho1, po1, fb1, cc1, ck1, nh1, hc1, tc1, se1⟩ := l1
  obtain ⟨⟨n2, a2, u2, p2, d2, an2, dt2, t2⟩, ho2, po2, fb2, cc2, ck2, nh2, hc2, tc2, se2⟩ := l2
  dsimp only at ehost eport edb euser epw edt eapp efb ecert ekey es1 es2 es3 es4 er1 er2 er3
  subst ehost eport edb euser epw edt eapp efb ecert ekey es1 es2 es3 es4 er1 er2 er3
  rfl

/-- The loop over the same entries in another order, when no two entries
write the same variable: it runs through in both orders or in neither, and
ends in the same state. -/
theorem rangeLoop_perm (ps qs : List (Str × Str)) (l : Locals) (hperm : ps.Perm qs)
    (hnd : (ps.map Prod.fst).Nodup)
    (hhost : ¬ ((∃ v, ("host".data, v) ∈ ps) ∧ ∃ v, ("hostaddr".data, v) ∈ ps))
    (hssl : ¬ ((∃ v, ("sslmode".data, v) ∈ ps) ∧ ∃ v, ("requiressl".data, v) ∈ ps)) :
    (rangeLoop l ps).toOption = (rangeLoop l qs).toOption := by
  have hmem : ∀ kv, kv ∈ ps ↔ kv ∈ qs := fun _ => hperm.mem_iff
  have hnd2 : (qs.map Prod.fst).Nodup := ((hperm.map Prod.fst).nodup_iff).mp hnd
  cases h1 : rangeLoop l ps with
  | ok l1 =>
    obtain ⟨l2, h2⟩ := rangeLoop_ok_of_forall qs l
      (fun kv hkv => rangeLoop_steps_ok ps l l1 h1 kv ((hmem kv).mpr hkv))
    rw [h2, rangeLoop_perm_eq ps qs l l1 l2 hmem hnd hnd2 hhost hssl h1 h2]
  | error e1 =>
    cases h2 : rangeLoop l qs with
    | error e2 => rfl
    | ok l2 =>
      obtain ⟨l1, h3⟩ := rangeLoop_ok_of_forall ps l
        (fun kv hkv => rangeLoop_steps_ok qs l l2 h2 kv ((hmem kv).mp hkv))
      rw [h3] at h1
      cases h1

/-- The assignment of a key that the map does not hold enters one more
entry. -/
theorem Params.set_of_not_has (k v : Str) : ∀ (m : Params), Params.has m k = false →
    Params.set k v m = m ++ [(k, v)] := by
  intro m
  induction m with
  | nil => intro _; rfl
  | cons p m ih =>
    intro h
    obtain ⟨k1, v1⟩ := p
    have hne : ¬ k1 = k := by
      intro hc
      have : Params.has ((k1, v1) :: m) k = true := by
        rw [Params.has_iff]
        exact ⟨v1, by rw [hc]; exact List.mem_cons_self _ _⟩
      rw [this] at h
      cases h
    have hm : Params.has m k = false := by
      cases hh : Params.has m k with
      | false => rfl
      | true =>
        obtain ⟨x, hx⟩ := (Params.has_iff m k).mp hh
        have : Params.has ((k1, v1) :: m) k = true := by
          rw [Params.has_iff]
          exact ⟨x, List.mem_cons_of_mem _ hx⟩
        rw [this] at h
        cases h
    simp only [Params.set, if_neg hne, ih hm, List.cons_append]

theorem oddWorld_perm : oddWorld.RangeIsPerm := by
  intro m
  show (if m.length = 3 then m.reverse else m).Perm m
  split
  · exact List.reverse_perm m
  · exact List.Perm.refl m

/-! ## C11: SSL settings from the parameters and from the environment -/

/-- The TLS posture of a successful resolution whose SSL variables, after the
environment was consulted, are those that the mode `m` gives. -/
theorem posture_of_effect {w : World} {l l1 : Locals} {o : Options} {m : Str}
    (hr : resolve w l = Except.ok o) (hssl : envSSL w l = Except.ok l1)
    (hs : sslState l1 = sslModeEffect m ({}, false, false, false)) : specPosture m o := by
  obtain ⟨port, l2, dt, _, hssl2, _, ha⟩ := resolve_ok_inv hr
  rw [hssl] at hssl2
  injection hssl2 with hssl2
  subst hssl2
  have hT := attachTLS_ok_inv ha
  have hnet : o.Network =
      (if (decide (resolvedHost w l ≠ [] ∧ strings.HasPrefix (resolvedHost w l) ['/'] = true))
        = true then "unix".data else "tcp".data) := by
    obtain ⟨port2, dt2, _, _, hN, _⟩ := resolve_ok_fields hr
    rw [hN]
    rfl
  have haddr : ∃ p : Int, o.Addr =
      (if (decide (resolvedHost w l ≠ [] ∧ strings.HasPrefix (resolvedHost w l) ['/'] = true))
        = true then
        (if resolvedHost w l = [] then "localhost".data else resolvedHost w l) ++
          "/.s.PGSQL.".data ++ fmt.formatInt p
      else (if resolvedHost w l = [] then "localhost".data else resolvedHost w l) ++
          ":".data ++ fmt.formatInt p) := by
    obtain ⟨port2, dt2, _, _, _, hA, _⟩ := resolve_ok_fields hr
    exact ⟨if port2 = 0 then 5432 else port2, by rw [hA]; rfl⟩
  refine ⟨?_, ?_, ?_, ?_⟩
  · intro hmd
    subst hmd
    have hen : l1.sslEnabled = false := by
      have : (sslState l1).2.2.2 = false := by rw [hs]; rfl
      exact this
    rw [hT.1 hen]
    rfl
  · intro hmf
    have hst : sslState l1 = ({ InsecureSkipVerify := true }, false, true, true) := by
      rw [hs]
      simp only [List.mem_cons, List.mem_singleton, List.not_mem_nil, or_false] at hmf
      rcases hmf with rfl | rfl | rfl | rfl <;> rfl
    have hen : l1.sslEnabled = true := congrArg (fun x => x.2.2.2) hst
    have hnh : l1.sslNeedsHostname = false := congrArg (fun x => x.2.1) hst
    have htc : l1.tlsconfig = { InsecureSkipVerify := true } := congrArg (fun x => x.1) hst
    obtain ⟨tls, ho, h1, h2⟩ := hT.2 hen
    refine ⟨tls, by rw [ho], ?_, ?_⟩
    · rw [h1, hnh, htc]
      simp
    · rw [h2, hnh, htc]
      simp
  · intro hmv htcp
    subst hmv
    have hst : sslState l1 = ({ InsecureSkipVerify := false }, true, true, true) := by
      rw [hs]
      rfl
    have hen : l1.sslEnabled = true := congrArg (fun x => x.2.2.2) hst
    have hnh : l1.sslNeedsHostname = true := congrArg (fun x => x.2.1) hst
    have htc : l1.tlsconfig = { InsecureSkipVerify := false } := congrArg (fun x => x.1) hst
    have hsock : (decide (resolvedHost w l ≠ [] ∧
        strings.HasPrefix (resolvedHost w l) ['/'] = true)) = false := by
      cases hc : (decide (resolvedHost w l ≠ [] ∧
        strings.HasPrefix (resolvedHost w l) ['/'] = true)) with
      | false => rfl
      | true =>
        rw [hnet, hc] at htcp
        simp at htcp
    obtain ⟨tls, ho, h1, h2⟩ := hT.2 hen
    obtain ⟨p, hp2⟩ := haddr
    refine ⟨tls, by rw [ho], ?_, p, ?_⟩
    · rw [h1, hnh, htc, hsock]
      simp
    · rw [hp2, h2, hnh, hsock]
      simp
  · intro hmv hunix
    subst hmv
    have hst : sslState l1 = ({ InsecureSkipVerify := false }, true, true, true) := by
      rw [hs]
      rfl
    have hen : l1.sslEnabled = true := congrArg (fun x => x.2.2.2) hst
    have hnh : l1.sslNeedsHostname = true := congrArg (fun x => x.2.1) hst
    have htc : l1.tlsconfig = { InsecureSkipVerify := false } := congrArg (fun x => x.1) hst
    have hsock : (decide (resolvedHost w l ≠ [] ∧
        strings.HasPrefix (resolvedHost w l) ['/'] = true)) = true := by
      cases hc : (decide (resolvedHost w l ≠ [] ∧
        strings.HasPrefix (resolvedHost w l) ['/'] = true)) with
      | true => rfl
      | false =>
        rw [hnet, hc] at hunix
        simp at hunix
    obtain ⟨tls, ho, h1, h2⟩ := hT.2 hen
    refine ⟨tls, by rw [ho], ?_, ?_⟩
    · rw [h1, hnh, hsock]
      simp
    · rw [h2, hnh, htc, hsock]
      simp

/-- Two worlds that agree except on some environment variables agree on every
other variable. -/
theorem World.AgreeExcept.getenv {w1 w2 : World} {names : List Str}
    (h : World.AgreeExcept w1 w2 names) (k : Str) (hk : k ∉ names) :
    w1.Getenv k = w2.Getenv k := h.2.2.2 k hk

/-- C11: SSL settings are resolved first-writer-wins.  For every input whose
parameters contain `sslmode` or `requiressl`, the outcome of Parse, and with
it the TLS posture, is the same whatever PGSSLMODE and PGREQUIRESSL hold.
When the parameters contain neither, a non-empty PGSSLMODE is interpreted as
the mode (an unsupported one makes Parse fail); only when PGSSLMODE is empty
does a non-empty PGREQUIRESSL enable TLS with skip-verification; when both
are empty there is no TLS configuration. -/
theorem C11_ssl_first_writer_wins (w : World) (hw : w.RangeIsPerm) (s : Str) (opts : Options)
    (params : Params) (hd : decoded s = Except.ok (opts, params)) :
    ((∃ kv ∈ params, kv.1 = "sslmode".data ∨ kv.1 = "requiressl".data) →
      ∀ w2, World.AgreeExcept w w2 ["PGSSLMODE".data, "PGREQUIRESSL".data] →
        Parse w2 s = Parse w s) ∧
    ((∀ kv ∈ params, ¬ (kv.1 = "sslmode".data ∨ kv.1 = "requiressl".data)) →
      (w.Getenv "PGSSLMODE".data ≠ [] →
        (w.Getenv "PGSSLMODE".data ∉ supportedSSLModes → ∃ e, Parse w s = Except.error e) ∧
        ∀ o, Parse w s = Except.ok o → specPosture (w.Getenv "PGSSLMODE".data) o) ∧
      (w.Getenv "PGSSLMODE".data = [] → w.Getenv "PGREQUIRESSL".data ≠ [] →
        ∀ o, Parse w s = Except.ok o →
          ∃ tls, o.TLSConfig = some tls ∧ tls.InsecureSkipVerify = true ∧
            tls.ServerName = []) ∧
      (w.Getenv "PGSSLMODE".data = [] → w.Getenv "PGREQUIRESSL".data = [] →
        ∀ o, Parse w s = Except.ok o → o.TLSConfig = none)) := by
  have hnd := decoded_nodup hd
  obtain ⟨_, hmem⟩ := rangeOrder_facts hw params hnd
  constructor
  · rintro ⟨kv, hkv, hk⟩ w2 hag
    symm
    apply Parse_congr w w2 s hag.2.2.1
    intro opts1 params1 l hd1 hl
    rw [hd] at hd1
    injection hd1 with hd1
    injection hd1 with e1 e2
    subst e1 e2
    have hcfg : l.hasSSLConfig = true :=
      rangeLoop_hasSSLConfig _ _ _ hl (Or.inr ⟨kv, (hmem kv).mpr hkv, hk⟩)
    apply resolve_congr
    · exact resolvedHost_congr _ _ _ (hag.getenv _ (by decide))
    · exact resolvedPort_congr _ _ _ (hag.getenv _ (by decide))
    · rw [envSSL_of_hasSSLConfig w l hcfg, envSSL_of_hasSSLConfig w2 l hcfg]
    · exact resolvedDialTimeout_congr _ _ _ (hag.getenv _ (by decide))
    · intro k hk2
      apply hag.getenv
      intro hk3
      have : ∀ a ∈ ["PGDATABASE".data, "PGUSER".data, "PGPASSWORD".data, "PGAPPNAME".data,
          "PGSSLCERT".data, "PGSSLKEY".data],
          a ∉ ["PGSSLMODE".data, "PGREQUIRESSL".data] := by decide
      exact this k hk2 hk3
    · exact hag.1
    · exact hag.2.1
  · intro hno
    have hstate : ∀ o, Parse w s = Except.ok o →
        ∃ l, sslState l = ({}, false, false, false) ∧ resolve w l = Except.ok o := by
      intro o hp
      obtain ⟨opts1, params1, l, hd1, hl, hr⟩ := Parse_ok_inv hp
      rw [hd] at hd1
      injection hd1 with hd1
      injection hd1 with e1 e2
      subst e1 e2
      exact ⟨l, rangeLoop_ssl_none _ _ _ (fun kv hkv => hno kv ((hmem kv).mp hkv)) hl, hr⟩
    have hmodeEnv : ∀ l, sslState l = ({}, false, false, false) →
        w.Getenv "PGSSLMODE".data ≠ [] →
        envSSL w l = parseSSLMode l (w.Getenv "PGSSLMODE".data) := by
      intro l hst hm
      have hcfg : l.hasSSLConfig = false := congrArg (fun x => x.2.2.1) hst
      unfold envSSL
      simp [hcfg, hm]
    have hposture : w.Getenv "PGSSLMODE".data ≠ [] → ∀ o, Parse w s = Except.ok o →
        w.Getenv "PGSSLMODE".data ∈ supportedSSLModes ∧
          specPosture (w.Getenv "PGSSLMODE".data) o := by
      intro hm o hp
      obtain ⟨l, hst, hr⟩ := hstate o hp
      obtain ⟨port, l1, dt, _, hssl, _, _⟩ := resolve_ok_inv hr
      have hps : parseSSLMode l (w.Getenv "PGSSLMODE".data) = Except.ok l1 := by
        rw [← hmodeEnv l hst hm]
        exact hssl
      obtain ⟨hsup, heff⟩ := parseSSLMode_effect hps
      rw [hst] at heff
      exact ⟨hsup, posture_of_effect hr hssl heff⟩
    refine ⟨?_, ?_, ?_⟩
    · intro hm
      constructor
      · intro hbad
        cases hp : Parse w s with
        | error e => exact ⟨e, rfl⟩
        | ok o => exact absurd (hposture hm o hp).1 hbad
      · intro o hp
        exact (hposture hm o hp).2
    · intro hm hreq o hp
      obtain ⟨l, hst, hr⟩ := hstate o hp
      have hcfg : l.hasSSLConfig = false := congrArg (fun x => x.2.2.1) hst
      have htc : l.tlsconfig = {} := congrArg (fun x => x.1) hst
      have hnh : l.sslNeedsHostname = false := congrArg (fun x => x.2.1) hst
      have henv : envSSL w l = Except.ok { l with
          tlsconfig := { l.tlsconfig with InsecureSkipVerify := true }
          hasSSLConfig := true
          sslEnabled := true } := by
        unfold envSSL
        simp [hcfg, hm, hreq]
      have hpost := posture_of_effect (m := "require".data) hr henv (by
        unfold sslState
        simp only [htc, hnh]
        rfl)
      exact hpost.2.1 (by decide)
    · intro hm hreq o hp
      obtain ⟨l, hst, hr⟩ := hstate o hp
      have hcfg : l.hasSSLConfig = false := congrArg (fun x => x.2.2.1) hst
      have hen : l.sslEnabled = false := congrArg (fun x => x.2.2.2) hst
      have henv : envSSL w l = Except.ok l := by
        unfold envSSL
        simp [hcfg, hm, hreq]
      obtain ⟨port, l1, dt, _, hssl, _, ha⟩ := resolve_ok_inv hr
      rw [henv] at hssl
      injection hssl with hssl
      subst hssl
      rw [(attachTLS_ok_inv ha).1 hen]
      rfl

set_option maxRecDepth 100000 in
/-- Witness of C11: `sslmode=disable` with PGSSLMODE=require gives no TLS, as
without the variable; the empty input with PGSSLMODE=require gives the posture
of `require`. -/
theorem C11_ssl_first_writer_wins_witness :
    Parse exampleWorld "sslmode=disable".data =
        Parse (envWorld "PGSSLMODE".data "require".data) "sslmode=disable".data ∧
      (∃ o, Parse (envWorld "PGSSLMODE".data "require".data) "sslmode=disable".data =
        Except.ok o ∧ o.TLSConfig = none) ∧
      ∃ o, Parse (envWorld "PGSSLMODE".data "require".data) [] = Except.ok o ∧
        specPosture "require".data o :=
  ⟨(C11_ssl_first_writer_wins (envWorld "PGSSLMODE".data "require".data)
      (envWorld_perm _ _) "sslmode=disable".data {} [("sslmode".data, "disable".data)] rfl).1
      ⟨("sslmode".data, "disable".data), by simp, Or.inl rfl⟩ exampleWorld
      (envWorld_agree _ _ _ (by decide)),
    ⟨_, rfl, rfl⟩,
    _, rfl,
    (((C11_ssl_first_writer_wins (envWorld "PGSSLMODE".data "require".data)
      (envWorld_perm _ _) [] {} [] rfl).2 (by simp)).1 (by decide)).2 _ rfl⟩

/-! ## C12: the environment and an explicit port or timeout -/

/-- The resolution in two worlds that agree except on one variable other than
those of the host, the port, the SSL settings and the timeout, when the port
and the timeout resolve alike. -/
theorem resolve_congr_agree {w1 w2 : World} {names : List Str} (l : Locals)
    (hag : World.AgreeExcept w1 w2 names)
    (hnames : ∀ k ∈ names, k = "PGPORT".data ∨ k = "PGCONNECT_TIMEOUT".data)
    (hport : resolvedPort w1 l = resolvedPort w2 l)
    (hdial : resolvedDialTimeout w1 l = resolvedDialTimeout w2 l) :
    resolve w1 l = resolve w2 l := by
  have hother : ∀ k, ¬ k = "PGPORT".data → ¬ k = "PGCONNECT_TIMEOUT".data →
      w1.Getenv k = w2.Getenv k := by
    intro k h1 h2
    apply hag.getenv
    intro hk
    rcases hnames k hk with h | h
    · exact h1 h
    · exact h2 h
  apply resolve_congr w1 w2 l _ hport _ hdial _ hag.1 hag.2.1
  · exact resolvedHost_congr _ _ _ (hother _ (by decide) (by decide))
  · exact envSSL_congr _ _ _ (hother _ (by decide) (by decide))
      (hother _ (by decide) (by decide))
  · intro k hk
    have : ∀ a ∈ ["PGDATABASE".data, "PGUSER".data, "PGPASSWORD".data, "PGAPPNAME".data,
        "PGSSLCERT".data, "PGSSLKEY".data],
        ¬ a = "PGPORT".data ∧ ¬ a = "PGCONNECT_TIMEOUT".data := by decide
    exact hother k (this k hk).1 (this k hk).2

/-- C12, as the code has it: the value 0 stands for "not supplied".  For
every input whose decoded parameters hold `port` with an integer other than
0, the outcome of Parse is the same in any two worlds that differ only in
PGPORT; for every input whose decoded parameters hold `connect_timeout` with
an integer whose duration in nanoseconds, as a 64-bit number, is other than
0, the outcome of Parse is the same in any two worlds that differ only in
PGCONNECT_TIMEOUT.  When the port is absent or explicitly 0 and PGPORT is not
empty, PGPORT is used: Parse fails when PGPORT is not an integer, and on
success the port that ends the address is the integer of PGPORT (5432 for
0).  When the timeout is absent or has a duration of 0 and PGCONNECT_TIMEOUT
is not empty, that variable is used: Parse fails when it is not an integer,
and on success the dial timeout is its number of seconds. -/
theorem C12_env_consulted_iff_zero (w1 w2 : World) (hw : w1.RangeIsPerm) (s : Str)
    (opts : Options) (params : Params) (hd : decoded s = Except.ok (opts, params)) :
    (∀ v p, ("port".data, v) ∈ params → strconv.Atoi v = some p → p ≠ 0 →
      World.AgreeExcept w1 w2 ["PGPORT".data] → Parse w1 s = Parse w2 s) ∧
    (∀ v t, ("connect_timeout".data, v) ∈ params → strconv.Atoi v = some t →
      wrapInt64 (t * 1000000000) ≠ 0 →
      World.AgreeExcept w1 w2 ["PGCONNECT_TIMEOUT".data] → Parse w1 s = Parse w2 s) ∧
    ((∀ v, ("port".data, v) ∈ params → strconv.Atoi v = some 0) →
      w1.Getenv "PGPORT".data ≠ [] →
      (strconv.Atoi (w1.Getenv "PGPORT".data) = none → ∃ e, Parse w1 s = Except.error e) ∧
      ∀ q o, strconv.Atoi (w1.Getenv "PGPORT".data) = some q → Parse w1 s = Except.ok o →
        addrPort o = some (if q = 0 then 5432 else q)) ∧
    ((∀ v t, ("connect_timeout".data, v) ∈ params → strconv.Atoi v = some t →
        wrapInt64 (t * 1000000000) = 0) →
      w1.Getenv "PGCONNECT_TIMEOUT".data ≠ [] →
      (strconv.Atoi (w1.Getenv "PGCONNECT_TIMEOUT".data) = none →
        ∃ e, Parse w1 s = Except.error e) ∧
      ∀ q o, strconv.Atoi (w1.Getenv "PGCONNECT_TIMEOUT".data) = some q →
        Parse w1 s = Except.ok o → o.DialTimeout = wrapInt64 (q * 1000000000)) := by
  have hnd := decoded_nodup hd
  obtain ⟨hnd2, hmem⟩ := rangeOrder_facts hw params hnd
  refine ⟨?_, ?_, ?_, ?_⟩
  · intro v p hv hp hp0 hag
    apply Parse_congr w1 w2 s hag.2.2.1
    intro opts1 params1 l hd1 hl
    rw [hd] at hd1
    injection hd1 with hd1
    injection hd1 with e1 e2
    subst e1 e2
    have hlp : l.port = p := by
      have := (rangeLoop_port _ _ _ hnd2 hl).1 v ((hmem _).mpr hv)
      rw [hp] at this
      exact (Option.some.inj this).symm
    have hne : ¬ l.port = 0 := by rw [hlp]; exact hp0
    apply resolve_congr_agree l hag (by simp)
    · unfold resolvedPort
      rw [if_neg (fun h => hne h.1), if_neg (fun h => hne h.1)]
    · exact resolvedDialTimeout_congr _ _ _ (hag.getenv _ (by decide))
  · intro v t hv ht ht0 hag
    apply Parse_congr w1 w2 s hag.2.2.1
    intro opts1 params1 l hd1 hl
    rw [hd] at hd1
    injection hd1 with hd1
    injection hd1 with e1 e2
    subst e1 e2
    have hlt : l.options.DialTimeout = wrapInt64 (t * 1000000000) := by
      have := (rangeLoop_dialTimeout _ _ _ hnd2 hl).1 v ((hmem _).mpr hv)
      rw [ht] at this
      exact (Option.some.inj this).symm
    have hne : ¬ l.options.DialTimeout = 0 := by rw [hlt]; exact ht0
    apply resolve_congr_agree l hag (by simp)
    · exact resolvedPort_congr _ _ _ (hag.getenv _ (by decide))
    · unfold resolvedDialTimeout
      rw [if_neg (fun h => hne h.1), if_neg (fun h => hne h.1)]
  · intro hzero henv
    have hres : ∀ o, Parse w1 s = Except.ok o →
        ∃ l port, strconv.Atoi (w1.Getenv "PGPORT".data) = some port ∧
          (o.Network, o.Addr) = specAddress (resolvedHost w1 l) port := by
      intro o hp
      obtain ⟨opts1, params1, l, hd1, hl, hr⟩ := Parse_ok_inv hp
      rw [hd] at hd1
      injection hd1 with hd1
      injection hd1 with e1 e2
      subst e1 e2
      have hloop := rangeLoop_port _ _ _ hnd2 hl
      have hl0 : l.port = 0 := by
        by_cases hex : ∃ v, ("port".data, v) ∈ params
        · obtain ⟨v, hv⟩ := hex
          have h1 := hloop.1 v ((hmem _).mpr hv)
          rw [hzero v hv] at h1
          exact (Option.some.inj h1).symm
        · exact hloop.2 (fun v hv => hex ⟨v, (hmem _).mp hv⟩)
      obtain ⟨port, dt, hport, _, hN, hA, _⟩ := resolve_ok_fields hr
      unfold resolvedPort at hport
      rw [if_pos ⟨hl0, henv⟩] at hport
      refine ⟨l, port, hport, ?_⟩
      rw [hN, hA]
      exact assemble_address w1 l _ port dt
    constructor
    · intro hbad
      cases hP : Parse w1 s with
      | error e => exact ⟨e, rfl⟩
      | ok o =>
        obtain ⟨l, port, hport, _⟩ := hres o hP
        rw [hbad] at hport
        cases hport
    · intro q o hq hP
      obtain ⟨l, port, hport, haddr⟩ := hres o hP
      rw [hq] at hport
      have hqp : q = port := Option.some.inj hport
      subst hqp
      exact addrPort_specAddress o _ q haddr (Atoi_range hq).1 (Atoi_range hq).2
  · intro hzero henv
    have hres : ∀ o, Parse w1 s = Except.ok o →
        (strconv.Atoi (w1.Getenv "PGCONNECT_TIMEOUT".data)).map
          (fun timeout => wrapInt64 (timeout * 1000000000)) = some o.DialTimeout := by
      intro o hp
      obtain ⟨opts1, params1, l, hd1, hl, hr⟩ := Parse_ok_inv hp
      rw [hd] at hd1
      injection hd1 with hd1
      injection hd1 with e1 e2
      subst e1 e2
      have hloop := rangeLoop_dialTimeout _ _ _ hnd2 hl
      have hl0 : l.options.DialTimeout = 0 := by
        by_cases hex : ∃ v, ("connect_timeout".data, v) ∈ params
        · obtain ⟨v, hv⟩ := hex
          have h1 := hloop.1 v ((hmem _).mpr hv)
          cases ht : strconv.Atoi v with
          | none =>
            rw [ht] at h1
            cases h1
          | some t =>
            rw [ht] at h1
            have h2 : wrapInt64 (t * 1000000000) = l.options.DialTimeout :=
              Option.some.inj h1
            rw [← h2]
            exact hzero v t hv ht
        · rw [hloop.2 (fun v hv => hex ⟨v, (hmem _).mp hv⟩)]
          exact (decoded_options hd).2.1
      obtain ⟨port, dt, _, hdial, _, _, _, _, _, _, hDT⟩ := resolve_ok_fields hr
      unfold resolvedDialTimeout at hdial
      rw [if_pos ⟨hl0, henv⟩] at hdial
      rw [hDT]
      exact hdial
    constructor
    · intro hbad
      cases hP : Parse w1 s with
      | error e => exact ⟨e, rfl⟩
      | ok o =>
        have h := hres o hP
        rw [hbad] at h
        cases h
    · intro q o hq hP
      have h := hres o hP
      rw [hq] at h
      exact (Option.some.inj h).symm

set_option maxRecDepth 100000 in
/-- C12 at `port=6000` with an unparsable PGPORT and at `connect_timeout=3`
with an unparsable PGCONNECT_TIMEOUT: the outcome is that of the world with
no variable set; at `port=0` with PGPORT=x and at `connect_timeout=0` with
PGCONNECT_TIMEOUT=x Parse fails; at `connect_timeout=0` with
PGCONNECT_TIMEOUT=7 the dial timeout is seven seconds. -/
theorem C12_env_consulted_iff_zero_witness :
    Parse (envWorld "PGPORT".data "x".data) "port=6000".data =
        Parse exampleWorld "port=6000".data ∧
      Parse (envWorld "PGCONNECT_TIMEOUT".data "x".data) "connect_timeout=3".data =
        Parse exampleWorld "connect_timeout=3".data ∧
      (∃ e, Parse (envWorld "PGPORT".data "x".data) "port=0".data = Except.error e) ∧
      (∃ e, Parse (envWorld "PGCONNECT_TIMEOUT".data "x".data) "connect_timeout=0".data =
        Except.error e) ∧
      ∀ o, Parse (envWorld "PGCONNECT_TIMEOUT".data "7".data) "connect_timeout=0".data =
        Except.ok o → o.DialTimeout = wrapInt64 (7 * 1000000000) :=
  ⟨(C12_env_consulted_iff_zero (envWorld "PGPORT".data "x".data) exampleWorld
      (envWorld_perm _ _) "port=6000".data {} [("port".data, "6000".data)] rfl).1
      "6000".data 6000 (by simp) rfl (by decide) (envWorld_agree _ _ _ (by decide)),
   (C12_env_consulted_iff_zero (envWorld "PGCONNECT_TIMEOUT".data "x".data) exampleWorld
      (envWorld_perm _ _) "connect_timeout=3".data {}
      [("connect_timeout".data, "3".data)] rfl).2.1
      "3".data 3 (by simp) rfl (by decide) (envWorld_agree _ _ _ (by decide)),
   ((C12_env_consulted_iff_zero (envWorld "PGPORT".data "x".data) exampleWorld
      (envWorld_perm _ _) "port=0".data {} [("port".data, "0".data)] rfl).2.2.1
      (by
        intro v hv
        simp only [List.mem_singleton, Prod.mk.injEq] at hv
        rw [hv.2]
        rfl)
      (by decide)).1 rfl,
   ((C12_env_consulted_iff_zero (envWorld "PGCONNECT_TIMEOUT".data "x".data) exampleWorld
      (envWorld_perm _ _) "connect_timeout=0".data {}
      [("connect_timeout".data, "0".data)] rfl).2.2.2
      (by
        intro v t hv ht
        simp only [List.mem_singleton, Prod.mk.injEq] at hv
        rw [hv.2] at ht
        have h0 : t = 0 := (Option.some.inj ht).symm
        rw [h0]
        rfl)
      (by decide)).1 rfl,
   fun o ho => ((C12_env_consulted_iff_zero (envWorld "PGCONNECT_TIMEOUT".data "7".data)
      exampleWorld (envWorld_perm _ _) "connect_timeout=0".data {}
      [("connect_timeout".data, "0".data)] rfl).2.2.2
      (by
        intro v t hv ht
        simp only [List.mem_singleton, Prod.mk.injEq] at hv
        rw [hv.2] at ht
        have h0 : t = 0 := (Option.some.inj ht).symm
        rw [h0]
        rfl)
      (by decide)).2 7 o rfl ho⟩

set_option maxRecDepth 100000 in
/-- C12 as stated fails at the explicit value 0.  The input `port=0` supplies
the port with a valid integer, and its outcome follows PGPORT: address
`localhost:5432` with PGPORT unset, `localhost:6000` with PGPORT=6000, and a
failure with PGPORT=x.  The input `connect_timeout=0` gives the dial timeout
of PGCONNECT_TIMEOUT=7, seven seconds, and fails with PGCONNECT_TIMEOUT=x. -/
theorem C12_explicit_zero_counterexample :
    World.AgreeExcept (envWorld "PGPORT".data "6000".data) exampleWorld ["PGPORT".data] ∧
    Parse (envWorld "PGPORT".data "6000".data) "port=0".data ≠
      Parse exampleWorld "port=0".data ∧
    strconv.Atoi "0".data = some 0 ∧
    decoded "port=0".data = Except.ok ({}, [("port".data, "0".data)]) ∧
    (Parse exampleWorld "port=0".data).toOption.map (fun o => o.Addr) =
      some "localhost:5432".data ∧
    (Parse (envWorld "PGPORT".data "6000".data) "port=0".data).toOption.map (fun o => o.Addr) =
      some "localhost:6000".data ∧
    Parse (envWorld "PGPORT".data "x".data) "port=0".data = Except.error Error.envPortParse ∧
    decoded "connect_timeout=0".data =
      Except.ok ({}, [("connect_timeout".data, "0".data)]) ∧
    (Parse exampleWorld "connect_timeout=0".data).toOption.map (fun o => o.DialTimeout) =
      some 0 ∧
    (Parse (envWorld "PGCONNECT_TIMEOUT".data "7".data) "connect_timeout=0".data).toOption.map
      (fun o => o.DialTimeout) = some 7000000000 ∧
    Parse (envWorld "PGCONNECT_TIMEOUT".data "x".data) "connect_timeout=0".data =
      Except.error Error.envConnectTimeoutParse :=
  ⟨envWorld_agree _ _ _ (by decide),
    fun h => absurd
      (show (some "localhost:6000".data : Option Str) = some "localhost:5432".data from
        congrArg (fun (r : Except Error Options) => Option.map Options.Addr r.toOption) h)
      (by decide),
    rfl, rfl, rfl, rfl, rfl, rfl, rfl, rfl, rfl⟩

/-! ## C13: the password and PGPASSWORD -/

/-- The resolution in two worlds that differ only in PGPASSWORD, after a loop
that left a password. -/
theorem resolve_congr_password {w1 w2 : World} (l : Locals)
    (hag : World.AgreeExcept w1 w2 ["PGPASSWORD".data]) (hpw : l.options.Password ≠ []) :
    resolve w1 l = resolve w2 l := by
  have e : ∀ k, ¬ k = "PGPASSWORD".data → w1.Getenv k = w2.Getenv k :=
    fun k hk => hag.getenv k (by simpa using hk)
  have e1 : w1.Getenv "PGDATABASE".data = w2.Getenv "PGDATABASE".data := e _ (by decide)
  have e2 : w1.Getenv "PGUSER".data = w2.Getenv "PGUSER".data := e _ (by decide)
  have e4 : w1.Getenv "PGAPPNAME".data = w2.Getenv "PGAPPNAME".data := e _ (by decide)
  have e5 : w1.Getenv "PGSSLCERT".data = w2.Getenv "PGSSLCERT".data := e _ (by decide)
  have e6 : w1.Getenv "PGSSLKEY".data = w2.Getenv "PGSSLKEY".data := e _ (by decide)
  have ha : ∀ h p d, assemble w1 l h p d = assemble w2 l h p d := by
    intro h p d
    unfold assemble
    rw [e1, e2, e4, hag.1, if_neg hpw, if_neg hpw]
  have ht : ∀ l1 b h o, attachTLS w1 l1 b h o = attachTLS w2 l1 b h o := by
    intro l1 b h o
    unfold attachTLS
    rw [e5, e6, hag.2.1]
  unfold resolve
  rw [resolvedPort_congr w1 w2 l (e _ (by decide)),
    envSSL_congr w1 w2 l (e _ (by decide)) (e _ (by decide)),
    resolvedDialTimeout_congr w1 w2 l (e _ (by decide)),
    resolvedHost_congr w1 w2 l (e _ (by decide))]
  simp only [ha, ht]

/-- C13, as the code has it: an empty password stands for "not supplied".
The explicit password of an input is the `password` parameter, otherwise the
password of the userinfo of the URI (for an input with a URI prefix the
options handed to `parseParameters` hold exactly that password).  When the
explicit password is not empty, the outcome of Parse is the same in any two
worlds that differ only in PGPASSWORD, and on success the password is the
explicit one.  When it is empty, also because the URI wrote `user:` with
nothing after the colon, the password on success is what PGPASSWORD holds. -/
theorem C13_password_env_iff_empty (w : World) (hw : w.RangeIsPerm) (s : Str)
    (opts : Options) (params : Params) (hd : decoded s = Except.ok (opts, params)) :
    ((strings.HasPrefix s "postgresql://".data ∨ strings.HasPrefix s "postgres://".data) →
      ∃ uri, url.Parse (rebuildURI s) = some uri ∧
        opts.Password = (url.Password uri.User).1) ∧
    (explicitValue "password".data opts.Password params ≠ [] →
      (∀ w2, World.AgreeExcept w w2 ["PGPASSWORD".data] → Parse w s = Parse w2 s) ∧
      ∀ o, Parse w s = Except.ok o →
        o.Password = explicitValue "password".data opts.Password params) ∧
    (explicitValue "password".data opts.Password params = [] →
      ∀ o, Parse w s = Except.ok o → o.Password = w.Getenv "PGPASSWORD".data) := by
  have hnd := decoded_nodup hd
  obtain ⟨hnd2, hmem⟩ := rangeOrder_facts hw params hnd
  have hloop : ∀ l, rangeLoop { options := opts } (w.rangeOrder params) = Except.ok l →
      l.options.Password = explicitValue "password".data opts.Password params := by
    intro l hl
    obtain ⟨h1, h2⟩ := rangeLoop_password _ _ _ hnd2 hl
    exact explicitValue_eq hnd hmem h1 h2
  have hfield : ∀ o, Parse w s = Except.ok o →
      o.Password = (if explicitValue "password".data opts.Password params = [] then
        w.Getenv "PGPASSWORD".data
        else explicitValue "password".data opts.Password params) := by
    intro o hp
    obtain ⟨opts1, params1, l, hd1, hl, hr⟩ := Parse_ok_inv hp
    rw [hd] at hd1
    injection hd1 with hd1
    injection hd1 with e1 e2
    subst e1 e2
    obtain ⟨port, dt, _, _, _, _, _, hP, _⟩ := resolve_ok_fields hr
    rw [hP, ← hloop l hl]
    rfl
  refine ⟨?_, ?_, ?_⟩
  · intro huri
    unfold decoded at hd
    rw [if_pos huri] at hd
    obtain ⟨uri, q, hu, _, _, ho, _⟩ := uriParameters_ok_inv hd
    exact ⟨uri, hu, by rw [ho]; rfl⟩
  · intro hne
    constructor
    · intro w2 hag
      apply Parse_congr w w2 s hag.2.2.1
      intro opts1 params1 l hd1 hl
      rw [hd] at hd1
      injection hd1 with hd1
      injection hd1 with e1 e2
      subst e1 e2
      exact resolve_congr_password l hag (by rw [hloop l hl]; exact hne)
    · intro o hp
      rw [hfield o hp, if_neg hne]
  · intro he o hp
    rw [hfield o hp, if_pos he]

set_option maxRecDepth 100000 in
/-- C13 at `postgresql://user:pw@host` with PGPASSWORD=secret: the outcome is
that of the world with no variable set, and the password is `pw`. -/
theorem C13_password_env_iff_empty_witness :
    Parse (envWorld "PGPASSWORD".data "secret".data) "postgresql://user:pw@host".data =
        Parse exampleWorld "postgresql://user:pw@host".data ∧
      ∀ o, Parse (envWorld "PGPASSWORD".data "secret".data) "postgresql://user:pw@host".data =
        Except.ok o → o.Password = "pw".data :=
  ⟨((C13_password_env_iff_empty (envWorld "PGPASSWORD".data "secret".data) (envWorld_perm _ _)
      "postgresql://user:pw@host".data
      { User := "user".data, Password := "pw".data } [("host".data, "host".data)] rfl).2.1
      (by decide)).1 exampleWorld (envWorld_agree _ _ _ (by decide)),
   ((C13_password_env_iff_empty (envWorld "PGPASSWORD".data "secret".data) (envWorld_perm _ _)
      "postgresql://user:pw@host".data
      { User := "user".data, Password := "pw".data } [("host".data, "host".data)] rfl).2.1
      (by decide)).2⟩

set_option maxRecDepth 100000 in
/-- C13 as stated fails at its own example.  In `postgresql://user:@host` the
userinfo has a password, the empty string (`url.Parse` records that it is
set), and with PGPASSWORD=secret the resolved password is `secret`, not the
empty one written in the URI. -/
theorem C13_empty_password_counterexample :
    (url.Parse (rebuildURI "postgresql://user:@host".data)).map (fun u => u.User) =
      some (some { username := "user".data, password := [], passwordSet := true }) ∧
    (Parse (envWorld "PGPASSWORD".data "secret".data) "postgresql://user:@host".data).toOption.map
      (fun o => o.Password) = some "secret".data ∧
    (Parse exampleWorld "postgresql://user:@host".data).toOption.map
      (fun o => o.Password) = some [] :=
  ⟨rfl, rfl, rfl⟩

/-! ## C14: the accepted and ignored parameters -/

/-- The outcome of `parseParameters`, up to the error reported, is fixed by
the outcome of the loop up to the error reported. -/
theorem parseParameters_toOption_congr (w : World) (opts : Options) (P Q : Params)
    (h : (rangeLoop { options := opts } (w.rangeOrder P)).toOption =
      (rangeLoop { options := opts } (w.rangeOrder Q)).toOption) :
    (parseParameters w opts P).toOption = (parseParameters w opts Q).toOption := by
  unfold parseParameters
  cases h1 : rangeLoop { options := opts } (w.rangeOrder P) with
  | error e1 =>
    cases h2 : rangeLoop { options := opts } (w.rangeOrder Q) with
    | error e2 => rfl
    | ok l2 =>
      rw [h1, h2] at h
      cases h
  | ok l1 =>
    cases h2 : rangeLoop { options := opts } (w.rangeOrder Q) with
    | error e2 =>
      rw [h1, h2] at h
      cases h
    | ok l2 =>
      rw [h1, h2] at h
      have e : l1 = l2 := Option.some.inj h
      rw [e]

/-- C14, as the code has it: an accepted and ignored parameter changes
nothing in the state of the loop, but the outcome of the loop can depend on
the order of the visit.  For every parameter set S, every ignored key k and
every non-empty value v: (1) whenever the visit of S with k=v added is the
visit of S with the new entry at some place, `parseParameters` gives the same
failure or the same configuration as on S; (2) when S does not hold k and no
two entries of S write the same variable (not both `host` and `hostaddr`, not
both `sslmode` and `requiressl`), then whatever the two orders of visit,
`parseParameters` on S with k=v added succeeds exactly when it succeeds on S,
with the identical configuration. -/
theorem C14_ignored_parameters_inert (w : World) (opts : Options) (S : Params) (k v : Str)
    (hk : k ∈ ignoredKeys) (hv : v ≠ []) :
    (∀ pre post : List (Str × Str),
      w.rangeOrder (Params.set k v S) = pre ++ (k, v) :: post →
      w.rangeOrder S = pre ++ post →
      parseParameters w opts (Params.set k v S) = parseParameters w opts S) ∧
    (w.RangeIsPerm → (S.map Prod.fst).Nodup → Params.has S k = false → SingleWriter S →
      (parseParameters w opts (Params.set k v S)).toOption =
        (parseParameters w opts S).toOption) := by
  constructor
  · intro pre post hwith hwithout
    unfold parseParameters
    rw [hwith, hwithout, rangeLoop_ignored k v hk hv post pre]
  · intro hw hnd hnew hsw
    apply parseParameters_toOption_congr
    rw [Params.set_of_not_has k v S hnew]
    have hP := hw (S ++ [(k, v)])
    have hQ := hw S
    have hin : (k, v) ∈ w.rangeOrder (S ++ [(k, v)]) :=
      hP.mem_iff.mpr (List.mem_append.mpr (Or.inr (List.mem_singleton.mpr rfl)))
    obtain ⟨pre, post, hPeq⟩ := List.append_of_mem hin
    have hR : (pre ++ post).Perm S := by
      have h1 : ((k, v) :: (pre ++ post)).Perm ((k, v) :: S) := by
        refine (List.perm_middle.symm).trans ?_
        rw [← hPeq]
        exact hP.trans (List.perm_append_singleton (k, v) S)
      exact h1.cons_inv
    have hmemR : ∀ kv, kv ∈ pre ++ post ↔ kv ∈ S := fun _ => hR.mem_iff
    have hndR : ((pre ++ post).map Prod.fst).Nodup :=
      ((hR.map Prod.fst).nodup_iff).mpr hnd
    have hhost : ¬ ((∃ x, ("host".data, x) ∈ pre ++ post) ∧
        ∃ x, ("hostaddr".data, x) ∈ pre ++ post) := by
      rintro ⟨⟨x, hx⟩, ⟨y, hy⟩⟩
      exact hsw.1 ⟨(Params.has_iff S _).mpr ⟨x, (hmemR _).mp hx⟩,
        (Params.has_iff S _).mpr ⟨y, (hmemR _).mp hy⟩⟩
    have hssl : ¬ ((∃ x, ("sslmode".data, x) ∈ pre ++ post) ∧
        ∃ x, ("requiressl".data, x) ∈ pre ++ post) := by
      rintro ⟨⟨x, hx⟩, ⟨y, hy⟩⟩
      exact hsw.2 ⟨(Params.has_iff S _).mpr ⟨x, (hmemR _).mp hx⟩,
        (Params.has_iff S _).mpr ⟨y, (hmemR _).mp hy⟩⟩
    rw [hPeq, rangeLoop_ignored k v hk hv post pre]
    exact rangeLoop_perm (pre ++ post) (w.rangeOrder S) _ (hR.trans hQ.symm) hndR hhost hssl

set_option maxRecDepth 100000 in
/-- C14 at S = host=a, port=6000 with `tty=x` added, in the world that
visits a map of three entries backwards. -/
theorem C14_ignored_parameters_inert_witness :
    parseParameters exampleWorld {}
        [("host".data, "a".data), ("port".data, "6000".data), ("tty".data, "x".data)] =
      parseParameters exampleWorld {} [("host".data, "a".data), ("port".data, "6000".data)] ∧
    (parseParameters oddWorld {}
        [("host".data, "a".data), ("port".data, "6000".data), ("tty".data, "x".data)]).toOption =
      (parseParameters oddWorld {}
        [("host".data, "a".data), ("port".data, "6000".data)]).toOption ∧
    (parseParameters oddWorld {}
        [("host".data, "a".data), ("port".data, "6000".data)]).toOption.map Options.Addr =
      some "a:6000".data :=
  ⟨(C14_ignored_parameters_inert exampleWorld {}
      [("host".data, "a".data), ("port".data, "6000".data)] "tty".data "x".data
      (by decide) (by decide)).1
      [("host".data, "a".data), ("port".data, "6000".data)] [] rfl rfl,
   (C14_ignored_parameters_inert oddWorld {}
      [("host".data, "a".data), ("port".data, "6000".data)] "tty".data "x".data
      (by decide) (by decide)).2 oddWorld_perm (by decide) rfl (by decide),
   rfl⟩

set_option maxRecDepth 100000 in
/-- C14 as stated fails for a parameter set whose outcome depends on the
order of the visit.  In the world that visits a map of three entries
backwards and any other map forwards (each entry exactly once), S = host=a,
hostaddr=b resolves to the address `b:5432`, and S with `tty=x` added
resolves to `a:5432`. -/
theorem C14_visit_order_counterexample :
    oddWorld.RangeIsPerm ∧ "tty".data ∈ ignoredKeys ∧
    Params.has [("host".data, "a".data), ("hostaddr".data, "b".data)] "tty".data = false ∧
    Params.set "tty".data "x".data [("host".data, "a".data), ("hostaddr".data, "b".data)] =
      [("host".data, "a".data), ("hostaddr".data, "b".data), ("tty".data, "x".data)] ∧
    parseParameters oddWorld {} [("host".data, "a".data), ("hostaddr".data, "b".data)] =
      Except.ok
        { Network := "tcp".data, Addr := "b:5432".data, User := "alice".data,
          Database := "alice".data } ∧
    parseParameters oddWorld {}
        (Params.set "tty".data "x".data
          [("host".data, "a".data), ("hostaddr".data, "b".data)]) =
      Except.ok
        { Network := "tcp".data, Addr := "a:5432".data, User := "alice".data,
          Database := "alice".data } :=
  ⟨oddWorld_perm, by decide, rfl, rfl, rfl, rfl⟩

/-! ## C15: the application name -/

/-- C15: on every successful Parse the application name is the
`application_name` parameter when supplied, otherwise PGAPPNAME when it is
not empty, otherwise the `fallback_application_name` parameter when supplied,
otherwise the empty string. -/
theorem C15_application_name (w : World) (hw : w.RangeIsPerm) (s : Str) (o : Options)
    (opts : Options) (params : Params) (hd : decoded s = Except.ok (opts, params))
    (hp : Parse w s = Except.ok o) :
    o.ApplicationName =
        specAppName w (explicitValue "application_name".data [] params)
          (explicitValue "fallback_application_name".data [] params) ∧
      ((∀ v, ("application_name".data, v) ∉ params) → w.Getenv "PGAPPNAME".data = [] →
        (∀ v, ("fallback_application_name".data, v) ∉ params) → o.ApplicationName = []) := by
  have hnd := decoded_nodup hd
  obtain ⟨hnd2, hmem⟩ := rangeOrder_facts hw params hnd
  obtain ⟨opts1, params1, l, hd1, hl, hr⟩ := Parse_ok_inv hp
  rw [hd] at hd1
  injection hd1 with hd1
  injection hd1 with e1 e2
  subst e1 e2
  have hopts := decoded_options hd
  have happ : l.options.ApplicationName = explicitValue "application_name".data [] params := by
    obtain ⟨h1, h2⟩ := rangeLoop_appname _ _ _ hnd2 hl
    exact explicitValue_eq hnd hmem h1 (fun hno => (h2 hno).trans hopts.1)
  have hfb : l.fallbackAppname =
      explicitValue "fallback_application_name".data [] params := by
    obtain ⟨h1, h2⟩ := rangeLoop_fallback _ _ _ hnd2 hl
    exact explicitValue_eq hnd hmem h1 h2
  obtain ⟨port, dt, _, _, _, _, _, _, _, hA, _⟩ := resolve_ok_fields hr
  have hname : o.ApplicationName =
      specAppName w (explicitValue "application_name".data [] params)
        (explicitValue "fallback_application_name".data [] params) := by
    rw [hA, ← happ, ← hfb]
    unfold assemble specAppName
    dsimp only
    by_cases h1 : l.options.ApplicationName = []
    · by_cases h2 : w.Getenv "PGAPPNAME".data = []
      · simp [h1, h2]
      · simp [h1, h2]
    · simp [h1]
  refine ⟨hname, ?_⟩
  intro hno1 henv hno2
  rw [hname, explicitValue_of_not_mem [] hno1, explicitValue_of_not_mem [] hno2]
  unfold specAppName
  simp [henv]

set_option maxRecDepth 100000 in
/-- C15 with PGAPPNAME=envapp: `fallback_application_name=fb` alone gives
`envapp`. -/
theorem C15_application_name_witness :
    ∃ o, Parse (envWorld "PGAPPNAME".data "envapp".data)
        "fallback_application_name=fb".data = Except.ok o ∧
      o.ApplicationName = "envapp".data :=
  ⟨_, rfl, (C15_application_name (envWorld "PGAPPNAME".data "envapp".data) (envWorld_perm _ _)
    "fallback_application_name=fb".data _ {}
    [("fallback_application_name".data, "fb".data)] rfl rfl).1⟩

/-! ## C16 to C20: the split at `@`, the query before the slash, the order of
the visit, the sentinel and the rows of the keyword/value string -/

set_option maxRecDepth 100000 in
/-- C16, the code at `postgresql://a@b%2Fc@host/db`: the authority is split
at its first `@`, so the user part is `a` and the host part `b%2Fc@host`; the
replacement of the encoded slash, meant for the host, is applied to `b%2Fc`,
and since `url.Parse` splits the rebuilt URI at the last `@`, the user name
comes out as `a@bHereWasASlashc`.  The same URI with `%2E` for `%2F` gives
the user `a@b.c`. -/
theorem C16_split_at_first_at_sign :
    rebuildURI "postgresql://a@b%2Fc@host/db".data =
      "postgresql://a@bHereWasASlashc@host/db".data ∧
    Parse exampleWorld "postgresql://a@b%2Fc@host/db".data =
      Except.ok
        { Network := "tcp".data, Addr := "host:5432".data, User := "a@bHereWasASlashc".data,
          Database := "db".data } ∧
    Parse exampleWorld "postgresql://a@b%2Ec@host/db".data =
      Except.ok
        { Network := "tcp".data, Addr := "host:5432".data, User := "a@b.c".data,
          Database := "db".data } :=
  ⟨rfl, rfl, rfl⟩

set_option maxRecDepth 100000 in
/-- C17, the code at the authority `host` and the query `user=a@b`: without
the slash the `@` of the query is taken for the user delimiter, the rebuilt
URI is `postgresql://host?user=a@b/`, and user and database are `a@b/`; with
the slash they are `a@b`.  The pair of the test suite (`otheruser@` before
the query) has the same outcome with and without the slash. -/
theorem C17_query_without_slash_differs :
    rebuildURI "postgresql://host?user=a@b".data = "postgresql://host?user=a@b/".data ∧
    rebuildURI "postgresql://host/?user=a@b".data = "postgresql://host/?user=a@b".data ∧
    Parse exampleWorld "postgresql://host?user=a@b".data =
      Except.ok
        { Network := "tcp".data, Addr := "host:5432".data, User := "a@b/".data,
          Database := "a@b/".data } ∧
    Parse exampleWorld "postgresql://host/?user=a@b".data =
      Except.ok
        { Network := "tcp".data, Addr := "host:5432".data, User := "a@b".data,
          Database := "a@b".data } ∧
    Parse exampleWorld "postgres://otheruser@?host=/no/such/directory".data =
      Parse exampleWorld "postgres://otheruser@/?host=/no/such/directory".data :=
  ⟨rfl, rfl, rfl, rfl, rfl⟩

set_option maxRecDepth 100000 in
/-- C18, the code at `postgresql://example.com?hostaddr=63.1.2.4` and at
`sslmode=disable requiressl=1`, in two worlds that differ only in the order
in which a map is visited (each visits every entry once): the address is
`example.com:5432` in one order and `63.1.2.4:5432` in the other, and the
second input gives a TLS configuration in one order and none in the other. -/
theorem C18_outcome_follows_visit_order :
    exampleWorld.RangeIsPerm ∧ reverseWorld.RangeIsPerm ∧
    reverseWorld.Getenv = exampleWorld.Getenv ∧
    reverseWorld.userCurrent = exampleWorld.userCurrent ∧
    reverseWorld.LoadX509KeyPair = exampleWorld.LoadX509KeyPair ∧
    Parse exampleWorld "postgresql://example.com?hostaddr=63.1.2.4".data =
      Except.ok
        { Network := "tcp".data, Addr := "example.com:5432".data, User := "alice".data,
          Database := "alice".data } ∧
    Parse reverseWorld "postgresql://example.com?hostaddr=63.1.2.4".data =
      Except.ok
        { Network := "tcp".data, Addr := "63.1.2.4:5432".data, User := "alice".data,
          Database := "alice".data } ∧
    Parse exampleWorld "sslmode=disable requiressl=1".data =
      Except.ok
        { Network := "tcp".data, Addr := "localhost:5432".data, User := "alice".data,
          Database := "alice".data, TLSConfig := some { InsecureSkipVerify := true } } ∧
    Parse reverseWorld "sslmode=disable requiressl=1".data =
      Except.ok
        { Network := "tcp".data, Addr := "localhost:5432".data, User := "alice".data,
          Database := "alice".data } :=
  ⟨exampleWorld_perm, reverseWorld_perm, rfl, rfl, rfl, rfl, rfl, rfl, rfl⟩

set_option maxRecDepth 100000 in
/-- C19, the code at `postgresql://HereWasASlash/` with no variable set: the
host is made of ASCII letters only, yet the restoration of the sentinel makes
it `/`, so that the network is `unix` and the address `//.s.PGSQL.5432`; at
`postgresql://xHereWasASlashy/` the address is `x/y:5432`. -/
theorem C19_sentinel_in_plain_host :
    AlnumStr "HereWasASlash".data ∧ "HereWasASlash".data ≠ [] ∧
    Parse exampleWorld "postgresql://HereWasASlash/".data =
      Except.ok
        { Network := "unix".data, Addr := "//.s.PGSQL.5432".data, User := "alice".data,
          Database := "alice".data } ∧
    Parse exampleWorld "postgresql://xHereWasASlashy/".data =
      Except.ok
        { Network := "tcp".data, Addr := "x/y:5432".data, User := "alice".data,
          Database := "alice".data } :=
  ⟨by decide, by decide, rfl, rfl⟩

set_option maxRecDepth 100000 in
/-- C20, the code at `host=a`, a line feed, `zzz=1`: the reader returns two
rows and only the first is entered into the parameters, so that Parse
succeeds with the address `a:5432`; the same two tokens on one line are
rejected for the unknown key. -/
theorem C20_tokens_after_line_break_dropped :
    csv.ReadAll ("host=a".data ++ [csv.LF] ++ "zzz=1".data) =
      Except.ok [["host=a".data], ["zzz=1".data]] ∧
    decoded ("host=a".data ++ [csv.LF] ++ "zzz=1".data) =
      Except.ok ({}, [("host".data, "a".data)]) ∧
    Parse exampleWorld ("host=a".data ++ [csv.LF] ++ "zzz=1".data) =
      Except.ok
        { Network := "tcp".data, Addr := "a:5432".data, User := "alice".data,
          Database := "alice".data } ∧
    Parse exampleWorld "host=a zzz=1".data = Except.error Error.invalidParameter :=
  ⟨rfl, rfl, rfl, rfl⟩

/-! ## C21: the port that ends the address -/

/-- C21, as the code has it: the port is never checked against a range.  On
every successful Parse the port that ends the address is an integer n other
than 0 in the range of a 64 bit `int`: the integer e of the `port` parameter
when there is one and it is not 0, otherwise the integer in PGPORT when that
variable is not empty and its integer is not 0, otherwise 5432.  So n is
between 1 and 65535 exactly when the integer supplied is (or none is
supplied, or it is 0). -/
theorem C21_port_is_the_supplied_integer (w : World) (hw : w.RangeIsPerm) (s : Str)
    (opts o : Options) (params : Params) (hd : decoded s = Except.ok (opts, params))
    (hp : Parse w s = Except.ok o) :
    ∃ e p n : Int,
      (∀ v, ("port".data, v) ∈ params → strconv.Atoi v = some e) ∧
      ((∀ v, ("port".data, v) ∉ params) → e = 0) ∧
      specPort w e = some p ∧
      addrPort o = some n ∧ n = (if p = 0 then 5432 else p) ∧ n ≠ 0 ∧
      -9223372036854775808 ≤ n ∧ n ≤ 9223372036854775807 ∧
      ((1 ≤ n ∧ n ≤ 65535) ↔ (p = 0 ∨ (1 ≤ p ∧ p ≤ 65535))) := by
  obtain ⟨opts1, params1, l, hd1, hl, hr⟩ := Parse_ok_inv hp
  rw [hd] at hd1
  injection hd1 with hd1
  injection hd1 with e1 e2
  subst e1 e2
  have hnd := decoded_nodup hd
  obtain ⟨hnd2, hmem⟩ := rangeOrder_facts hw params hnd
  obtain ⟨port, dt, hport, _, hN, hA, _⟩ := resolve_ok_fields hr
  have haddr : (o.Network, o.Addr) = specAddress (resolvedHost w l) port := by
    rw [hN, hA]
    exact assemble_address w l _ port dt
  have hloop := rangeLoop_port _ _ _ hnd2 hl
  have hlrange : -9223372036854775808 ≤ l.port ∧ l.port ≤ 9223372036854775807 := by
    by_cases hex : ∃ v, ("port".data, v) ∈ params
    · obtain ⟨v, hv⟩ := hex
      exact Atoi_range (hloop.1 v ((hmem _).mpr hv))
    · have h0 : l.port = 0 := hloop.2 (fun v hv => hex ⟨v, (hmem _).mp hv⟩)
      rw [h0]
      omega
  have hprange : -9223372036854775808 ≤ port ∧ port ≤ 9223372036854775807 := by
    unfold resolvedPort at hport
    split at hport
    · exact Atoi_range hport
    · injection hport with hport
      rw [← hport]
      exact hlrange
  refine ⟨l.port, port, if port = 0 then 5432 else port, ?_, ?_, ?_, ?_, rfl, ?_, ?_, ?_, ?_⟩
  · intro v hv
    exact hloop.1 v ((hmem _).mpr hv)
  · intro hno
    exact hloop.2 (fun v hv => hno v ((hmem _).mp hv))
  · rw [← resolvedPort_eq_specPort]
    exact hport
  · exact addrPort_specAddress o _ port haddr hprange.1 hprange.2
  · split <;> omega
  · split <;> omega
  · split <;> omega
  · split <;> omega

set_option maxRecDepth 100000 in
/-- C21 at `port=6000` with no variable set: the port that ends the address
is 6000. -/
theorem C21_port_is_the_supplied_integer_witness :
    ∃ o, Parse exampleWorld "port=6000".data = Except.ok o ∧ addrPort o = some 6000 :=
  ⟨_, rfl, by
    obtain ⟨e, p, n, h1, _, h3, h4, h5, _⟩ :=
      C21_port_is_the_supplied_integer exampleWorld exampleWorld_perm "port=6000".data {} _
        [("port".data, "6000".data)] rfl rfl
    have he : e = 6000 := by
      have := h1 "6000".data (by simp)
      exact (Option.some.inj this).symm
    subst he
    have hp : p = 6000 := (Option.some.inj h3).symm
    subst hp
    rw [h4, h5]
    rfl⟩

set_option maxRecDepth 100000 in
/-- C21 as stated fails: a port outside 1..65535 goes into the address
unchanged.  With no variable set `port=70000` gives `localhost:70000` and
`port=-1` gives `localhost:-1`; `host=/tmp port=70000` gives the socket
`/tmp/.s.PGSQL.70000`; PGPORT=99999 gives `localhost:99999` for the empty
string. -/
theorem C21_port_out_of_range_counterexample :
    Parse exampleWorld "port=70000".data =
      Except.ok
        { Network := "tcp".data, Addr := "localhost:70000".data, User := "alice".data,
          Database := "alice".data } ∧
    (Parse exampleWorld "port=70000".data).toOption.map addrPort = some (some 70000) ∧
    Parse exampleWorld "port=-1".data =
      Except.ok
        { Network := "tcp".data, Addr := "localhost:-1".data, User := "alice".data,
          Database := "alice".data } ∧
    (Parse exampleWorld "port=-1".data).toOption.map addrPort = some (some (-1)) ∧
    Parse exampleWorld "host=/tmp port=70000".data =
      Except.ok
        { Network := "unix".data, Addr := "/tmp/.s.PGSQL.70000".data, User := "alice".data,
          Database := "alice".data } ∧
    (Parse exampleWorld "host=/tmp port=70000".data).toOption.map addrPort =
      some (some 70000) ∧
    Parse (envWorld "PGPORT".data "99999".data) [] =
      Except.ok
        { Network := "tcp".data, Addr := "localhost:99999".data, User := "alice".data,
          Database := "alice".data } ∧
    (Parse (envWorld "PGPORT".data "99999".data) []).toOption.map addrPort =
      some (some 99999) :=
  ⟨rfl, rfl, rfl, rfl, rfl, rfl, rfl, rfl⟩

end pqparser
